import Mathlib

/-!
# microshell_v1.c / microshell_v2.c : a shallow embedding

The two C files are embedded as state-passing functions over an explicit
process state `St`.  The operating system is a parameter: `Env` gives the
outcome of every fallible system call, the descriptor table follows the kernel
rule that a new descriptor is the lowest free one.

* `argv[i .. argc)` (the cursor `i`) is represented by the list of tokens that
  are still to be read; `argv[0]` (the program name) is not part of it.
* `g_pids[0 .. g_pids_count)` is the list `St.g_pids`.
* `pipe_fds = {-1, -1}` is `none`; every other descriptor is a natural number.
* `waitpid`/`wait` are assumed to return (children terminate); their results
  are ignored by the code.
-/

namespace Microshell

/-- Operator type following a command: `TYPE_END`, `TYPE_PIPE`, `TYPE_SEMI`. -/
inductive Sep
  | END
  | PIPE
  | SEMI
  deriving DecidableEq, Repr

/-- What an open descriptor refers to: something the interpreter was started
with, or one end of the `k`-th pipe created by the process. -/
inductive Res
  | init (fd : Nat)
  | pipeR (k : Nat)
  | pipeW (k : Nat)
  deriving DecidableEq, Repr

/-- The descriptor table of a process: entry `fd` is `none` when `fd` is closed. -/
abbrev FdTable := List (Option Res)

/-- System calls made by a process, in order, with their outcome. -/
inductive Event
  | pipe (r w : Nat)
  | pipeFail
  | fork (pid : Nat)
  | forkFail
  | close (fd : Nat) (ok : Bool)
  | dup2 (old new : Nat) (ok : Bool)
  | chdir (path : String) (ok : Bool)
  | write (fd : Nat) (bytes : List Char)
  | writeFail (fd : Nat)
  | waitpid (pid : Nat)
  | wait (pid : Option Nat)
  | execve (path : String) (argv : List String) (ok : Bool)
  deriving DecidableEq, Repr

/-- Outcomes of the fallible system calls; the argument is the number of
fallible calls the process has made before this one. -/
structure Env where
  mallocOk : Nat → Bool
  pipeOk : Nat → Bool
  /-- Result of `fork` in the parent: `none` is `-1`, `some p` is the pid `p + 1`. -/
  forkRes : Nat → Option Nat
  closeOk : Nat → Bool
  dup2Ok : Nat → Bool
  chdirOk : Nat → Bool
  /-- Result of `write`: `none` is `-1`, `some k` transfers `k + 1` bytes
  (at most the bytes offered). -/
  writeRes : Nat → Option Nat
  execOk : Nat → Bool

/-- The variables a forked child starts from: its pid as seen by the parent,
the descriptor table it inherits, and the locals its branch reads. -/
structure Child where
  pid : Nat
  fds : FdTable
  argv : List String
  inFd : Nat
  sep : Sep
  pipe_fds : Option (Nat × Nat)
  deriving DecidableEq, Repr

/-- State of one process. -/
structure St where
  env : Env
  tick : Nat
  fds : FdTable
  npipes : Nat
  trace : List Event
  /-- Children forked so far (ghost). -/
  children : List Child
  /-- Children forked and not yet waited for. -/
  live : List Nat
  g_pids : List Nat
  /-- Segments handed to the dispatch code, with their separator (ghost). -/
  dispatched : List (List String × Sep)

/-- How a process stops other than by returning from `main`. -/
inductive Halt
  | exited (code : Nat)
  | execed
  deriving DecidableEq, Repr

/-- Result of running a piece of code: it returns a value, or the process stops. -/
inductive Run (α : Type)
  | ok (a : α) (s : St)
  | halt (h : Halt) (s : St)

/-- Final state of a run. -/
def Run.st {α : Type} : Run α → St
  | .ok _ s => s
  | .halt _ s => s

/-- Exit code of a process whose `main` produced this run. -/
def Run.code : Run Nat → Option Nat
  | .ok a _ => some a
  | .halt (.exited c) _ => some c
  | .halt .execed _ => none

/-- Whether the code returned to its caller. -/
def Run.returned {α : Type} : Run α → Bool
  | .ok _ _ => true
  | .halt _ _ => false

/-- Code acting on the process state. -/
def M (α : Type) := St → Run α

/-- Return a value. -/
def M.pure {α : Type} (a : α) : M α := fun s => .ok a s

/-- Sequencing; a halted process runs nothing more. -/
def M.bind {α β : Type} (x : M α) (f : α → M β) : M β := fun s =>
  match x s with
  | .ok a s1 => f a s1
  | .halt h s1 => .halt h s1

instance : Monad M where
  pure := M.pure
  bind := M.bind

/-- The call `exit(code)`. -/
def sys_exit {α : Type} (code : Nat) : M α := fun s => .halt (.exited code) s

/-! ## Descriptor table -/

/-- Resource behind descriptor `fd`. -/
def fdGet (t : FdTable) (fd : Nat) : Option Res := (t.get? fd).join

/-- Entry `fd` of the table set to `v`, the table growing when needed. -/
def fdPut : FdTable → Nat → Option Res → FdTable
  | [], 0, v => [v]
  | [], fd + 1, v => none :: fdPut [] fd v
  | _ :: t, 0, v => v :: t
  | x :: t, fd + 1, v => x :: fdPut t fd v

/-- The lowest descriptor that is not open. -/
def lowestFree : FdTable → Nat
  | [] => 0
  | none :: _ => 0
  | some _ :: t => lowestFree t + 1

/-! ## System calls -/

/-- The call `malloc`: only its success matters. -/
def sys_malloc : M Bool := fun s =>
  .ok (s.env.mallocOk s.tick) { s with tick := s.tick + 1 }

/-- The call `write(fd, buf, len)` for a non-empty buffer: `none` is `-1`. -/
def sys_write (fd : Nat) (buf : List Char) : M (Option Nat) := fun s =>
  match s.env.writeRes s.tick with
  | none => .ok none { s with tick := s.tick + 1, trace := s.trace ++ [.writeFail fd] }
  | some k =>
    let n := min (k + 1) buf.length
    .ok (some n) { s with tick := s.tick + 1, trace := s.trace ++ [.write fd (buf.take n)] }

/-- The call `chdir(path)`: `true` is `0`, `false` is `-1`. -/
def sys_chdir (path : String) : M Bool := fun s =>
  let ok := s.env.chdirOk s.tick
  .ok ok { s with tick := s.tick + 1, trace := s.trace ++ [.chdir path ok] }

/-- The call `close(fd)`: fails on a descriptor that is not open, or when the
environment says so. -/
def sys_close (fd : Nat) : M Bool := fun s =>
  let ok := (fdGet s.fds fd).isSome && s.env.closeOk s.tick
  .ok ok { s with tick := s.tick + 1, trace := s.trace ++ [.close fd ok],
                  fds := if ok then fdPut s.fds fd none else s.fds }

/-- The call `dup2(old, new)`. -/
def sys_dup2 (old new : Nat) : M Bool := fun s =>
  let ok := (fdGet s.fds old).isSome && s.env.dup2Ok s.tick
  .ok ok { s with tick := s.tick + 1, trace := s.trace ++ [.dup2 old new ok],
                  fds := if ok then fdPut s.fds new (fdGet s.fds old) else s.fds }

/-- The call `pipe(pipe_fds)`: on success the read end and the write end are
the two lowest free descriptors, in this order. -/
def sys_pipe : M (Option (Nat × Nat)) := fun s =>
  if s.env.pipeOk s.tick then
    let r := lowestFree s.fds
    let t1 := fdPut s.fds r (some (.pipeR s.npipes))
    let w := lowestFree t1
    let t2 := fdPut t1 w (some (.pipeW s.npipes))
    .ok (some (r, w)) { s with tick := s.tick + 1, trace := s.trace ++ [.pipe r w],
                               fds := t2, npipes := s.npipes + 1 }
  else
    .ok none { s with tick := s.tick + 1, trace := s.trace ++ [.pipeFail] }

/-- The call `fork()` seen from the parent: `none` is `-1`, `some pid` has
`pid > 0`. -/
def sys_fork : M (Option Nat) := fun s =>
  match s.env.forkRes s.tick with
  | none => .ok none { s with tick := s.tick + 1, trace := s.trace ++ [.forkFail] }
  | some p => .ok (some (p + 1)) { s with tick := s.tick + 1, trace := s.trace ++ [.fork (p + 1)],
                                          live := s.live ++ [p + 1] }

/-- The call `waitpid(pid, NULL, 0)`; its result is not used. -/
def sys_waitpid (pid : Nat) : M Unit := fun s =>
  .ok () { s with trace := s.trace ++ [.waitpid pid], live := s.live.erase pid }

/-- The call `execve(path, argv, g_envp)`: on success the process image is
replaced, on failure the call returns. -/
def sys_execve (path : String) (argv : List String) : M Unit := fun s =>
  let ok := s.env.execOk s.tick
  let s1 := { s with tick := s.tick + 1, trace := s.trace ++ [.execve path argv ok] }
  if ok then .halt .execed s1 else .ok () s1

/-- Ghost: remember the child that the `pid == 0` branch of this fork runs. -/
def noteChild (pid : Nat) (argv : List String) (inFd : Nat) (sep : Sep)
    (pipe_fds : Option (Nat × Nat)) : M Unit := fun s =>
  .ok () { s with children := s.children ++ [⟨pid, s.fds, argv, inFd, sep, pipe_fds⟩] }

/-- Ghost: remember a dispatched segment. -/
def noteDispatch (argv : List String) (sep : Sep) : M Unit := fun s =>
  .ok () { s with dispatched := s.dispatched ++ [(argv, sep)] }

/-- Bytes that reached descriptor `fd`, in order. -/
def written (fd : Nat) : List Event → List Char
  | [] => []
  | .write fd1 b :: es => if fd1 = fd then b ++ written fd es else written fd es
  | _ :: es => written fd es

/-- `STDIN_FILENO`, `STDOUT_FILENO`, `STDERR_FILENO`. -/
def STDIN_FILENO : Nat := 0
def STDOUT_FILENO : Nat := 1
def STDERR_FILENO : Nat := 2

/-! ## Token scanning shared by the two `main` functions -/

/-- The scan condition `strcmp(t, "|") != 0 && strcmp(t, ";") != 0`. -/
def notOp (t : String) : Bool := t != "|" && t != ";"

/-- The operator type read at `argv[arg_scan_idx]`, `TYPE_END` past the end. -/
def next_operator : List String → Sep
  | [] => .END
  | t :: _ => if t = "|" then .PIPE else if t = ";" then .SEMI else .END

/-- The loop `for (k = 0; k < g_pids_count; k++) waitpid(g_pids[k], NULL, 0)`. -/
def wait_all : List Nat → M Unit
  | [] => pure ()
  | p :: ps => do
    sys_waitpid p
    wait_all ps

/-- Read the global `g_pids[0 .. g_pids_count)`. -/
def get_pids : M (List Nat) := fun s => .ok s.g_pids s

/-- The assignment `g_pids_count = 0`. -/
def reset_pids : M Unit := fun s => .ok () { s with g_pids := [] }

/-- The assignment `g_pids[g_pids_count++] = pid`. -/
def push_pid (pid : Nat) : M Unit := fun s => .ok () { s with g_pids := s.g_pids ++ [pid] }

/-! ## microshell_v1.c -/

namespace V1

/-- The `while (written < (ssize_t)len)` loop of `ft_putstr_fd`; `rest` is
`str + written`.  A failed `write` makes the function return. -/
def ft_putstr_loop (fd : Nat) : Nat → List Char → M Unit
  | 0, _ => pure ()
  | fuel + 1, rest =>
    if rest = [] then pure ()
    else do
      let res ← sys_write fd rest
      match res with
      | none => pure ()
      | some n => ft_putstr_loop fd fuel (rest.drop n)

/-- `void ft_putstr_fd(const char *str, int fd)` -/
def ft_putstr_fd (str : List Char) (fd : Nat) : M Unit :=
  if str.length > 0 then ft_putstr_loop fd str.length str else pure ()

/-- `void fatal_error()` -/
def fatal_error {α : Type} : M α := do
  ft_putstr_fd "error: fatal\n".toList STDERR_FILENO
  sys_exit 1

/-- `void cd_bad_args_error()` -/
def cd_bad_args_error : M Unit :=
  ft_putstr_fd "error: cd: bad arguments\n".toList STDERR_FILENO

/-- `void cd_chdir_error(const char *path)` -/
def cd_chdir_error (path : String) : M Unit := do
  ft_putstr_fd "error: cd: cannot change directory to ".toList STDERR_FILENO
  ft_putstr_fd path.toList STDERR_FILENO
  ft_putstr_fd "\n".toList STDERR_FILENO

/-- `void execve_error(const char *cmd_path)` -/
def execve_error {α : Type} (cmd_path : String) : M α := do
  ft_putstr_fd "error: cannot execute ".toList STDERR_FILENO
  ft_putstr_fd cmd_path.toList STDERR_FILENO
  ft_putstr_fd "\n".toList STDERR_FILENO
  sys_exit 1

/-- `void checked_close(int fd)` -/
def checked_close (fd : Nat) : M Unit := do
  let ok ← sys_close fd
  if ok then pure () else fatal_error

/-- `int execute_cd(char **cmd_args)` -/
def execute_cd (cmd_args : List String) : M Nat := do
  let arg_count := cmd_args.length
  if arg_count ≠ 2 then
    cd_bad_args_error
    pure 1
  else
    let ok ← sys_chdir (cmd_args.getD 1 "")
    if ok then pure 0
    else
      cd_chdir_error (cmd_args.getD 1 "")
      pure 1

/-- Lines 169-172 of `main`, in the child: standard input is redirected to
the incoming link. -/
def child_stdin (current_input_fd : Nat) : M Unit := do
  if current_input_fd ≠ STDIN_FILENO then
    let ok ← sys_dup2 current_input_fd STDIN_FILENO
    if ¬ ok then fatal_error
    checked_close current_input_fd

/-- Lines 173-177 of `main`, in the child: standard output is redirected to
the write end of the pipe.  Without a pipe `pipe_fds` holds `{-1, -1}` and the
first `close` fails. -/
def child_stdout (next_operator_type : Sep) (pipe_fds : Option (Nat × Nat)) : M Unit := do
  if next_operator_type = .PIPE then
    match pipe_fds with
    | some (r, w) =>
      checked_close r
      let ok ← sys_dup2 w STDOUT_FILENO
      if ¬ ok then fatal_error
      checked_close w
    | none => fatal_error

/-- Lines 178-179 of `main`, in the child: `execve`, and the report when it
returns. -/
def child_exec (cmd_argv : List String) : M Unit := do
  sys_execve (cmd_argv.getD 0 "") cmd_argv
  execve_error (cmd_argv.getD 0 "")

/-- The child branch `if (pid == 0)` of `main` (lines 168-179), run by the
forked process on its copy of the descriptor table. -/
def child_branch (cmd_argv : List String) (current_input_fd : Nat)
    (next_operator_type : Sep) (pipe_fds : Option (Nat × Nat)) : M Unit := do
  child_stdin current_input_fd
  child_stdout next_operator_type pipe_fds
  child_exec cmd_argv

/-- Lines 142-199 of `main`: run one command segment; the result is the new
`current_input_fd`. -/
def dispatch (cmd_argv : List String) (current_input_fd : Nat)
    (next_operator_type : Sep) : M Nat := do
  if cmd_argv.getD 0 "" = "cd" then
    let cur ← (if current_input_fd ≠ STDIN_FILENO then do
        checked_close current_input_fd
        pure STDIN_FILENO
      else pure current_input_fd)
    let _ ← execute_cd cmd_argv
    pure cur
  else
    let pipe_fds ← (if next_operator_type = .PIPE then do
        let r ← sys_pipe
        match r with
        | none => fatal_error
        | some p => pure (some p)
      else pure none)
    let pid ← sys_fork
    match pid with
    | none =>
      match pipe_fds with
      | some (r, w) =>
        checked_close r
        checked_close w
        fatal_error
      | none => fatal_error
    | some pid =>
      noteChild pid cmd_argv current_input_fd next_operator_type pipe_fds
      if current_input_fd ≠ STDIN_FILENO then
        checked_close current_input_fd
      let cur ← (if next_operator_type = .PIPE then
          match pipe_fds with
          | some (r, w) => do
            checked_close w
            pure r
          | none => fatal_error
        else pure STDIN_FILENO)
      let pids ← get_pids
      if pids.length < 2048 then
        push_pid pid
      else
        fatal_error
      pure cur

/-- Lines 126-200 of `main`: the part of an inner-loop iteration that handles a
non-empty command `cmd_argv` followed by `next_operator_type`; the result is
the new `current_input_fd`. -/
def loop_body (cmd_argv : List String) (next_operator_type : Sep)
    (current_input_fd : Nat) : M Nat := do
  let ok ← sys_malloc
  if ¬ ok then fatal_error
  noteDispatch cmd_argv next_operator_type
  dispatch cmd_argv current_input_fd next_operator_type

/-- The inner loop `while (i < argc && sequence_continues)` (lines 106-216).
It returns the tokens left at its exit and `current_input_fd`; returning is
`sequence_continues = 0` or `i == argc`, the recursive call is the next
iteration with `sequence_continues = 1`. -/
def inner_loop : Nat → List String → Nat → M (List String × Nat)
  | 0, toks, cur => pure (toks, cur)
  | fuel + 1, toks, cur =>
    if toks = [] then pure (toks, cur)
    else
      let cmd_argv := toks.takeWhile notOp
      let rest := toks.dropWhile notOp
      if cmd_argv.length = 0 then
        match rest with
        | [] => inner_loop fuel rest cur
        | t :: r => if t = "|" ∨ t = ";" then inner_loop fuel r cur else inner_loop fuel rest cur
      else do
        let cur2 ← loop_body cmd_argv (next_operator rest) cur
        match rest with
        | [] => pure (rest, cur2)
        | t :: r =>
          if t = "|" then
            if r = [] then pure (r, cur2) else inner_loop fuel r cur2
          else if t = ";" then pure (r, cur2)
          else pure (rest, cur2)

/-- Lines 218-224 of `main`: wait for the children of the group, then close
the pending read end. -/
def end_group (current_input_fd : Nat) : M Unit := do
  let pids ← get_pids
  wait_all pids
  if current_input_fd ≠ STDIN_FILENO then
    checked_close current_input_fd

/-- The outer loop `while (i < argc)` (lines 101-225); it returns the tokens
left at its exit. -/
def outer_loop : Nat → List String → M (List String)
  | 0, toks => pure toks
  | fuel + 1, toks =>
    if toks = [] then pure toks
    else do
      reset_pids
      let (toks2, cur) ← inner_loop toks.length toks STDIN_FILENO
      end_group cur
      outer_loop fuel toks2

/-- What follows the inner loop: the end of the outer-loop iteration, then the
remaining iterations. -/
def after_inner (fuel : Nat) (p : List String × Nat) : M (List String) := do
  end_group p.2
  outer_loop fuel p.1

/-- `int main(int argc, char **argv, char **envp)`; `args` is `argv[1 .. argc)`. -/
def main (args : List String) : M Nat :=
  if args.length = 0 then pure 0
  else do
    let _ ← outer_loop args.length args
    pure 0

end V1

/-! ## microshell_v2.c -/

namespace V2

/-- `void fatal_error()`: one direct `write`, then `exit(1)`. -/
def fatal_error {α : Type} : M α := do
  let _ ← sys_write STDERR_FILENO "error: fatal\n".toList
  sys_exit 1

/-- The `while (written_total < (ssize_t)len)` loop of `ft_putstr_fd`.  A
failed `write` is fatal, unless the string is the fatal message itself on the
error stream. -/
def ft_putstr_loop (str : List Char) (fd : Nat) : Nat → List Char → M Unit
  | 0, _ => pure ()
  | fuel + 1, rest =>
    if rest = [] then pure ()
    else do
      let res ← sys_write fd rest
      match res with
      | none =>
        if ¬ (fd = STDERR_FILENO ∧ str = "error: fatal\n".toList) then fatal_error
        else pure ()
      | some n => ft_putstr_loop str fd fuel (rest.drop n)

/-- `void ft_putstr_fd(const char *str, int fd)` -/
def ft_putstr_fd (str : List Char) (fd : Nat) : M Unit :=
  if str.length = 0 then pure () else ft_putstr_loop str fd str.length str

/-- `void cd_bad_args_error()` -/
def cd_bad_args_error : M Unit :=
  ft_putstr_fd "error: cd: bad arguments\n".toList STDERR_FILENO

/-- `void cd_chdir_error(const char *path)` -/
def cd_chdir_error (path : String) : M Unit := do
  ft_putstr_fd "error: cd: cannot change directory to ".toList STDERR_FILENO
  ft_putstr_fd path.toList STDERR_FILENO
  ft_putstr_fd "\n".toList STDERR_FILENO

/-- `void execve_error(const char *cmd_path)` -/
def execve_error {α : Type} (cmd_path : String) : M α := do
  ft_putstr_fd "error: cannot execute ".toList STDERR_FILENO
  ft_putstr_fd cmd_path.toList STDERR_FILENO
  ft_putstr_fd "\n".toList STDERR_FILENO
  sys_exit 1

/-- `void checked_close(int fd)`; the `fd < 0` test cannot hold for a natural
number. -/
def checked_close (fd : Nat) : M Unit := do
  let ok ← sys_close fd
  if ok then pure () else fatal_error

/-- `int execute_cd(char **cmd_args)` -/
def execute_cd (cmd_args : List String) : M Nat := do
  let arg_count := cmd_args.length
  if arg_count ≠ 2 then
    cd_bad_args_error
    pure 1
  else
    let ok ← sys_chdir (cmd_args.getD 1 "")
    if ok then pure 0
    else
      cd_chdir_error (cmd_args.getD 1 "")
      pure 1

/-- Lines 171-174 of `execute_command`, in the child: standard input is
redirected to the incoming link. -/
def child_stdin (current_input_fd : Nat) : M Unit := do
  if current_input_fd ≠ STDIN_FILENO then
    let ok ← sys_dup2 current_input_fd STDIN_FILENO
    if ¬ ok then fatal_error
    checked_close current_input_fd

/-- Lines 176-180 of `execute_command`, in the child: standard output is
redirected to the write end of the pipe.  Without a pipe `pipe_fds` holds
`{-1, -1}`: `checked_close` returns at once and `dup2` fails. -/
def child_stdout (next_operator_type : Sep) (pipe_fds : Option (Nat × Nat)) : M Unit := do
  if next_operator_type = .PIPE then
    match pipe_fds with
    | some (r, w) =>
      checked_close r
      let ok ← sys_dup2 w STDOUT_FILENO
      if ¬ ok then fatal_error
      checked_close w
    | none => fatal_error

/-- Lines 182-183 of `execute_command`, in the child: `execve`, and the report
when it returns. -/
def child_exec (cmd_argv : List String) : M Unit := do
  sys_execve (cmd_argv.getD 0 "") cmd_argv
  execve_error (cmd_argv.getD 0 "")

/-- The child branch `if (pid == 0)` of `execute_command` (lines 170-183), run
by the forked process on its copy of the descriptor table. -/
def child_branch (cmd_argv : List String) (current_input_fd : Nat)
    (next_operator_type : Sep) (pipe_fds : Option (Nat × Nat)) : M Unit := do
  child_stdin current_input_fd
  child_stdout next_operator_type pipe_fds
  child_exec cmd_argv

/-- `pid_t execute_command(char **cmd_argv, int current_input_fd,
int next_operator_type, int *pipe_out_fd)` in the parent; the result is the
returned pid (`0` for `cd`) and the value stored in `*pipe_out_fd`. -/
def execute_command (cmd_argv : List String) (current_input_fd : Nat)
    (next_operator_type : Sep) : M (Nat × Nat) := do
  if cmd_argv.getD 0 "" = "cd" then
    if current_input_fd ≠ STDIN_FILENO then
      checked_close current_input_fd
    let _ ← execute_cd cmd_argv
    pure (0, STDIN_FILENO)
  else
    let pipe_fds ← (if next_operator_type = .PIPE then do
        let r ← sys_pipe
        match r with
        | none =>
          if current_input_fd ≠ STDIN_FILENO then
            checked_close current_input_fd
          fatal_error
        | some p => pure (some p)
      else pure none)
    let pid ← sys_fork
    match pid with
    | none =>
      if current_input_fd ≠ STDIN_FILENO then
        checked_close current_input_fd
      match pipe_fds with
      | some (r, w) =>
        checked_close r
        checked_close w
        fatal_error
      | none => fatal_error
    | some pid =>
      noteChild pid cmd_argv current_input_fd next_operator_type pipe_fds
      if current_input_fd ≠ STDIN_FILENO then
        checked_close current_input_fd
      if next_operator_type = .PIPE then
        match pipe_fds with
        | some (r, w) => do
          checked_close w
          pure (pid, r)
        | none => fatal_error
      else pure (pid, STDIN_FILENO)

/-- Lines 242-285 of `main`: the part of a loop iteration that handles a
non-empty command `cmd_argv` (so `argv[cmd_start_idx]` is `cmd_argv[0]`)
followed by `operator_type`; the result is the new `current_cmd_input_fd`. -/
def loop_body (cmd_argv : List String) (operator_type : Sep) (cur : Nat) : M Nat := do
  let ok ← sys_malloc
  if ¬ ok then fatal_error
  noteDispatch cmd_argv operator_type
  let (child_pid, next_cmd_input_fd) ← execute_command cmd_argv cur operator_type
  if child_pid > 0 then
    let pids ← get_pids
    if pids.length < 4096 then
      push_pid child_pid
    else
      fatal_error
  if operator_type = .SEMI ∨ operator_type = .END ∨ cmd_argv.getD 0 "" = "cd" then
    let pids ← get_pids
    wait_all pids
    reset_pids
    if next_cmd_input_fd ≠ STDIN_FILENO then
      checked_close next_cmd_input_fd
      pure STDIN_FILENO
    else pure next_cmd_input_fd
  else pure next_cmd_input_fd

/-- The loop `while (i < argc)` of `main` (lines 210-291); it returns the
tokens left at its exit and `current_cmd_input_fd`. -/
def main_loop : Nat → List String → Nat → M (List String × Nat)
  | 0, toks, cur => pure (toks, cur)
  | fuel + 1, toks, cur =>
    if toks = [] then pure (toks, cur)
    else do
      reset_pids
      let cmd_argv := toks.takeWhile notOp
      let rest := toks.dropWhile notOp
      if cmd_argv.length = 0 then
        match rest with
        | [] => main_loop fuel rest cur
        | t :: r => if t = "|" ∨ t = ";" then main_loop fuel r cur else main_loop fuel rest cur
      else
        let operator_type := next_operator rest
        let cur2 ← loop_body cmd_argv operator_type cur
        if operator_type = .PIPE ∨ operator_type = .SEMI then
          main_loop fuel rest.tail cur2
        else
          main_loop fuel rest cur2

/-- The call `wait(NULL)`: it reaps one child that has not been waited for
(the oldest one here), or fails when there is none. -/
def sys_wait : M (Option Nat) := fun s =>
  match s.live with
  | [] => .ok none { s with trace := s.trace ++ [.wait none] }
  | p :: l => .ok (some p) { s with trace := s.trace ++ [.wait (some p)], live := l }

/-- The final loop `while (wait(NULL) > 0);`. -/
def wait_loop : Nat → M Unit
  | 0 => pure ()
  | fuel + 1 => do
    let r ← sys_wait
    match r with
    | none => pure ()
    | some _ => wait_loop fuel

/-- Number of children not yet waited for. -/
def live_count : M Nat := fun s => .ok s.live.length s

/-- `int main(int argc, char **argv, char **envp)`; `args` is `argv[1 .. argc)`. -/
def main (args : List String) : M Nat :=
  if args.length = 0 then pure 0
  else do
    let (_, cur) ← main_loop args.length args STDIN_FILENO
    if cur ≠ STDIN_FILENO then
      checked_close cur
    let n ← live_count
    wait_loop (n + 1)
    pure 0

end V2

/-! ## Reference segmentation and the loops as iterations over segments -/

/-- A command segment with the separator that follows it. -/
abbrev Segment := List String × Sep

/-- The segment collected so far, closed by separator `sep`; an empty run of
tokens is dropped. -/
def closeRun (acc : List String) (sep : Sep) : List Segment :=
  if acc = [] then [] else [(acc, sep)]

/-- Reference split, reading the tokens one by one: `acc` is the run of
non-operator tokens read since the last operator. -/
def refSplitAux : List String → List String → List Segment
  | acc, [] => closeRun acc .END
  | acc, t :: ts =>
    if t = "|" then closeRun acc .PIPE ++ refSplitAux [] ts
    else if t = ";" then closeRun acc .SEMI ++ refSplitAux [] ts
    else refSplitAux (acc ++ [t]) ts

/-- Reference split of a token list at the tokens equal to `|` or `;`, empty
segments dropped: the maximal runs of non-operator tokens, each with `PIPE`,
`SEMI` or `END` according to the token that follows it. -/
def refSplit (toks : List String) : List Segment := refSplitAux [] toks

/-- The state with the tracking array emptied. -/
def St.forget (s : St) : St := { s with g_pids := [] }

/-- A run in which the content of the tracking array is disregarded. -/
def Run.forget {α : Type} : Run α → Run α
  | .ok a s => .ok a s.forget
  | .halt h s => .halt h s.forget

/-- What microshell_v1 does from the middle of a pipeline group on, as an
iteration over the segments still to come: each segment is handled by
`loop_body`; after a segment not followed by a pipe the group is ended
(`end_group`) and a new one started.  The result is `current_input_fd` of the
group left open at the end of the input, which `main` ends as well. -/
def V1.run_segments : List Segment → Nat → M Nat
  | [], cur => pure cur
  | (cmd, op) :: rest, cur => do
    let cur2 ← V1.loop_body cmd op cur
    if op = .PIPE then V1.run_segments rest cur2
    else
      V1.end_group cur2
      reset_pids
      V1.run_segments rest STDIN_FILENO

/-- The segments handled in order, then the end of the last group. -/
def V1.run_all (segs : List Segment) (cur : Nat) : M (List String) := do
  let c ← V1.run_segments segs cur
  V1.end_group c
  pure []

/-- What the loop of microshell_v2 does, as an iteration over segments. -/
def V2.run_segments : List Segment → Nat → M Nat
  | [], cur => pure cur
  | (cmd, op) :: rest, cur => do
    reset_pids
    let cur2 ← V2.loop_body cmd op cur
    V2.run_segments rest cur2

/-- The behaviour of `main` of microshell_v1 in terms of the reference split. -/
def V1.main_spec (args : List String) : M Nat :=
  if args.length = 0 then pure 0
  else do
    reset_pids
    let _ ← V1.run_all (refSplit args) STDIN_FILENO
    pure 0

/-- What `main` of microshell_v2 does after its loop (lines 293-303). -/
def V2.main_end (cur : Nat) : M Nat := do
  if cur ≠ STDIN_FILENO then
    V2.checked_close cur
  let n ← V2.live_count
  V2.wait_loop (n + 1)
  pure 0

/-- The behaviour of `main` of microshell_v2 in terms of the reference split. -/
def V2.main_spec (args : List String) : M Nat :=
  if args.length = 0 then pure 0
  else do
    let cur ← V2.run_segments (refSplit args) STDIN_FILENO
    V2.main_end cur

/-- The final state with the tracking array replaced by `g`. -/
def Run.setPids {α : Type} (g : List Nat) : Run α → Run α
  | .ok a s => .ok a { s with g_pids := g }
  | .halt h s => .halt h { s with g_pids := g }

/-- Code that neither reads nor writes the tracking array. -/
def Indep {α : Type} (m : M α) : Prop :=
  ∀ (s : St) (g : List Nat), m { s with g_pids := g } = (m s).setPids g

/-! ## States reached by successful calls -/

/-- After `n` further fallible calls that appended `evs` to the trace and
changed nothing else. -/
def St.adv (s : St) (n : Nat) (evs : List Event) : St :=
  { s with tick := s.tick + n, trace := s.trace ++ evs }

/-- After a successful `malloc`. -/
def St.malloced (s : St) : St := { s with tick := s.tick + 1 }

/-- After the segment `(cmd, op)` was noted as dispatched. -/
def St.noted (s : St) (cmd : List String) (op : Sep) : St :=
  { s with dispatched := s.dispatched ++ [(cmd, op)] }

/-- After a successful `close(fd)`. -/
def St.closed (s : St) (fd : Nat) : St :=
  { s with tick := s.tick + 1, trace := s.trace ++ [.close fd true],
           fds := fdPut s.fds fd none }

/-- The read end a successful `pipe` returns in state `s`. -/
def St.pipeR (s : St) : Nat := lowestFree s.fds

/-- The write end a successful `pipe` returns in state `s`. -/
def St.pipeW (s : St) : Nat := lowestFree (fdPut s.fds (lowestFree s.fds) (some (.pipeR s.npipes)))

/-- After a successful `pipe`. -/
def St.piped (s : St) : St :=
  { s with tick := s.tick + 1, trace := s.trace ++ [.pipe s.pipeR s.pipeW],
           fds := fdPut (fdPut s.fds s.pipeR (some (.pipeR s.npipes))) s.pipeW
             (some (.pipeW s.npipes)),
           npipes := s.npipes + 1 }

/-- The pid a successful `fork` returns in state `s`. -/
def St.forkPid (s : St) : Nat := (s.env.forkRes s.tick).getD 0 + 1

/-- After a successful `fork` whose child runs `argv` with the given locals. -/
def St.forked (s : St) (argv : List String) (inFd : Nat) (sep : Sep)
    (pipe_fds : Option (Nat × Nat)) : St :=
  { s with tick := s.tick + 1, trace := s.trace ++ [.fork s.forkPid],
           live := s.live ++ [s.forkPid],
           children := s.children ++ [⟨s.forkPid, s.fds, argv, inFd, sep, pipe_fds⟩] }

/-- After `pid` was stored in the tracking array. -/
def St.pushed (s : St) (pid : Nat) : St := { s with g_pids := s.g_pids ++ [pid] }

/-- After `waitpid` was called on each of `pids`. -/
def St.waited (s : St) (pids : List Nat) : St :=
  { s with trace := s.trace ++ pids.map Event.waitpid,
           live := pids.foldl List.erase s.live }

/-- The parent state after an external command was spawned with every call
succeeding: the pipe when `op` is `PIPE`, the fork, the close of the incoming
link when it is not standard input, the close of the pipe's write end. -/
def spawnSt (cmd : List String) (cur : Nat) (op : Sep) (s : St) : St :=
  let s1 := if op = .PIPE then s.piped else s
  let pf := if op = .PIPE then some (s.pipeR, s.pipeW) else none
  let s2 := s1.forked cmd cur op pf
  let s3 := if cur ≠ STDIN_FILENO then s2.closed cur else s2
  if op = .PIPE then s3.closed s.pipeW else s3

/-- The link handed to the next segment by a spawned command. -/
def spawnCur (op : Sep) (s : St) : Nat := if op = .PIPE then s.pipeR else STDIN_FILENO

/-- The pid of the child of a spawned command. -/
def spawnPid (op : Sep) (s : St) : Nat := (if op = .PIPE then s.piped else s).forkPid

/-- Every `pipe`, `fork` and `close` call succeeds (apart from a `close` of a
descriptor that is not open). -/
structure PfcOk (env : Env) : Prop where
  pipe : ∀ t, env.pipeOk t = true
  fork : ∀ t, (env.forkRes t).isSome = true
  close : ∀ t, env.closeOk t = true

/-- Every `malloc` call succeeds. -/
def MallocOk (env : Env) : Prop := ∀ t, env.mallocOk t = true

/-- A `write` call, successful or not. -/
def Event.isOutput : Event → Bool
  | .write _ _ => true
  | .writeFail _ => true
  | _ => false

/-- A call made by `execute_cd`: `chdir` or `write`. -/
def Event.isCd : Event → Bool
  | .chdir _ _ => true
  | e => e.isOutput

/-- A `waitpid` or `wait` call. -/
def Event.isWait : Event → Bool
  | .waitpid _ => true
  | .wait _ => true
  | _ => false

/-- The run `r`, started in `s`, only made fallible calls that added events
satisfying `P` to the trace, and if it stopped the process it was by
`exit(1)`. -/
def Advances {α : Type} (P : Event → Bool) (s : St) (r : Run α) : Prop :=
  ∃ n evs, r.st = s.adv n evs ∧ (∀ e ∈ evs, P e = true) ∧
    (r.returned = true ∨ ∃ s1, r = .halt (.exited 1) s1)

/-- The incoming link closed when it is not standard input. -/
def St.closeIf (s : St) (cur : Nat) : St := if cur ≠ STDIN_FILENO then s.closed cur else s

/-- The state in which a segment is dispatched: after the successful `malloc`
of its argument vector. -/
def stepBase (cmd : List String) (op : Sep) (s : St) : St := (s.malloced).noted cmd op

/-- Lines 190-197 of `main` in microshell_v1: track the child, or abort when
the tracking array is full. -/
def V1.track (pid : Nat) : M Unit := do
  let pids ← get_pids
  if pids.length < 2048 then
    push_pid pid
  else
    V1.fatal_error

/-- Whether the segment is the builtin: `strcmp(cmd_argv[0], "cd") == 0`. -/
def isCdCmd (cmd : List String) : Prop := cmd.getD 0 "" = "cd"

instance (cmd : List String) : Decidable (isCdCmd cmd) := by
  unfold isCdCmd
  infer_instance

/-- The link handed to the next segment after `(cmd, op)` was dispatched in `s`. -/
def stepCur (cmd : List String) (op : Sep) (s : St) : Nat :=
  if isCdCmd cmd then STDIN_FILENO else spawnCur op (stepBase cmd op s)

/-- The state after `loop_body` of microshell_v1 handled `(cmd, op)` from
state `s` with incoming link `cur`, all its calls succeeding. -/
def V1Post (cmd : List String) (op : Sep) (cur : Nat) (s s1 : St) : Prop :=
  if isCdCmd cmd then
    ∃ n evs, s1 = ((stepBase cmd op s).closeIf cur).adv n evs ∧ ∀ e ∈ evs, Event.isCd e = true
  else
    s1 = (spawnSt cmd cur op (stepBase cmd op s)).pushed (spawnPid op (stepBase cmd op s))

/-- The state after a loop iteration of microshell_v2 (the reset of the
tracking array, then `loop_body`) handled `(cmd, op)` from state `s` with
incoming link `cur`, all its calls succeeding. -/
def V2Post (cmd : List String) (op : Sep) (cur : Nat) (s s1 : St) : Prop :=
  if isCdCmd cmd then
    ∃ n evs, s1 = ((stepBase cmd op s.forget).closeIf cur).adv n evs ∧
      ∀ e ∈ evs, Event.isCd e = true
  else if op = .PIPE then
    s1 = (spawnSt cmd cur op (stepBase cmd op s.forget)).pushed
      (spawnPid op (stepBase cmd op s.forget))
  else
    s1 = (spawnSt cmd cur op (stepBase cmd op s.forget)).waited
      [spawnPid op (stepBase cmd op s.forget)]

/-- Lines 265-285 of `main` in microshell_v2: what follows the call of
`execute_command`, given the two values it produced. -/
def V2.loop_tail (cmd_argv : List String) (operator_type : Sep) (r : Nat × Nat) : M Nat := do
  if r.1 > 0 then
    let pids ← get_pids
    if pids.length < 4096 then
      push_pid r.1
    else
      V2.fatal_error
  if operator_type = .SEMI ∨ operator_type = .END ∨ cmd_argv.getD 0 "" = "cd" then
    let pids ← get_pids
    wait_all pids
    reset_pids
    if r.2 ≠ STDIN_FILENO then
      V2.checked_close r.2
      pure STDIN_FILENO
    else pure r.2
  else pure r.2

/-- Whether microshell_v1 gets through the segments without filling its
tracking array, `c` children being tracked already: every external command
needs a free slot among the 2048, and the count starts again after a segment
that is not followed by a pipe. -/
def capOk : Nat → List Segment → Bool
  | _, [] => true
  | c, (cmd, op) :: rest =>
    if isCdCmd cmd then capOk (if op = .PIPE then c else 0) rest
    else decide (c < 2048) && capOk (if op = .PIPE then c + 1 else 0) rest

/-- The incoming link is standard input or an open descriptor. -/
def LinkOk (cur : Nat) (s : St) : Prop :=
  cur ≠ STDIN_FILENO → (fdGet s.fds cur).isSome = true

/-- The descriptors of the parent after one segment, in either version. -/
def fdsAfter (cmd : List String) (op : Sep) (cur : Nat) (s : St) (j : Nat) : Option Res :=
  if ¬ isCdCmd cmd ∧ op = .PIPE ∧ j = s.pipeR then some (.pipeR s.npipes)
  else if cur ≠ STDIN_FILENO ∧ j = cur then none else fdGet s.fds j

/-- The parent holds exactly the descriptors of the initial table `fds0`, plus
the link `cur` when it is not standard input, which is then the read end of a
pipe on a descriptor that was free at the start. -/
def FdsInv (fds0 : FdTable) (cur : Nat) (s : St) : Prop :=
  (cur ≠ STDIN_FILENO → (∃ k, fdGet s.fds cur = some (.pipeR k)) ∧ fdGet fds0 cur = none) ∧
  ∀ j, (cur = STDIN_FILENO ∨ j ≠ cur) → fdGet s.fds j = fdGet fds0 j

/-- The pipeline groups of a list of segments: the maximal runs of segments in
which every segment but the last is followed by a pipe. -/
def groupsOf : List Segment → List (List Segment)
  | [] => []
  | sg :: rest =>
    if sg.2 = .PIPE then
      match groupsOf rest with
      | [] => [[sg]]
      | g :: gs => (sg :: g) :: gs
    else [sg] :: groupsOf rest

/-- Number of external commands (segments other than `cd`) in a group. -/
def forkCount : List Segment → Nat
  | [] => 0
  | sg :: rest => (if isCdCmd sg.1 then 0 else 1) + forkCount rest

/-- No pipeline group has more than `n` external commands. -/
def GroupsWithin (n : Nat) (segs : List Segment) : Prop :=
  ∀ g ∈ groupsOf segs, forkCount g ≤ n

instance (n : Nat) (segs : List Segment) : Decidable (GroupsWithin n segs) := by
  unfold GroupsWithin
  infer_instance

/-- The `fork` and `waitpid` calls of a trace: `(true, pid)` for a fork that
returned `pid`, `(false, pid)` for `waitpid(pid)`. -/
def Event.fw : Event → Option (Bool × Nat)
  | .fork pid => some (true, pid)
  | .waitpid pid => some (false, pid)
  | _ => none

/-- The subsequence of `fork` and `waitpid` calls of a trace. -/
def fwTrace (tr : List Event) : List (Bool × Nat) := tr.filterMap Event.fw

/-- The forks of the children `pids`, in order. -/
def forksOf (pids : List Nat) : List (Bool × Nat) := pids.map (fun p => (true, p))

/-- The `waitpid` calls on the children `pids`, in order. -/
def waitsOf (pids : List Nat) : List (Bool × Nat) := pids.map (fun p => (false, p))

/-- What a pipeline group with children `pids` contributes: all the forks,
then one `waitpid` per child in fork order. -/
def groupBlock (pids : List Nat) : List (Bool × Nat) := forksOf pids ++ waitsOf pids

/-- The forks and waits still to come when the children `pending` of the
current group are tracked and the groups still to be run fork `pss`. -/
def comingFw (pending : List Nat) : List (List Nat) → List (Bool × Nat)
  | [] => waitsOf pending
  | ps :: rest => forksOf ps ++ waitsOf (pending ++ ps) ++ (rest.map groupBlock).flatten

/-- The events appended to the parent's trace by spawning an external command. -/
def spawnEvents (cur : Nat) (op : Sep) (s : St) : List Event :=
  (if op = .PIPE then [Event.pipe s.pipeR s.pipeW] else []) ++ [Event.fork (spawnPid op s)] ++
    (if cur ≠ STDIN_FILENO then [Event.close cur true] else []) ++
    (if op = .PIPE then [Event.close s.pipeW true] else [])

/-- A trace with its `waitpid` and `wait` calls removed. -/
def noWaits (tr : List Event) : List Event := tr.filter (fun e => !e.isWait)

/-- Two parent states that differ at most in their reaping: same environment,
same number of fallible calls made, same descriptors, same pipes created, same
children forked (argument vector, inherited descriptors and wiring), same
segments dispatched, and the same trace once the waits are removed. -/
structure Sim (s1 s2 : St) : Prop where
  env : s1.env = s2.env
  tick : s1.tick = s2.tick
  fds : s1.fds = s2.fds
  npipes : s1.npipes = s2.npipes
  children : s1.children = s2.children
  dispatched : s1.dispatched = s2.dispatched
  trace : noWaits s1.trace = noWaits s2.trace

/-- Code whose outcome depends only on the environment and on the number of
fallible calls made so far, that always returns, and that changes nothing but
the trace. -/
def Local {α : Type} (m : M α) : Prop :=
  ∀ s s1 : St, s.env = s1.env → s.tick = s1.tick →
    ∃ v n evs, m s = .ok v (s.adv n evs) ∧ m s1 = .ok v (s1.adv n evs)

/-- The environment with the outcomes of `execve` replaced by `ex`. -/
def Env.withExec (env : Env) (ex : Nat → Bool) : Env := { env with execOk := ex }

/-- The state with the outcomes of `execve` replaced by `ex`. -/
def St.withExec (s : St) (ex : Nat → Bool) : St := { s with env := s.env.withExec ex }

/-- The run with the outcomes of `execve` replaced by `ex` in its final state. -/
def Run.withExec {α : Type} (ex : Nat → Bool) : Run α → Run α
  | .ok a s => .ok a (s.withExec ex)
  | .halt h s => .halt h (s.withExec ex)

/-- Code whose run does not depend on the outcomes of `execve`. -/
def ExecFree {α : Type} (m : M α) : Prop :=
  ∀ (s : St) (ex : Nat → Bool), m (s.withExec ex) = (m s).withExec ex

/-- After a successful `dup2(old, new)`. -/
def St.dupped (s : St) (old new : Nat) : St :=
  { s with tick := s.tick + 1, trace := s.trace ++ [.dup2 old new true],
           fds := fdPut s.fds new (fdGet s.fds old) }

/-- Every `dup2`, `close` and `execve` call of a child succeeds (apart from a
call on a descriptor that is not open). -/
structure ChildOk (env : Env) : Prop where
  dup2 : ∀ t, env.dup2Ok t = true
  close : ∀ t, env.closeOk t = true
  exec : ∀ t, env.execOk t = true

/-- The child forked for the external command `cmd` in state `s`, `cur` being
the incoming link and `op` the separator after the command. -/
def childOf (cmd : List String) (cur : Nat) (op : Sep) (s : St) : Child :=
  ⟨spawnPid op s, (if op = .PIPE then s.piped else s).fds, cmd, cur, op,
    if op = .PIPE then some (s.pipeR, s.pipeW) else none⟩

/-- The streams the specification gives a forked command: `stdin` is the
number of the pipe whose read end is its standard input, `stdout` the number
of the pipe whose write end is its standard output; `none` is the stream of
the interpreter itself.  Pipes are numbered in the order of their creation. -/
structure Wiring where
  argv : List String
  stdin : Option Nat
  stdout : Option Nat
  deriving DecidableEq, Repr

/-- The streams of the forked commands of a list of segments according to the
specification.  `link` is the pipe created for the segment just before when
that segment was an external command followed by a pipe operator, and `k` is
the number of pipes created so far.  A `cd` forks nothing and passes no pipe
on; an external command reads from `link`, and writes to a fresh pipe exactly
when it is followed by a pipe operator. -/
def wiringSpec : List Segment → Option Nat → Nat → List Wiring
  | [], _, _ => []
  | (cmd, op) :: rest, link, k =>
    if isCdCmd cmd then wiringSpec rest none k
    else if op = .PIPE then ⟨cmd, link, some k⟩ :: wiringSpec rest (some k) (k + 1)
    else ⟨cmd, link, none⟩ :: wiringSpec rest none k

/-- The resource expected on a standard descriptor `fd`: the given end of the
pipe `k`, or what the interpreter was started with on `fd`. -/
def streamOf (fds0 : FdTable) (fd : Nat) (pipeEnd : Nat → Res) : Option Nat → Option Res
  | none => fdGet fds0 fd
  | some k => some (pipeEnd k)

/-- The run `r` of the child `c` reaches a successful `execve` of the command
of `w` with the streams of `w`: descriptor 0 and descriptor 1 are as `w` says
and every other descriptor is as in the table `fds0` the interpreter was
started with, so that no other end of a pipe of the interpreter is open. -/
def WiredAs (fds0 : FdTable) (w : Wiring) (c : Child) (r : Run Unit) : Prop :=
  c.argv = w.argv ∧ ∃ s1, r = .halt .execed s1 ∧
    s1.trace.getLast? = some (Event.execve (w.argv.getD 0 "") w.argv true) ∧
    fdGet s1.fds STDIN_FILENO = streamOf fds0 STDIN_FILENO Res.pipeR w.stdin ∧
    fdGet s1.fds STDOUT_FILENO = streamOf fds0 STDOUT_FILENO Res.pipeW w.stdout ∧
    ∀ j, j ≠ STDIN_FILENO → j ≠ STDOUT_FILENO → fdGet s1.fds j = fdGet fds0 j

/-- The incoming link `cur` is the read end of the pipe `link`, or standard
input when there is none. -/
def LinkIs (cur : Nat) (link : Option Nat) (s : St) : Prop :=
  match link with
  | none => cur = STDIN_FILENO
  | some k => cur ≠ STDIN_FILENO ∧ fdGet s.fds cur = some (.pipeR k)

/-- The pipe handed to the segment after `(cmd, op)`. -/
def nextLink (cmd : List String) (op : Sep) (s : St) : Option Nat :=
  if ¬ isCdCmd cmd ∧ op = .PIPE then some s.npipes else none

/-- The number of pipes created once `(cmd, op)` was handled. -/
def nextPipes (cmd : List String) (op : Sep) (s : St) : Nat :=
  if ¬ isCdCmd cmd ∧ op = .PIPE then s.npipes + 1 else s.npipes

/-- The children forked when the segment `(cmd, op)` is handled in state `s`
with incoming link `cur`: none for `cd`, one for an external command. -/
def stepChildren (cmd : List String) (cur : Nat) (op : Sep) (s : St) : List Child :=
  if isCdCmd cmd then [] else [childOf cmd cur op (stepBase cmd op s)]

/-- The children `cs`, in order, have the streams `ws`: whenever the `dup2`,
`close` and `execve` calls of a child succeed, its run (given by `run`) reaches
`execve` wired as the specification says. -/
def ChildrenWired (run : Env → Child → Run Unit) (fds0 : FdTable) (cs : List Child)
    (ws : List Wiring) : Prop :=
  List.Forall₂ (fun c w => ∀ cenv, ChildOk cenv → WiredAs fds0 w c (run cenv c)) cs ws

/-- A `write` call on descriptor `fd`, successful or not. -/
def Event.onFd (fd : Nat) : Event → Bool
  | .write fd1 _ => fd1 == fd
  | .writeFail fd1 => fd1 == fd
  | _ => false

/-- The value `execute_cd` returns when it returns: 0 when the vector has
exactly 2 tokens and `chdir` succeeds, 1 otherwise. -/
def cdRet (args : List String) (s : St) : Nat :=
  if args.length = 2 ∧ s.env.chdirOk s.tick = true then 0 else 1

/-- The calls `evs` made by `execute_cd` on `args` from state `s`, whatever the
outcome of its writes: with a token count other than 2, nothing but writes to
the error stream (no `chdir`); otherwise first `chdir` on the second token,
once, then nothing when it succeeded and nothing but writes to the error
stream when it failed. -/
def CdCalls (args : List String) (s : St) (evs : List Event) : Prop :=
  if args.length ≠ 2 then ∀ e ∈ evs, e.onFd STDERR_FILENO = true
  else ∃ rest, evs = .chdir (args.getD 1 "") (s.env.chdirOk s.tick) :: rest ∧
    (∀ e ∈ rest, e.onFd STDERR_FILENO = true) ∧ (s.env.chdirOk s.tick = true → rest = [])

/-- The run `r`, started in `s`, only made `write` calls on the error stream,
and if it stopped the process it was by `exit(1)` after one of these writes
had failed. -/
def ErrRun {α : Type} (s : St) (r : Run α) : Prop :=
  ∃ n evs, r.st = s.adv n evs ∧ (∀ e ∈ evs, e.onFd STDERR_FILENO = true) ∧
    (r.returned = true ∨
      ((∃ s1, r = .halt (.exited 1) s1) ∧ Event.writeFail STDERR_FILENO ∈ evs))

/-! ## Environments and initial states used in the statements -/

/-- An environment in which every call succeeds; `fork` returns the pids
`1, 2, 3, ...` shifted by the call index. -/
def okEnv : Env where
  mallocOk := fun _ => true
  pipeOk := fun _ => true
  forkRes := fun n => some n
  closeOk := fun _ => true
  dup2Ok := fun _ => true
  chdirOk := fun _ => true
  writeRes := fun _ => some 1000
  execOk := fun _ => true

/-- The token list `a | a | ... | a` with `n + 1` commands. -/
def pipeline : Nat → List String
  | 0 => ["a"]
  | n + 1 => "a" :: "|" :: pipeline n

/-- An environment like `okEnv` in which every `malloc` fails. -/
def noMallocEnv : Env := { okEnv with mallocOk := fun _ => false }

/-- An environment like `okEnv` in which every `chdir` fails. -/
def noChdirEnv : Env := { okEnv with chdirOk := fun _ => false }

/-- An environment like `noChdirEnv` in which every `write` returns `-1` too. -/
def noChdirWriteEnv : Env := { noChdirEnv with writeRes := fun _ => none }

/-- An environment like `okEnv` in which every `execve` fails. -/
def noExecEnv : Env := { okEnv with execOk := fun _ => false }

/-- An environment like `noExecEnv` in which every `write` returns `-1` too. -/
def noExecWriteEnv : Env := { noExecEnv with writeRes := fun _ => none }

/-- The state of a process at the start of `main`. -/
def St.start (env : Env) (fds : FdTable) : St :=
  ⟨env, 0, fds, 0, [], [], [], [], []⟩

/-- The usual descriptor table: 0, 1 and 2 open. -/
def stdFds : FdTable := [some (.init 0), some (.init 1), some (.init 2)]

/-- The run of a forked child of microshell_v1 in the environment `cenv`: the
child branch on the variables and the descriptor table the child starts from. -/
def V1.child_run (cenv : Env) (c : Child) : Run Unit :=
  V1.child_branch c.argv c.inFd c.sep c.pipe_fds (St.start cenv c.fds)

/-- The run of a forked child of microshell_v2 in the environment `cenv`. -/
def V2.child_run (cenv : Env) (c : Child) : Run Unit :=
  V2.child_branch c.argv c.inFd c.sep c.pipe_fds (St.start cenv c.fds)

/-- The state of the child forked in state `s` once it has redirected its
standard input, its `dup2` and `close` calls succeeding. -/
def childIn (cenv : Env) (cur : Nat) (op : Sep) (s : St) : St :=
  if cur ≠ STDIN_FILENO then
    ((St.start cenv (if op = .PIPE then s.piped else s).fds).dupped cur STDIN_FILENO).closed cur
  else St.start cenv (if op = .PIPE then s.piped else s).fds

/-- The state in which the child forked in state `s` calls `execve`, its
`dup2` and `close` calls succeeding. -/
def childWired (cenv : Env) (cur : Nat) (op : Sep) (s : St) : St :=
  if op = .PIPE then
    (((childIn cenv cur op s).closed s.pipeR).dupped s.pipeW STDOUT_FILENO).closed s.pipeW
  else childIn cenv cur op s

end Microshell

namespace Microshell

/-- Every event of the list is a successful `write` on `fd`. -/
def OnlyWrites (fd : Nat) (evs : List Event) : Prop :=
  ∀ e ∈ evs, ∃ b, e = Event.write fd b

/-- No `write` call of the environment ever returns `-1`. -/
def WritesOk (env : Env) : Prop := ∀ t, (env.writeRes t).isSome = true

/-- The contract of `execute_cd` for a run `r` started in `s` on `args`:
with a token count other than 2 it only writes the bad-arguments line and
returns 1; otherwise it first calls `chdir` on the second token, returns 0
with nothing more on success, and on failure writes the cannot-change line
naming the token and returns 1. -/
def CdContract (args : List String) (s : St) (r : Run Nat) : Prop :=
  if args.length ≠ 2 then
    ∃ s1 evs, r = .ok 1 s1 ∧ s1.trace = s.trace ++ evs ∧ OnlyWrites STDERR_FILENO evs ∧
      written STDERR_FILENO evs = "error: cd: bad arguments\n".toList
  else if s.env.chdirOk s.tick = true then
    ∃ s1, r = .ok 0 s1 ∧ s1.trace = s.trace ++ [.chdir (args.getD 1 "") true]
  else
    ∃ s1 evs, r = .ok 1 s1 ∧ s1.trace = s.trace ++ .chdir (args.getD 1 "") false :: evs ∧
      OnlyWrites STDERR_FILENO evs ∧
      written STDERR_FILENO evs =
        "error: cd: cannot change directory to ".toList ++ (args.getD 1 "").toList ++ "\n".toList

/-- An environment like `okEnv` in which every `write` returns `-1`. -/
def noWriteEnv : Env := { okEnv with writeRes := fun _ => none }

end Microshell

/-! # Properties -/

namespace Microshell

@[simp] theorem run_pure {α : Type} (a : α) (s : St) : (pure a : M α) s = .ok a s := rfl

@[simp] theorem run_bind {α β : Type} (x : M α) (f : α → M β) (s : St) :
    (x >>= f) s = match x s with
      | .ok a s1 => f a s1
      | .halt h s1 => .halt h s1 := rfl

theorem written_append (fd : Nat) (xs ys : List Event) :
    written fd (xs ++ ys) = written fd xs ++ written fd ys := by
  induction xs with
  | nil => rfl
  | cons e xs ih =>
    cases e <;> simp [written, ih]
    split <;> simp

theorem onlyWrites_append {fd : Nat} {xs ys : List Event}
    (hx : OnlyWrites fd xs) (hy : OnlyWrites fd ys) : OnlyWrites fd (xs ++ ys) := by
  intro e he
  rcases List.mem_append.1 he with h | h
  · exact hx e h
  · exact hy e h

theorem v1_putstr_loop_ok (fd : Nat) :
    ∀ (fuel : Nat) (rest : List Char) (s : St), WritesOk s.env → rest.length ≤ fuel →
      ∃ s1 evs, V1.ft_putstr_loop fd fuel rest s = .ok () s1 ∧ s1.env = s.env ∧
        s1.trace = s.trace ++ evs ∧ written fd evs = rest ∧ OnlyWrites fd evs := by
  intro fuel
  induction fuel with
  | zero =>
    intro rest s _ hl
    have : rest = [] := List.length_eq_zero.1 (Nat.le_zero.1 hl)
    subst this
    exact ⟨s, [], rfl, rfl, by simp, rfl, by intro e he; cases he⟩
  | succ fuel ih =>
    intro rest s hw hl
    by_cases hr : rest = []
    · subst hr
      exact ⟨s, [], by simp [V1.ft_putstr_loop], rfl, by simp, rfl, by intro e he; cases he⟩
    · obtain ⟨k, hk⟩ := Option.isSome_iff_exists.1 (hw s.tick)
      have hpos : 0 < rest.length := List.length_pos.2 hr
      let n := min (k + 1) rest.length
      have hn : 0 < n := by simp [n]; omega
      let s0 : St := { s with tick := s.tick + 1, trace := s.trace ++ [.write fd (rest.take n)] }
      have hlen : (rest.drop n).length ≤ fuel := by simp [List.length_drop]; omega
      obtain ⟨s1, evs, h1, h2, h3, h4, h5⟩ := ih (rest.drop n) s0 hw hlen
      refine ⟨s1, .write fd (rest.take n) :: evs, ?_, h2, ?_, ?_, ?_⟩
      · simp [V1.ft_putstr_loop, hr, sys_write, hk]
        exact h1
      · simp [h3, s0]
      · simp [written, h4]
      · intro e he
        rcases List.mem_cons.1 he with h | h
        · exact ⟨_, h⟩
        · exact h5 e h

theorem v2_putstr_loop_ok (str : List Char) (fd : Nat) :
    ∀ (fuel : Nat) (rest : List Char) (s : St), WritesOk s.env → rest.length ≤ fuel →
      ∃ s1 evs, V2.ft_putstr_loop str fd fuel rest s = .ok () s1 ∧ s1.env = s.env ∧
        s1.trace = s.trace ++ evs ∧ written fd evs = rest ∧ OnlyWrites fd evs := by
  intro fuel
  induction fuel with
  | zero =>
    intro rest s _ hl
    have : rest = [] := List.length_eq_zero.1 (Nat.le_zero.1 hl)
    subst this
    exact ⟨s, [], rfl, rfl, by simp, rfl, by intro e he; cases he⟩
  | succ fuel ih =>
    intro rest s hw hl
    by_cases hr : rest = []
    · subst hr
      exact ⟨s, [], by simp [V2.ft_putstr_loop], rfl, by simp, rfl, by intro e he; cases he⟩
    · obtain ⟨k, hk⟩ := Option.isSome_iff_exists.1 (hw s.tick)
      have hpos : 0 < rest.length := List.length_pos.2 hr
      let n := min (k + 1) rest.length
      have hn : 0 < n := by simp [n]; omega
      let s0 : St := { s with tick := s.tick + 1, trace := s.trace ++ [.write fd (rest.take n)] }
      have hlen : (rest.drop n).length ≤ fuel := by simp [List.length_drop]; omega
      obtain ⟨s1, evs, h1, h2, h3, h4, h5⟩ := ih (rest.drop n) s0 hw hlen
      refine ⟨s1, .write fd (rest.take n) :: evs, ?_, h2, ?_, ?_, ?_⟩
      · simp [V2.ft_putstr_loop, hr, sys_write, hk]
        exact h1
      · simp [h3, s0]
      · simp [written, h4]
      · intro e he
        rcases List.mem_cons.1 he with h | h
        · exact ⟨_, h⟩
        · exact h5 e h

theorem v1_putstr_ok (str : List Char) (fd : Nat) (s : St) (hw : WritesOk s.env) :
    ∃ s1 evs, V1.ft_putstr_fd str fd s = .ok () s1 ∧ s1.env = s.env ∧
      s1.trace = s.trace ++ evs ∧ written fd evs = str ∧ OnlyWrites fd evs := by
  unfold V1.ft_putstr_fd
  split
  · exact v1_putstr_loop_ok fd _ str s hw (le_refl _)
  · have : str = [] := by
      cases str with
      | nil => rfl
      | cons c cs => simp at *
    subst this
    exact ⟨s, [], rfl, rfl, by simp, rfl, by intro e he; cases he⟩

theorem v2_putstr_ok (str : List Char) (fd : Nat) (s : St) (hw : WritesOk s.env) :
    ∃ s1 evs, V2.ft_putstr_fd str fd s = .ok () s1 ∧ s1.env = s.env ∧
      s1.trace = s.trace ++ evs ∧ written fd evs = str ∧ OnlyWrites fd evs := by
  unfold V2.ft_putstr_fd
  split
  · have : str = [] := by
      cases str with
      | nil => rfl
      | cons c cs => simp at *
    subst this
    exact ⟨s, [], rfl, rfl, by simp, rfl, by intro e he; cases he⟩
  · exact v2_putstr_loop_ok str fd _ str s hw (le_refl _)

theorem v1_putstr3_ok (a b c : List Char) (fd : Nat) (s : St) (hw : WritesOk s.env) :
    ∃ s1 evs, (do V1.ft_putstr_fd a fd; V1.ft_putstr_fd b fd; V1.ft_putstr_fd c fd : M Unit) s
        = .ok () s1 ∧ s1.env = s.env ∧
      s1.trace = s.trace ++ evs ∧ written fd evs = a ++ b ++ c ∧ OnlyWrites fd evs := by
  obtain ⟨s1, e1, h1, g1, t1, w1, o1⟩ := v1_putstr_ok a fd s hw
  obtain ⟨s2, e2, h2, g2, t2, w2, o2⟩ := v1_putstr_ok b fd s1 (g1 ▸ hw)
  obtain ⟨s3, e3, h3, g3, t3, w3, o3⟩ := v1_putstr_ok c fd s2 (g2 ▸ g1 ▸ hw)
  refine ⟨s3, e1 ++ e2 ++ e3, ?_, by rw [g3, g2, g1], ?_, ?_, ?_⟩
  · simp [h1, h2, h3]
  · simp [t3, t2, t1]
  · simp [written_append, w1, w2, w3]
  · exact onlyWrites_append (onlyWrites_append o1 o2) o3

theorem v1_execute_cd_contract (args : List String) (s : St) (hw : WritesOk s.env) :
    CdContract args s (V1.execute_cd args s) := by
  unfold CdContract
  by_cases hl : args.length ≠ 2
  · rw [if_pos hl]
    obtain ⟨s1, e1, h1, _, t1, w1, o1⟩ :=
      v1_putstr_ok "error: cd: bad arguments\n".toList STDERR_FILENO s hw
    refine ⟨s1, e1, ?_, t1, o1, w1⟩
    simp only [V1.execute_cd, V1.cd_bad_args_error, if_pos hl, run_bind, h1, run_pure]
  · rw [if_neg hl]
    by_cases hc : s.env.chdirOk s.tick = true
    · rw [if_pos hc]
      refine ⟨⟨s.env, s.tick + 1, s.fds, s.npipes, s.trace ++ [.chdir (args.getD 1 "") true],
        s.children, s.live, s.g_pids, s.dispatched⟩, ?_, rfl⟩
      simp only [V1.execute_cd, if_neg hl, run_bind, sys_chdir, hc, if_true, run_pure]
    · rw [if_neg hc]
      obtain ⟨s1, e1, h1, _, t1, w1, o1⟩ :=
        v1_putstr3_ok "error: cd: cannot change directory to ".toList (args.getD 1 "").toList
          "\n".toList STDERR_FILENO ⟨s.env, s.tick + 1, s.fds, s.npipes,
            s.trace ++ [.chdir (args.getD 1 "") false], s.children, s.live, s.g_pids,
            s.dispatched⟩ hw
      refine ⟨s1, e1, ?_, ?_, o1, w1⟩
      · have hc2 : s.env.chdirOk s.tick = false := by simpa using hc
        simp only [V1.execute_cd, if_neg hl, run_bind, sys_chdir, hc2, V1.cd_chdir_error]
        simp only [run_bind] at h1
        simp only [Bool.false_eq_true, if_false, run_bind, run_pure]
        rw [h1]
      · simp [t1]

theorem v2_putstr3_ok (a b c : List Char) (fd : Nat) (s : St) (hw : WritesOk s.env) :
    ∃ s1 evs, (do V2.ft_putstr_fd a fd; V2.ft_putstr_fd b fd; V2.ft_putstr_fd c fd : M Unit) s
        = .ok () s1 ∧ s1.env = s.env ∧
      s1.trace = s.trace ++ evs ∧ written fd evs = a ++ b ++ c ∧ OnlyWrites fd evs := by
  obtain ⟨s1, e1, h1, g1, t1, w1, o1⟩ := v2_putstr_ok a fd s hw
  obtain ⟨s2, e2, h2, g2, t2, w2, o2⟩ := v2_putstr_ok b fd s1 (g1 ▸ hw)
  obtain ⟨s3, e3, h3, g3, t3, w3, o3⟩ := v2_putstr_ok c fd s2 (g2 ▸ g1 ▸ hw)
  refine ⟨s3, e1 ++ e2 ++ e3, ?_, by rw [g3, g2, g1], ?_, ?_, ?_⟩
  · simp [h1, h2, h3]
  · simp [t3, t2, t1]
  · simp [written_append, w1, w2, w3]
  · exact onlyWrites_append (onlyWrites_append o1 o2) o3

theorem v2_execute_cd_contract (args : List String) (s : St) (hw : WritesOk s.env) :
    CdContract args s (V2.execute_cd args s) := by
  unfold CdContract
  by_cases hl : args.length ≠ 2
  · rw [if_pos hl]
    obtain ⟨s1, e1, h1, _, t1, w1, o1⟩ :=
      v2_putstr_ok "error: cd: bad arguments\n".toList STDERR_FILENO s hw
    refine ⟨s1, e1, ?_, t1, o1, w1⟩
    simp only [V2.execute_cd, V2.cd_bad_args_error, if_pos hl, run_bind, h1, run_pure]
  · rw [if_neg hl]
    by_cases hc : s.env.chdirOk s.tick = true
    · rw [if_pos hc]
      refine ⟨⟨s.env, s.tick + 1, s.fds, s.npipes, s.trace ++ [.chdir (args.getD 1 "") true],
        s.children, s.live, s.g_pids, s.dispatched⟩, ?_, rfl⟩
      simp only [V2.execute_cd, if_neg hl, run_bind, sys_chdir, hc, if_true, run_pure]
    · rw [if_neg hc]
      obtain ⟨s1, e1, h1, _, t1, w1, o1⟩ :=
        v2_putstr3_ok "error: cd: cannot change directory to ".toList (args.getD 1 "").toList
          "\n".toList STDERR_FILENO ⟨s.env, s.tick + 1, s.fds, s.npipes,
            s.trace ++ [.chdir (args.getD 1 "") false], s.children, s.live, s.g_pids,
            s.dispatched⟩ hw
      refine ⟨s1, e1, ?_, ?_, o1, w1⟩
      · have hc2 : s.env.chdirOk s.tick = false := by simpa using hc
        simp only [V2.execute_cd, if_neg hl, run_bind, sys_chdir, hc2, V2.cd_chdir_error]
        simp only [run_bind] at h1
        simp only [Bool.false_eq_true, if_false, run_bind, run_pure]
        rw [h1]
      · simp [t1]

theorem v1_putstr_loop_returns (fd : Nat) :
    ∀ (fuel : Nat) (rest : List Char) (s : St),
      (V1.ft_putstr_loop fd fuel rest s).returned = true := by
  intro fuel
  induction fuel with
  | zero => intro rest s; rfl
  | succ fuel ih =>
    intro rest s
    by_cases hr : rest = []
    · simp [V1.ft_putstr_loop, hr, Run.returned]
    · cases hk : s.env.writeRes s.tick with
      | none => simp [V1.ft_putstr_loop, hr, sys_write, hk, Run.returned]
      | some k =>
        simp [V1.ft_putstr_loop, hr, sys_write, hk]
        exact ih _ _

theorem v1_putstr_returns (str : List Char) (fd : Nat) (s : St) :
    ∃ s1, V1.ft_putstr_fd str fd s = .ok () s1 := by
  have h : (V1.ft_putstr_fd str fd s).returned = true := by
    unfold V1.ft_putstr_fd
    split
    · exact v1_putstr_loop_returns fd _ _ _
    · rfl
  cases hr : V1.ft_putstr_fd str fd s with
  | ok a s1 => exact ⟨s1, rfl⟩
  | halt h1 s1 => rw [hr] at h; cases h

theorem v1_execute_cd_returns (args : List String) (s : St) :
    (V1.execute_cd args s).returned = true := by
  by_cases hl : args.length ≠ 2
  · obtain ⟨s1, h1⟩ := v1_putstr_returns "error: cd: bad arguments\n".toList STDERR_FILENO s
    simp only [V1.execute_cd, V1.cd_bad_args_error, if_pos hl, run_bind, h1, run_pure]
    rfl
  · cases hc : s.env.chdirOk s.tick with
    | true => simp [V1.execute_cd, hl, sys_chdir, hc, Run.returned]
    | false =>
      simp [V1.execute_cd, hl, sys_chdir, hc, V1.cd_chdir_error]
      obtain ⟨s1, h1⟩ := v1_putstr_returns "error: cd: cannot change directory to ".toList
        STDERR_FILENO ⟨s.env, s.tick + 1, s.fds, s.npipes,
          s.trace ++ [.chdir (args.getD 1 "") false], s.children, s.live, s.g_pids, s.dispatched⟩
      obtain ⟨s2, h2⟩ := v1_putstr_returns (args.getD 1 "").toList STDERR_FILENO s1
      obtain ⟨s3, h3⟩ := v1_putstr_returns "\n".toList STDERR_FILENO s2
      simp at h1 h2 h3
      simp [h1, h2, h3, Run.returned]

/-- C5 (as stated) fails for microshell_v2: with a failing `write`,
`execute_cd` on `cd` alone does not return, the process exits with status 1;
microshell_v1 returns 1 on the same input. -/
theorem execute_cd_v2_write_failure_exits :
    V2.execute_cd ["cd"] (St.start noWriteEnv stdFds)
      = .halt (.exited 1) ⟨noWriteEnv, 2, stdFds, 0, [.writeFail 2, .writeFail 2], [], [], [], []⟩ ∧
    (V1.execute_cd ["cd"] (St.start noWriteEnv stdFds)).returned = true := by
  constructor
  · rfl
  · rfl

/-! ## The loops iterate over the reference split -/

theorem notOp_false {t : String} (h : notOp t = false) : t = "|" ∨ t = ";" := by
  unfold notOp at h
  by_cases h1 : t = "|"
  · exact Or.inl h1
  · by_cases h2 : t = ";"
    · exact Or.inr h2
    · simp [h1, h2] at h

theorem notOp_true {t : String} (h : notOp t = true) : t ≠ "|" ∧ t ≠ ";" := by
  unfold notOp at h
  simpa using h

theorem refSplitAux_scan (toks : List String) :
    ∀ acc, refSplitAux acc toks =
      match toks.dropWhile notOp with
      | [] => closeRun (acc ++ toks.takeWhile notOp) .END
      | t :: r => closeRun (acc ++ toks.takeWhile notOp) (next_operator (t :: r))
          ++ refSplitAux [] r := by
  induction toks with
  | nil => intro acc; simp [refSplitAux]
  | cons t ts ih =>
    intro acc
    cases ht : notOp t with
    | true =>
      obtain ⟨h1, h2⟩ := notOp_true ht
      simp only [refSplitAux, if_neg h1, if_neg h2, List.dropWhile_cons, List.takeWhile_cons, ht,
        if_true]
      rw [ih (acc ++ [t])]
      simp
    | false =>
      rcases notOp_false ht with h | h
      · subst h
        simp [refSplitAux, List.dropWhile_cons, List.takeWhile_cons, ht, next_operator]
      · subst h
        simp [refSplitAux, List.dropWhile_cons, List.takeWhile_cons, ht, next_operator]

theorem dropWhile_notOp_head {toks r : List String} {t : String}
    (h : toks.dropWhile notOp = t :: r) : t = "|" ∨ t = ";" := by
  have := List.head_dropWhile_not notOp toks (by rw [h]; simp)
  simp only [h, List.head_cons] at this
  exact notOp_false (by simpa using this)

theorem dropWhile_length_le (toks : List String) :
    (toks.dropWhile notOp).length ≤ toks.length := by
  induction toks with
  | nil => simp
  | cons t ts ih =>
    simp only [List.dropWhile_cons]
    split
    · simp; omega
    · simp

/-- A token list that starts with an operator: the scan finds no command and
the split ignores the operator. -/
theorem scan_skip {toks : List String} (hne : toks ≠ [])
    (hc : (toks.takeWhile notOp).length = 0) :
    ∃ t r, toks = t :: r ∧ (t = "|" ∨ t = ";") ∧ toks.dropWhile notOp = t :: r ∧
      refSplit toks = refSplit r := by
  cases toks with
  | nil => exact absurd rfl hne
  | cons t r =>
    cases ht : notOp t with
    | true => simp [List.takeWhile_cons, ht] at hc
    | false =>
      refine ⟨t, r, rfl, notOp_false ht, by simp [List.dropWhile_cons, ht], ?_⟩
      rcases notOp_false ht with h | h <;> subst h <;> simp [refSplit, refSplitAux, closeRun]

/-- A token list that starts with a command: the split starts with that command
and the operator type read after it, and goes on after the operator. -/
theorem scan_cmd {toks : List String} (hc : ¬ (toks.takeWhile notOp).length = 0) :
    (toks.dropWhile notOp = [] ∧
        refSplit toks = [(toks.takeWhile notOp, next_operator (toks.dropWhile notOp))] ∧
        next_operator (toks.dropWhile notOp) = .END) ∨
    (∃ t r, toks.dropWhile notOp = t :: r ∧ (t = "|" ∨ t = ";") ∧ r.length < toks.length ∧
        next_operator (toks.dropWhile notOp) = (if t = "|" then Sep.PIPE else Sep.SEMI) ∧
        refSplit toks = (toks.takeWhile notOp, next_operator (toks.dropWhile notOp))
          :: refSplit r) := by
  have hne : toks.takeWhile notOp ≠ [] := fun h => hc (by simp [h])
  have hs := refSplitAux_scan toks []
  cases hd : toks.dropWhile notOp with
  | nil =>
    left
    rw [hd] at hs
    simp only [List.nil_append] at hs
    exact ⟨rfl, by simp [refSplit, hs, closeRun, hne, next_operator], rfl⟩
  | cons t r =>
    right
    rw [hd] at hs
    simp only [List.nil_append] at hs
    have hl := dropWhile_length_le toks
    rw [hd] at hl
    refine ⟨t, r, rfl, dropWhile_notOp_head hd, by simp at hl; omega, ?_, ?_⟩
    · rcases dropWhile_notOp_head hd with h | h <;> subst h <;> simp [next_operator]
    · simp [refSplit, hs, closeRun, hne]

theorem forget_bind_congr {α β : Type} (m : M α) (k1 k2 : α → M β) (s : St)
    (h : ∀ a s1, (k1 a s1).forget = (k2 a s1).forget) :
    ((m >>= k1) s).forget = ((m >>= k2) s).forget := by
  simp only [run_bind]
  cases m s with
  | ok a s1 => exact h a s1
  | halt h1 s1 => rfl

theorem v2_run_segments_reset (segs : List Segment) (cur : Nat) (s : St) :
    ((V2.run_segments segs cur >>= fun c => pure (([] : List String), c))
        { s with g_pids := [] }).forget
      = ((V2.run_segments segs cur >>= fun c => pure (([] : List String), c)) s).forget := by
  cases segs with
  | nil => rfl
  | cons sg rest =>
    obtain ⟨cmd, op⟩ := sg
    simp only [V2.run_segments, run_bind, reset_pids]

/-- The loop of microshell_v2 handles exactly the segments of the reference
split, in order, and leaves no token unread. -/
theorem v2_main_loop_eq :
    ∀ (fuel : Nat) (toks : List String) (cur : Nat) (s : St), toks.length ≤ fuel →
      (V2.main_loop fuel toks cur s).forget
        = ((V2.run_segments (refSplit toks) cur >>= fun c => pure (([] : List String), c))
            s).forget := by
  intro fuel
  induction fuel with
  | zero =>
    intro toks cur s hl
    have : toks = [] := List.length_eq_zero.1 (Nat.le_zero.1 hl)
    subst this
    rfl
  | succ fuel ih =>
    intro toks cur s hl
    by_cases hne : toks = []
    · subst hne
      simp [V2.main_loop, refSplit, refSplitAux, closeRun, V2.run_segments]
    · by_cases hc : (toks.takeWhile notOp).length = 0
      · obtain ⟨t, r, ht, hop, hd, hsp⟩ := scan_skip hne hc
        have hr : r.length ≤ fuel := by rw [ht] at hl; simp at hl; omega
        rw [hsp, ← v2_run_segments_reset, ← ih r cur _ hr]
        simp only [V2.main_loop, if_neg hne, run_bind, reset_pids, if_pos hc, hd, if_pos hop]
      · rcases scan_cmd hc with ⟨hd, hsp, hop⟩ | ⟨t, r, hd, ht, hr, hop, hsp⟩
        · rw [hsp]
          simp only [V2.main_loop, if_neg hne, run_bind, reset_pids, if_neg hc, V2.run_segments]
          cases V2.loop_body (toks.takeWhile notOp) (next_operator (toks.dropWhile notOp)) cur
              { s with g_pids := [] } with
          | halt h s1 => rfl
          | ok c s1 =>
            simp only [hop, hd]
            have := ih [] c s1 (Nat.zero_le _)
            simpa [refSplit, refSplitAux, closeRun, V2.run_segments] using this
        · rw [hsp]
          simp only [V2.main_loop, if_neg hne, run_bind, reset_pids, if_neg hc, V2.run_segments]
          cases V2.loop_body (toks.takeWhile notOp) (next_operator (toks.dropWhile notOp)) cur
              { s with g_pids := [] } with
          | halt h s1 => rfl
          | ok c s1 =>
            have hpos : (next_operator (toks.dropWhile notOp) = Sep.PIPE ∨
                next_operator (toks.dropWhile notOp) = Sep.SEMI) := by
              rw [hop]; split <;> simp
            rw [hd] at hpos
            simp only [hd, List.tail_cons]
            rw [if_pos hpos]
            have := ih r c s1 (by omega)
            simpa using this

theorem M_bind_assoc {α β γ : Type} (x : M α) (f : α → M β) (g : β → M γ) :
    (x >>= f) >>= g = x >>= fun a => f a >>= g := by
  funext s
  simp only [run_bind]
  cases x s <;> rfl

theorem M_pure_bind {α β : Type} (a : α) (f : α → M β) : (pure a >>= f) = f a := by
  funext s
  rfl

theorem v1_outer_loop_nil (fuel : Nat) : V1.outer_loop fuel [] = pure [] := by
  cases fuel <;> simp [V1.outer_loop]

theorem v1_inner_loop_nil (fuel cur : Nat) : V1.inner_loop fuel [] cur = pure ([], cur) := by
  cases fuel <;> simp [V1.inner_loop]

theorem v1_outer_loop_cons (fuel : Nat) (toks : List String) (hne : toks ≠ []) :
    V1.outer_loop (fuel + 1) toks
      = (reset_pids >>= fun _ =>
          V1.inner_loop toks.length toks STDIN_FILENO >>= V1.after_inner fuel) := by
  simp only [V1.outer_loop, if_neg hne, V1.after_inner]
  rfl

/-- The end of a group on no pending read end, with nothing tracked, does
nothing but empty the tracking array again. -/
theorem v1_end_after_reset (s : St) :
    ((reset_pids >>= fun _ => V1.run_all [] STDIN_FILENO) s).forget
      = ((pure [] : M (List String)) s).forget := by
  simp [V1.run_all, V1.run_segments, V1.end_group, reset_pids, get_pids, wait_all,
    STDIN_FILENO, Run.forget, St.forget]

theorem v1_inner_eq_nil (fi fo cur : Nat) (s : St) :
    ((V1.inner_loop fi [] cur >>= V1.after_inner fo) s).forget
      = (V1.run_all (refSplit []) cur s).forget := by
  rw [v1_inner_loop_nil, M_pure_bind]
  simp only [V1.after_inner, v1_outer_loop_nil, refSplit, refSplitAux, closeRun, V1.run_all,
    V1.run_segments, M_pure_bind]

/-- Handling a segment not followed by a pipe, then the rest of the input. -/
theorem v1_after_semi (n : Nat)
    (ih : ∀ (toks : List String), toks.length ≤ n → ∀ (fi fo cur : Nat) (s : St),
      toks.length ≤ fi → toks.length ≤ fo + 1 →
      ((V1.inner_loop fi toks cur >>= V1.after_inner fo) s).forget
        = (V1.run_all (refSplit toks) cur s).forget)
    (r : List String) (hr : r.length ≤ n) (fo cur2 : Nat) (hfo : r.length ≤ fo) (s1 : St) :
    (V1.after_inner fo (r, cur2) s1).forget
      = ((V1.end_group cur2 >>= fun _ => reset_pids >>= fun _ =>
          V1.run_all (refSplit r) STDIN_FILENO) s1).forget := by
  unfold V1.after_inner
  apply forget_bind_congr
  intro _ s2
  by_cases hrn : r = []
  · subst hrn
    rw [v1_outer_loop_nil]
    exact (v1_end_after_reset s2).symm
  · cases fo with
    | zero =>
      exfalso
      exact hrn (List.length_eq_zero.1 (Nat.le_zero.1 hfo))
    | succ fo1 =>
      have hfo1 : r.length ≤ fo1 + 1 := hfo
      rw [v1_outer_loop_cons fo1 r hrn]
      apply forget_bind_congr
      intro _ s3
      exact ih r hr r.length fo1 STDIN_FILENO s3 (le_refl _) hfo1

/-- The loops of microshell_v1, from a point inside a group on, handle exactly
the segments of the reference split of the tokens still to be read. -/
theorem v1_inner_eq :
    ∀ (n : Nat) (toks : List String), toks.length ≤ n → ∀ (fi fo cur : Nat) (s : St),
      toks.length ≤ fi → toks.length ≤ fo + 1 →
      ((V1.inner_loop fi toks cur >>= V1.after_inner fo) s).forget
        = (V1.run_all (refSplit toks) cur s).forget := by
  intro n
  induction n with
  | zero =>
    intro toks hl fi fo cur s _ _
    have : toks = [] := List.length_eq_zero.1 (Nat.le_zero.1 hl)
    subst this
    exact v1_inner_eq_nil fi fo cur s
  | succ n ih =>
    intro toks hl fi fo cur s hfi hfo
    by_cases hne : toks = []
    · subst hne
      exact v1_inner_eq_nil fi fo cur s
    · have hpos : 0 < toks.length := List.length_pos.2 hne
      obtain ⟨fi1, rfl⟩ : ∃ k, fi = k + 1 := ⟨fi - 1, by omega⟩
      by_cases hc : (toks.takeWhile notOp).length = 0
      · obtain ⟨t, r, ht, hop, hd, hsp⟩ := scan_skip hne hc
        have hr : r.length + 1 = toks.length := by rw [ht]; simp
        rw [hsp, ← ih r (by omega) fi1 fo cur s (by omega) (by omega)]
        simp only [V1.inner_loop, if_neg hne, if_pos hc, hd, if_pos hop]
      · have hbody : V1.inner_loop (fi1 + 1) toks cur
            = (V1.loop_body (toks.takeWhile notOp) (next_operator (toks.dropWhile notOp)) cur
                >>= fun cur2 =>
                  match toks.dropWhile notOp with
                  | [] => pure (toks.dropWhile notOp, cur2)
                  | t :: r =>
                    if t = "|" then
                      if r = [] then pure (r, cur2) else V1.inner_loop fi1 r cur2
                    else if t = ";" then pure (r, cur2)
                    else pure (toks.dropWhile notOp, cur2)) := by
          simp only [V1.inner_loop, if_neg hne, if_neg hc]
        rw [hbody, M_bind_assoc]
        rcases scan_cmd hc with ⟨hd, hsp, hop⟩ | ⟨t, r, hd, ht, hr, hop, hsp⟩
        · rw [hsp]
          simp only [V1.run_all, V1.run_segments, M_bind_assoc]
          apply forget_bind_congr
          intro cur2 s1
          rw [hd] at hop
          simp only [hd, hop, M_pure_bind, if_neg (by decide : ¬ Sep.END = Sep.PIPE),
            M_bind_assoc]
          have := v1_after_semi n ih [] (Nat.zero_le _) fo cur2 (Nat.zero_le _) s1
          simp only [refSplit, refSplitAux, closeRun] at this
          exact this
        · rw [hsp]
          simp only [V1.run_all, V1.run_segments, M_bind_assoc]
          apply forget_bind_congr
          intro cur2 s1
          rw [hd] at hop
          rcases ht with h | h
          · subst h
            simp only [hd, hop, if_true, M_pure_bind]
            by_cases hrn : r = []
            · subst hrn
              simp only [if_true, M_pure_bind]
              have := v1_inner_eq_nil 0 fo cur2 s1
              rw [v1_inner_loop_nil, M_pure_bind] at this
              exact this
            · simp only [if_neg hrn]
              exact ih r (by omega) fi1 fo cur2 s1 (by omega) (by omega)
          · subst h
            have hne1 : ¬ (";" : String) = "|" := by decide
            simp only [hd, hop, if_neg hne1, if_true, M_pure_bind,
              if_neg (by decide : ¬ Sep.SEMI = Sep.PIPE), M_bind_assoc]
            exact v1_after_semi n ih r (by omega) fo cur2 (by omega) s1

theorem forget_post {α β : Type} (m1 m2 : M α) (K : α → M β) (s : St)
    (h : (m1 s).forget = (m2 s).forget)
    (hK : ∀ a s1, (K a s1.forget).forget = (K a s1).forget) :
    ((m1 >>= K) s).forget = ((m2 >>= K) s).forget := by
  simp only [run_bind]
  cases h1 : m1 s with
  | ok a s1 =>
    cases h2 : m2 s with
    | ok b s2 =>
      rw [h1, h2] at h
      simp only [Run.forget, Run.ok.injEq] at h
      obtain ⟨hab, hs⟩ := h
      subst hab
      show (K a s1).forget = (K a s2).forget
      rw [← hK a s1, ← hK a s2, hs]
    | halt h3 s2 => rw [h1, h2] at h; simp [Run.forget] at h
  | halt h3 s1 =>
    cases h2 : m2 s with
    | ok b s2 => rw [h1, h2] at h; simp [Run.forget] at h
    | halt h4 s2 =>
      rw [h1, h2] at h
      simp only [Run.forget, Run.halt.injEq] at h ⊢
      exact h

/-- `main` of microshell_v1 handles the segments of the reference split. -/
theorem v1_main_eq (args : List String) (s : St) :
    (V1.main args s).forget = (V1.main_spec args s).forget := by
  unfold V1.main V1.main_spec
  by_cases h0 : args.length = 0
  · simp only [if_pos h0]
  · simp only [if_neg h0]
    have hne : args ≠ [] := fun h => h0 (by simp [h])
    obtain ⟨k, hk⟩ : ∃ k, args.length = k + 1 := ⟨args.length - 1, by omega⟩
    have key : (V1.outer_loop args.length args s).forget
        = ((reset_pids >>= fun _ => V1.run_all (refSplit args) STDIN_FILENO) s).forget := by
      rw [hk, v1_outer_loop_cons k args hne]
      apply forget_bind_congr
      intro _ s1
      exact v1_inner_eq args.length args (le_refl _) args.length k STDIN_FILENO s1 (le_refl _)
        (by omega)
    have := forget_post _ _ (fun _ => (pure 0 : M Nat)) s key (fun _ _ => rfl)
    rw [M_bind_assoc] at this
    exact this

theorem indep_pure {α : Type} (a : α) : Indep (pure a : M α) := fun _ _ => rfl

theorem indep_bind {α β : Type} {m : M α} {k : α → M β} (hm : Indep m)
    (hk : ∀ a, Indep (k a)) : Indep (m >>= k) := by
  intro s g
  simp only [run_bind, hm s g]
  cases m s with
  | ok a s1 => exact hk a s1 g
  | halt h s1 => rfl

theorem indep_ite {α : Type} {c : Prop} [Decidable c] {m1 m2 : M α} (h1 : Indep m1)
    (h2 : Indep m2) : Indep (if c then m1 else m2) := by
  split
  · exact h1
  · exact h2

theorem indep_write (fd : Nat) (buf : List Char) : Indep (sys_write fd buf) := by
  intro s g
  simp only [sys_write]
  cases s.env.writeRes s.tick <;> rfl

theorem indep_close (fd : Nat) : Indep (sys_close fd) := fun _ _ => rfl

theorem indep_exit {α : Type} (c : Nat) : Indep (sys_exit c : M α) := fun _ _ => rfl

theorem v2_indep_fatal {α : Type} : Indep (V2.fatal_error : M α) :=
  indep_bind (indep_write _ _) (fun _ => indep_exit 1)

theorem v2_indep_checked_close (fd : Nat) : Indep (V2.checked_close fd) :=
  indep_bind (indep_close fd) (fun _ => indep_ite (indep_pure _) v2_indep_fatal)

theorem v2_indep_wait_loop : ∀ fuel, Indep (V2.wait_loop fuel) := by
  intro fuel
  induction fuel with
  | zero => exact indep_pure _
  | succ fuel ih =>
    unfold V2.wait_loop
    refine indep_bind ?_ ?_
    · intro s g
      simp only [V2.sys_wait]
      cases s.live <;> rfl
    · intro r
      cases r with
      | none => exact indep_pure _
      | some p => exact ih

theorem v2_indep_main_end (cur : Nat) : Indep (V2.main_end cur) := by
  have hjp : Indep (do
      let n ← V2.live_count
      V2.wait_loop (n + 1)
      pure 0 : M Nat) := by
    apply indep_bind
    · exact fun _ _ => rfl
    · intro n
      exact indep_bind (v2_indep_wait_loop _) (fun _ => indep_pure _)
  unfold V2.main_end
  show Indep (if cur ≠ STDIN_FILENO then _ else _)
  apply indep_ite
  · exact indep_bind (v2_indep_checked_close cur) (fun _ => hjp)
  · exact indep_bind (indep_pure _) (fun _ => hjp)

theorem indep_forget {α : Type} {m : M α} (h : Indep m) (s : St) :
    (m s.forget).forget = (m s).forget := by
  have := h s []
  unfold St.forget
  rw [this]
  cases m s <;> rfl

/-- `main` of microshell_v2 handles the segments of the reference split. -/
theorem v2_main_eq (args : List String) (s : St) :
    (V2.main args s).forget = (V2.main_spec args s).forget := by
  unfold V2.main V2.main_spec
  by_cases h0 : args.length = 0
  · simp only [if_pos h0]
  · simp only [if_neg h0]
    have key := v2_main_loop_eq args.length args STDIN_FILENO s (le_refl _)
    have := forget_post _ _ (fun p : List String × Nat => V2.main_end p.2) s key
      (fun a s1 => indep_forget (v2_indep_main_end a.2) s1)
    rw [M_bind_assoc] at this
    exact this

/-! ## Reading results through `forget` -/

theorem forget_st {α : Type} {r1 r2 : Run α} (h : r1.forget = r2.forget) :
    r1.st.forget = r2.st.forget := by
  cases r1 <;> cases r2 <;> simp [Run.forget] at h <;> simp [Run.st, h]

theorem forget_code {r1 r2 : Run Nat} (h : r1.forget = r2.forget) : r1.code = r2.code := by
  cases r1 with
  | ok a s1 =>
    cases r2 with
    | ok b s2 =>
      simp [Run.forget] at h
      simp [Run.code, h.1]
    | halt h2 s2 => simp [Run.forget] at h
  | halt h1 s1 =>
    cases r2 with
    | ok b s2 => simp [Run.forget] at h
    | halt h2 s2 =>
      simp [Run.forget] at h
      obtain ⟨e, _⟩ := h
      subst e
      cases h1 <;> rfl

theorem forget_returned {α : Type} {r1 r2 : Run α} (h : r1.forget = r2.forget) :
    r1.returned = r2.returned := by
  cases r1 <;> cases r2 <;> simp [Run.forget] at h <;> simp [Run.returned]

theorem forget_trace {α : Type} {r1 r2 : Run α} (h : r1.forget = r2.forget) :
    r1.st.trace = r2.st.trace := (congrArg St.trace (forget_st h) : r1.st.forget.trace = r2.st.forget.trace)

theorem forget_fds {α : Type} {r1 r2 : Run α} (h : r1.forget = r2.forget) :
    r1.st.fds = r2.st.fds := (congrArg St.fds (forget_st h) : r1.st.forget.fds = r2.st.forget.fds)

theorem forget_children {α : Type} {r1 r2 : Run α} (h : r1.forget = r2.forget) :
    r1.st.children = r2.st.children := (congrArg St.children (forget_st h) : r1.st.forget.children = r2.st.forget.children)

theorem forget_dispatched {α : Type} {r1 r2 : Run α} (h : r1.forget = r2.forget) :
    r1.st.dispatched = r2.st.dispatched := (congrArg St.dispatched (forget_st h) : r1.st.forget.dispatched = r2.st.forget.dispatched)

/-! ## Operator-only input -/

theorem refSplit_ops (toks : List String) (h : ∀ t ∈ toks, t = "|" ∨ t = ";") :
    refSplit toks = [] := by
  unfold refSplit
  induction toks with
  | nil => rfl
  | cons t ts ih =>
    have ht := h t (List.mem_cons_self _ _)
    have hts : ∀ u ∈ ts, u = "|" ∨ u = ";" := fun u hu => h u (List.mem_cons_of_mem _ hu)
    rcases ht with h1 | h1 <;> subst h1 <;> simp [refSplitAux, closeRun, ih hts]

/-- C8: on an argument list that is empty or made of `|` and `;` only, `main`
of microshell_v1 makes no system call at all and `main` of microshell_v2 makes
none but the final `wait` (skipped too on an empty list); both return 0. -/
theorem operator_only_no_action (env : Env) (fds : FdTable) (args : List String)
    (h : ∀ t ∈ args, t = "|" ∨ t = ";") :
    (V1.main args (St.start env fds)).st.trace = [] ∧
    (V1.main args (St.start env fds)).code = some 0 ∧
    (V2.main args (St.start env fds)).st.trace
      = (if args.length = 0 then [] else [Event.wait none]) ∧
    (V2.main args (St.start env fds)).code = some 0 := by
  have h1 := v1_main_eq args (St.start env fds)
  have h2 := v2_main_eq args (St.start env fds)
  rw [forget_trace h1, forget_code h1, forget_trace h2, forget_code h2]
  unfold V1.main_spec V2.main_spec
  rw [refSplit_ops args h]
  by_cases h0 : args.length = 0
  · simp [h0, Run.st, Run.code, St.start]
  · simp [h0, Run.st, Run.code, St.start, V1.run_all, V1.run_segments, V2.run_segments,
      V1.end_group, V2.main_end, reset_pids, get_pids, wait_all, STDIN_FILENO, V2.live_count,
      V2.wait_loop, V2.sys_wait]

theorem operator_only_no_action_witness :
    (V2.main [";", "|", ";"] (St.start okEnv stdFds)).st.trace = [Event.wait none] ∧
    (V1.main [";", "|", ";"] (St.start okEnv stdFds)).st.trace = [] :=
  ⟨(operator_only_no_action okEnv stdFds [";", "|", ";"] (by decide)).2.2.1,
   (operator_only_no_action okEnv stdFds [";", "|", ";"] (by decide)).1⟩

/-! ## The descriptor table -/

@[simp] theorem fdGet_nil (j : Nat) : fdGet [] j = none := by
  simp [fdGet]

@[simp] theorem fdGet_cons_zero (x : Option Res) (t : FdTable) : fdGet (x :: t) 0 = x := by
  cases x <;> simp [fdGet]

@[simp] theorem fdGet_cons_succ (x : Option Res) (t : FdTable) (j : Nat) :
    fdGet (x :: t) (j + 1) = fdGet t j := by
  simp [fdGet]

theorem fdGet_fdPut (t : FdTable) (i : Nat) (v : Option Res) (j : Nat) :
    fdGet (fdPut t i v) j = if j = i then v else fdGet t j := by
  induction t generalizing i j with
  | nil =>
    induction i generalizing j with
    | zero => cases j <;> simp [fdPut]
    | succ i ih => cases j <;> simp [fdPut, ih]
  | cons x t ih =>
    cases i with
    | zero => cases j <;> simp [fdPut]
    | succ i => cases j <;> simp [fdPut, ih]

theorem fdGet_lowestFree (t : FdTable) : fdGet t (lowestFree t) = none := by
  induction t with
  | nil => simp [lowestFree]
  | cons x t ih => cases x <;> simp [lowestFree, ih]

theorem lowestFree_le (t : FdTable) (j : Nat) (h : fdGet t j = none) : lowestFree t ≤ j := by
  induction t generalizing j with
  | nil => simp [lowestFree]
  | cons x t ih =>
    cases x with
    | none => simp [lowestFree]
    | some r =>
      cases j with
      | zero => simp at h
      | succ j =>
        simp at h
        simp [lowestFree]
        exact ih j h

/-! ## Successful calls -/

theorem sys_pipe_ok (s : St) (h : s.env.pipeOk s.tick = true) :
    sys_pipe s = .ok (some (s.pipeR, s.pipeW)) s.piped := by
  simp [sys_pipe, h, St.piped, St.pipeR, St.pipeW]

theorem sys_fork_ok (s : St) (h : (s.env.forkRes s.tick).isSome = true) :
    sys_fork s = .ok (some s.forkPid)
      { s with tick := s.tick + 1, trace := s.trace ++ [.fork s.forkPid],
               live := s.live ++ [s.forkPid] } := by
  obtain ⟨p, hp⟩ := Option.isSome_iff_exists.1 h
  simp [sys_fork, hp, St.forkPid]

theorem sys_close_ok (s : St) (fd : Nat) (ho : (fdGet s.fds fd).isSome = true)
    (h : s.env.closeOk s.tick = true) : sys_close fd s = .ok true (s.closed fd) := by
  simp [sys_close, ho, h, St.closed]

theorem v1_checked_close_ok (s : St) (fd : Nat) (ho : (fdGet s.fds fd).isSome = true)
    (h : s.env.closeOk s.tick = true) : V1.checked_close fd s = .ok () (s.closed fd) := by
  simp [V1.checked_close, sys_close_ok s fd ho h]

theorem v2_checked_close_ok (s : St) (fd : Nat) (ho : (fdGet s.fds fd).isSome = true)
    (h : s.env.closeOk s.tick = true) : V2.checked_close fd s = .ok () (s.closed fd) := by
  simp [V2.checked_close, sys_close_ok s fd ho h]

theorem wait_all_eq (pids : List Nat) (s : St) : wait_all pids s = .ok () (s.waited pids) := by
  induction pids generalizing s with
  | nil => simp [wait_all, St.waited]
  | cons p ps ih =>
    simp only [wait_all, run_bind, sys_waitpid, ih]
    simp [St.waited]

theorem pipeR_free (s : St) : fdGet s.fds s.pipeR = none := fdGet_lowestFree s.fds

theorem pipeW_ne_pipeR (s : St) : s.pipeW ≠ s.pipeR := by
  intro h
  have := fdGet_lowestFree (fdPut s.fds (lowestFree s.fds) (some (.pipeR s.npipes)))
  rw [fdGet_fdPut] at this
  unfold St.pipeW St.pipeR at h
  simp [h] at this

theorem pipeW_free (s : St) : fdGet s.fds s.pipeW = none := by
  have := fdGet_lowestFree (fdPut s.fds (lowestFree s.fds) (some (.pipeR s.npipes)))
  rw [fdGet_fdPut] at this
  have hne := pipeW_ne_pipeR s
  unfold St.pipeW St.pipeR at hne
  rw [if_neg hne] at this
  exact this

theorem piped_fds_get (s : St) (j : Nat) :
    fdGet s.piped.fds j = if j = s.pipeW then some (.pipeW s.npipes)
      else if j = s.pipeR then some (.pipeR s.npipes) else fdGet s.fds j := by
  simp [St.piped, fdGet_fdPut]

theorem open_ne_pipe (s : St) (j : Nat) (h : (fdGet s.fds j).isSome = true) :
    j ≠ s.pipeR ∧ j ≠ s.pipeW := by
  constructor
  · intro e; rw [e, pipeR_free] at h; cases h
  · intro e; rw [e, pipeW_free] at h; cases h

/-- An external command in microshell_v2 with `pipe`, `fork` and `close`
succeeding: `execute_command` returns the child's pid and the next link. -/
theorem v2_execute_command_spawn (cmd : List String) (cur : Nat) (op : Sep) (s : St)
    (hext : cmd.getD 0 "" ≠ "cd") (hok : PfcOk s.env)
    (hcur : cur ≠ STDIN_FILENO → (fdGet s.fds cur).isSome = true) :
    V2.execute_command cmd cur op s
      = .ok (spawnPid op s, spawnCur op s) (spawnSt cmd cur op s) := by
  unfold V2.execute_command
  simp only [if_neg hext]
  by_cases hp : op = .PIPE
  · subst hp
    by_cases hc : cur ≠ STDIN_FILENO
    · have ho := hcur hc
      obtain ⟨n1, n2⟩ := open_ne_pipe s cur ho
      have hc1 : (fdGet (s.piped.forked cmd cur .PIPE (some (s.pipeR, s.pipeW))).fds cur).isSome
          = true := by
        show (fdGet s.piped.fds cur).isSome = true
        rw [piped_fds_get, if_neg n2, if_neg n1]; exact ho
      have hc2 : (fdGet ((s.piped.forked cmd cur .PIPE (some (s.pipeR, s.pipeW))).closed cur).fds
          s.pipeW).isSome = true := by
        show (fdGet (fdPut s.piped.fds cur none) s.pipeW).isSome = true
        rw [fdGet_fdPut, if_neg (Ne.symm n2), piped_fds_get, if_pos rfl]; rfl
      simp only [run_bind, if_true, sys_pipe_ok s (hok.pipe _), run_pure,
        sys_fork_ok s.piped (hok.fork _), noteChild, if_pos hc]
      have e1 := v2_checked_close_ok _ cur hc1 (hok.close _)
      have e2 := v2_checked_close_ok _ s.pipeW hc2 (hok.close _)
      simp only [St.forked] at e1 e2
      simp only [e1, e2, if_pos hc]
      simp [spawnSt, spawnPid, spawnCur, St.forked, hc]
    · have hc2 : (fdGet (s.piped.forked cmd cur .PIPE (some (s.pipeR, s.pipeW))).fds
          s.pipeW).isSome = true := by
        show (fdGet s.piped.fds s.pipeW).isSome = true
        rw [piped_fds_get, if_pos rfl]; rfl
      simp only [run_bind, if_true, sys_pipe_ok s (hok.pipe _), run_pure,
        sys_fork_ok s.piped (hok.fork _), noteChild, if_neg hc]
      have e2 := v2_checked_close_ok _ s.pipeW hc2 (hok.close _)
      simp only [St.forked] at e2
      simp only [e2]
      simp [spawnSt, spawnPid, spawnCur, St.forked, hc]
  · by_cases hc : cur ≠ STDIN_FILENO
    · have ho := hcur hc
      have hc1 : (fdGet (s.forked cmd cur op none).fds cur).isSome = true := ho
      simp only [run_bind, if_neg hp, run_pure, sys_fork_ok s (hok.fork _), noteChild,
        if_pos hc]
      have e1 := v2_checked_close_ok _ cur hc1 (hok.close _)
      simp only [St.forked] at e1
      simp only [e1]
      simp [spawnSt, spawnPid, spawnCur, St.forked, hc, hp]
    · simp only [run_bind, if_neg hp, run_pure, sys_fork_ok s (hok.fork _), noteChild,
        if_neg hc]
      simp [spawnSt, spawnPid, spawnCur, St.forked, hc, hp]

/-! ## Output and `cd` change nothing but the trace -/

@[simp] theorem adv_zero (s : St) : s.adv 0 [] = s := by
  cases s; simp [St.adv]

@[simp] theorem adv_adv (s : St) (n m : Nat) (e f : List Event) :
    (s.adv n e).adv m f = s.adv (n + m) (e ++ f) := by
  simp [St.adv, Nat.add_assoc]

theorem sys_write_adv (fd : Nat) (buf : List Char) (s : St) :
    ∃ r e, sys_write fd buf s = .ok r (s.adv 1 [e]) ∧ e.isOutput = true := by
  unfold sys_write
  cases s.env.writeRes s.tick with
  | none => exact ⟨none, .writeFail fd, rfl, rfl⟩
  | some k => exact ⟨_, .write fd _, rfl, rfl⟩

theorem v1_putstr_loop_adv (fd : Nat) :
    ∀ (fuel : Nat) (rest : List Char) (s : St),
      ∃ n evs, V1.ft_putstr_loop fd fuel rest s = .ok () (s.adv n evs) ∧
        ∀ e ∈ evs, e.isOutput = true := by
  intro fuel
  induction fuel with
  | zero => intro rest s; exact ⟨0, [], by simp [V1.ft_putstr_loop], by simp⟩
  | succ fuel ih =>
    intro rest s
    by_cases hr : rest = []
    · exact ⟨0, [], by simp [V1.ft_putstr_loop, hr], by simp⟩
    · obtain ⟨r, e, h1, h2⟩ := sys_write_adv fd rest s
      cases r with
      | none =>
        refine ⟨1, [e], by simp [V1.ft_putstr_loop, hr, h1], by simp [h2]⟩
      | some k =>
        obtain ⟨n, evs, h3, h4⟩ := ih (rest.drop k) (s.adv 1 [e])
        refine ⟨1 + n, e :: evs, ?_, ?_⟩
        · simp [V1.ft_putstr_loop, hr, h1, h3]
        · intro x hx
          rcases List.mem_cons.1 hx with h | h
          · rw [h]; exact h2
          · exact h4 x h

theorem v1_putstr_adv (str : List Char) (fd : Nat) (s : St) :
    ∃ n evs, V1.ft_putstr_fd str fd s = .ok () (s.adv n evs) ∧
      ∀ e ∈ evs, e.isOutput = true := by
  unfold V1.ft_putstr_fd
  split
  · exact v1_putstr_loop_adv fd _ _ s
  · exact ⟨0, [], by simp, by simp⟩

theorem v1_fatal_halts {α : Type} (s : St) :
    ∃ n evs, (V1.fatal_error : M α) s = .halt (.exited 1) (s.adv n evs) ∧
      ∀ e ∈ evs, e.isOutput = true := by
  obtain ⟨n, evs, h1, h2⟩ := v1_putstr_adv "error: fatal\n".toList STDERR_FILENO s
  refine ⟨n, evs, ?_, h2⟩
  simp only [V1.fatal_error, run_bind, h1, sys_exit]

theorem v2_fatal_halts {α : Type} (s : St) :
    ∃ n evs, (V2.fatal_error : M α) s = .halt (.exited 1) (s.adv n evs) ∧
      ∀ e ∈ evs, e.isOutput = true := by
  obtain ⟨r, e, h1, h2⟩ := sys_write_adv STDERR_FILENO "error: fatal\n".toList s
  refine ⟨1, [e], ?_, by simp [h2]⟩
  simp only [V2.fatal_error, run_bind, h1, sys_exit]

theorem isCd_of_isOutput {e : Event} (h : e.isOutput = true) : e.isCd = true := by
  cases e <;> simp_all [Event.isCd, Event.isOutput]

theorem v1_execute_cd_adv (args : List String) (s : St) :
    ∃ v n evs, V1.execute_cd args s = .ok v (s.adv n evs) ∧ ∀ e ∈ evs, e.isCd = true := by
  by_cases hl : args.length ≠ 2
  · obtain ⟨n, evs, h1, h2⟩ := v1_putstr_adv "error: cd: bad arguments\n".toList STDERR_FILENO s
    refine ⟨1, n, evs, ?_, fun e he => isCd_of_isOutput (h2 e he)⟩
    simp only [V1.execute_cd, V1.cd_bad_args_error, if_pos hl, run_bind, h1, run_pure]
  · have hch : sys_chdir (args.getD 1 "") s
        = .ok (s.env.chdirOk s.tick) (s.adv 1 [.chdir (args.getD 1 "") (s.env.chdirOk s.tick)]) :=
      rfl
    cases hc : s.env.chdirOk s.tick with
    | true =>
      refine ⟨0, 1, [.chdir (args.getD 1 "") true], ?_, by simp [Event.isCd]⟩
      simp only [V1.execute_cd, if_neg hl, run_bind, hch, hc, if_true, run_pure]
    | false =>
      obtain ⟨n1, e1, h1, g1⟩ := v1_putstr_adv "error: cd: cannot change directory to ".toList
        STDERR_FILENO (s.adv 1 [.chdir (args.getD 1 "") false])
      obtain ⟨n2, e2, h2, g2⟩ := v1_putstr_adv (args.getD 1 "").toList STDERR_FILENO
        ((s.adv 1 [.chdir (args.getD 1 "") false]).adv n1 e1)
      obtain ⟨n3, e3, h3, g3⟩ := v1_putstr_adv "\n".toList STDERR_FILENO
        (((s.adv 1 [.chdir (args.getD 1 "") false]).adv n1 e1).adv n2 e2)
      refine ⟨1, 1 + n1 + n2 + n3, .chdir (args.getD 1 "") false :: (e1 ++ e2 ++ e3), ?_, ?_⟩
      · simp only [V1.execute_cd, if_neg hl, run_bind, hch, hc, V1.cd_chdir_error, h1, h2, h3,
          Bool.false_eq_true, if_false, run_pure]
        simp [Nat.add_assoc]
      · intro e he
        simp only [List.mem_cons, List.mem_append] at he
        rcases he with h | (h | h) | h
        · rw [h]; rfl
        · exact isCd_of_isOutput (g1 e h)
        · exact isCd_of_isOutput (g2 e h)
        · exact isCd_of_isOutput (g3 e h)

theorem advances_pure {α : Type} (P : Event → Bool) (a : α) (s : St) :
    Advances P s ((pure a : M α) s) :=
  ⟨0, [], by simp [Run.st], by simp, Or.inl rfl⟩

theorem advances_bind {α β : Type} {P : Event → Bool} {m : M α} {k : α → M β} {s : St}
    (hm : Advances P s (m s)) (hk : ∀ a s1, m s = .ok a s1 → Advances P s1 (k a s1)) :
    Advances P s ((m >>= k) s) := by
  obtain ⟨n, evs, h1, h2, h3⟩ := hm
  simp only [run_bind]
  cases hr : m s with
  | ok a s1 =>
    rw [hr] at h1
    simp only [Run.st] at h1
    obtain ⟨n2, evs2, g1, g2, g3⟩ := hk a s1 hr
    refine ⟨n + n2, evs ++ evs2, ?_, ?_, g3⟩
    · rw [g1, h1, adv_adv]
    · intro e he
      rcases List.mem_append.1 he with h | h
      · exact h2 e h
      · exact g2 e h
  | halt h s1 =>
    rw [hr] at h1 h3
    refine ⟨n, evs, h1, h2, Or.inr ?_⟩
    rcases h3 with h3 | ⟨s2, h3⟩
    · cases h3
    · cases h3
      exact ⟨_, rfl⟩

theorem advances_mono {α : Type} {P Q : Event → Bool} {s : St} {r : Run α}
    (h : Advances P s r) (hpq : ∀ e, P e = true → Q e = true) : Advances Q s r := by
  obtain ⟨n, evs, h1, h2, h3⟩ := h
  exact ⟨n, evs, h1, fun e he => hpq e (h2 e he), h3⟩

theorem advances_write (fd : Nat) (buf : List Char) (s : St) :
    Advances Event.isOutput s (sys_write fd buf s) := by
  obtain ⟨r, e, h1, h2⟩ := sys_write_adv fd buf s
  exact ⟨1, [e], by rw [h1]; rfl, by simp [h2], Or.inl (by rw [h1]; rfl)⟩

theorem advances_exit {α : Type} (P : Event → Bool) (s : St) :
    Advances P s ((sys_exit 1 : M α) s) :=
  ⟨0, [], by simp [sys_exit, Run.st], by simp, Or.inr ⟨s, rfl⟩⟩

theorem v2_fatal_advances {α : Type} (s : St) :
    Advances Event.isOutput s ((V2.fatal_error : M α) s) :=
  advances_bind (advances_write _ _ s) (fun _ s1 _ => advances_exit _ s1)

theorem v2_putstr_loop_advances (str : List Char) (fd : Nat) :
    ∀ (fuel : Nat) (rest : List Char) (s : St),
      Advances Event.isOutput s (V2.ft_putstr_loop str fd fuel rest s) := by
  intro fuel
  induction fuel with
  | zero => intro rest s; exact advances_pure _ _ s
  | succ fuel ih =>
    intro rest s
    unfold V2.ft_putstr_loop
    split
    · exact advances_pure _ _ s
    · refine advances_bind (advances_write fd rest s) (fun r s1 _ => ?_)
      cases r with
      | none =>
        show Advances Event.isOutput s1 ((if _ then _ else _ : M Unit) s1)
        split
        · exact v2_fatal_advances s1
        · exact advances_pure _ _ s1
      | some k => exact ih _ s1

theorem v2_putstr_advances (str : List Char) (fd : Nat) (s : St) :
    Advances Event.isOutput s (V2.ft_putstr_fd str fd s) := by
  unfold V2.ft_putstr_fd
  split
  · exact advances_pure _ _ s
  · exact v2_putstr_loop_advances str fd _ _ s

theorem advances_chdir (path : String) (s : St) :
    Advances Event.isCd s (sys_chdir path s) :=
  ⟨1, [.chdir path (s.env.chdirOk s.tick)], rfl, by simp [Event.isCd], Or.inl rfl⟩

theorem v2_execute_cd_advances (args : List String) (s : St) :
    Advances Event.isCd s (V2.execute_cd args s) := by
  have hp : ∀ str s1, Advances Event.isCd s1 (V2.ft_putstr_fd str STDERR_FILENO s1) :=
    fun str s1 => advances_mono (v2_putstr_advances str _ s1) (fun _ h => isCd_of_isOutput h)
  unfold V2.execute_cd
  show Advances Event.isCd s ((if _ then _ else _ : M Nat) s)
  split
  · exact advances_bind (hp _ s) (fun _ s1 _ => advances_pure _ _ s1)
  · refine advances_bind (advances_chdir _ s) (fun ok s1 _ => ?_)
    show Advances Event.isCd s1 ((if _ then _ else _ : M Nat) s1)
    split
    · exact advances_pure _ _ s1
    · refine advances_bind ?_ (fun _ s2 _ => advances_pure _ _ s2)
      unfold V2.cd_chdir_error
      exact advances_bind (hp _ s1) (fun _ s2 _ =>
        advances_bind (hp _ s2) (fun _ s3 _ => hp _ s3))

theorem advances_ok {α : Type} {P : Event → Bool} {s s1 : St} {m : M α} {a : α}
    (h : Advances P s (m s)) (hr : m s = .ok a s1) :
    ∃ n evs, s1 = s.adv n evs ∧ ∀ e ∈ evs, P e = true := by
  obtain ⟨n, evs, h1, h2, _⟩ := h
  rw [hr] at h1
  exact ⟨n, evs, h1, h2⟩

/-! ## With `write` succeeding the two `execute_cd` agree -/

theorem v2_putstr_loop_eq_v1 (str : List Char) (fd : Nat) :
    ∀ (fuel : Nat) (rest : List Char) (s : St), WritesOk s.env →
      V2.ft_putstr_loop str fd fuel rest s = V1.ft_putstr_loop fd fuel rest s := by
  intro fuel
  induction fuel with
  | zero => intro rest s _; rfl
  | succ fuel ih =>
    intro rest s hw
    by_cases hr : rest = []
    · simp [V2.ft_putstr_loop, V1.ft_putstr_loop, hr]
    · obtain ⟨k, hk⟩ := Option.isSome_iff_exists.1 (hw s.tick)
      simp only [V2.ft_putstr_loop, V1.ft_putstr_loop, if_neg hr, run_bind, sys_write, hk]
      exact ih _ _ hw

theorem v2_putstr_eq_v1 (str : List Char) (fd : Nat) (s : St) (hw : WritesOk s.env) :
    V2.ft_putstr_fd str fd s = V1.ft_putstr_fd str fd s := by
  unfold V2.ft_putstr_fd V1.ft_putstr_fd
  by_cases h : str.length = 0
  · simp [h]
  · have h2 : str.length > 0 := Nat.pos_of_ne_zero h
    simp only [if_neg h, if_pos h2]
    exact v2_putstr_loop_eq_v1 str fd _ _ s hw

theorem v2_execute_cd_eq_v1 (args : List String) (s : St) (hw : WritesOk s.env) :
    V2.execute_cd args s = V1.execute_cd args s := by
  by_cases hl : args.length ≠ 2
  · simp only [V2.execute_cd, V1.execute_cd, if_pos hl, run_bind, V2.cd_bad_args_error,
      V1.cd_bad_args_error, v2_putstr_eq_v1 _ _ s hw]
  · simp only [V2.execute_cd, V1.execute_cd, if_neg hl, run_bind, sys_chdir]
    cases hc : s.env.chdirOk s.tick with
    | true => rfl
    | false =>
      simp only [Bool.false_eq_true, if_false, run_bind, V2.cd_chdir_error, V1.cd_chdir_error]
      obtain ⟨n1, e1, h1, _⟩ := v1_putstr_adv "error: cd: cannot change directory to ".toList
        STDERR_FILENO (s.adv 1 [.chdir (args.getD 1 "") false])
      obtain ⟨n2, e2, h2, _⟩ := v1_putstr_adv (args.getD 1 "").toList STDERR_FILENO
        ((s.adv 1 [.chdir (args.getD 1 "") false]).adv n1 e1)
      have w0 : WritesOk (s.adv 1 [.chdir (args.getD 1 "") false]).env := hw
      have w1 : WritesOk ((s.adv 1 [.chdir (args.getD 1 "") false]).adv n1 e1).env := hw
      have w2 : WritesOk (((s.adv 1 [.chdir (args.getD 1 "") false]).adv n1 e1).adv n2 e2).env :=
        hw
      have q1 := v2_putstr_eq_v1 "error: cd: cannot change directory to ".toList STDERR_FILENO _ w0
      have q2 := v2_putstr_eq_v1 (args.getD 1 "").toList STDERR_FILENO _ w1
      have q3 := v2_putstr_eq_v1 "\n".toList STDERR_FILENO _ w2
      simp only [St.adv] at q1 q2 q3 h1 h2
      simp only [q1, h1, q2, h2, q3]

/-! ## One external command -/

/-- An external command in microshell_v1 with `pipe`, `fork` and `close`
succeeding: the child is spawned, then tracked. -/
theorem v1_dispatch_spawn (cmd : List String) (cur : Nat) (op : Sep) (s : St)
    (hext : cmd.getD 0 "" ≠ "cd") (hok : PfcOk s.env)
    (hcur : cur ≠ STDIN_FILENO → (fdGet s.fds cur).isSome = true) :
    V1.dispatch cmd cur op s
      = (V1.track (spawnPid op s) >>= fun _ => pure (spawnCur op s)) (spawnSt cmd cur op s) := by
  unfold V1.dispatch
  simp only [if_neg hext]
  by_cases hp : op = .PIPE
  · subst hp
    by_cases hc : cur ≠ STDIN_FILENO
    · have ho := hcur hc
      obtain ⟨n1, n2⟩ := open_ne_pipe s cur ho
      have hc1 : (fdGet (s.piped.forked cmd cur .PIPE (some (s.pipeR, s.pipeW))).fds cur).isSome
          = true := by
        show (fdGet s.piped.fds cur).isSome = true
        rw [piped_fds_get, if_neg n2, if_neg n1]; exact ho
      have hc2 : (fdGet ((s.piped.forked cmd cur .PIPE (some (s.pipeR, s.pipeW))).closed cur).fds
          s.pipeW).isSome = true := by
        show (fdGet (fdPut s.piped.fds cur none) s.pipeW).isSome = true
        rw [fdGet_fdPut, if_neg (Ne.symm n2), piped_fds_get, if_pos rfl]; rfl
      simp only [run_bind, if_true, sys_pipe_ok s (hok.pipe _), run_pure,
        sys_fork_ok s.piped (hok.fork _), noteChild, if_pos hc]
      have e1 := v1_checked_close_ok _ cur hc1 (hok.close _)
      have e2 := v1_checked_close_ok _ s.pipeW hc2 (hok.close _)
      simp only [St.forked] at e1 e2
      simp only [e1, e2, if_pos hc]
      simp [spawnSt, spawnPid, spawnCur, St.forked, hc, V1.track, get_pids]
      split <;> rfl
    · have hc2 : (fdGet (s.piped.forked cmd cur .PIPE (some (s.pipeR, s.pipeW))).fds
          s.pipeW).isSome = true := by
        show (fdGet s.piped.fds s.pipeW).isSome = true
        rw [piped_fds_get, if_pos rfl]; rfl
      simp only [run_bind, if_true, sys_pipe_ok s (hok.pipe _), run_pure,
        sys_fork_ok s.piped (hok.fork _), noteChild, if_neg hc]
      have e2 := v1_checked_close_ok _ s.pipeW hc2 (hok.close _)
      simp only [St.forked] at e2
      simp only [e2]
      simp [spawnSt, spawnPid, spawnCur, St.forked, hc, V1.track, get_pids]
      split <;> rfl
  · by_cases hc : cur ≠ STDIN_FILENO
    · have ho := hcur hc
      have hc1 : (fdGet (s.forked cmd cur op none).fds cur).isSome = true := ho
      simp only [run_bind, if_neg hp, run_pure, sys_fork_ok s (hok.fork _), noteChild,
        if_pos hc]
      have e1 := v1_checked_close_ok _ cur hc1 (hok.close _)
      simp only [St.forked] at e1
      simp only [e1]
      simp [spawnSt, spawnPid, spawnCur, St.forked, hc, hp, V1.track, get_pids]
      split <;> rfl
    · simp only [run_bind, if_neg hp, run_pure, sys_fork_ok s (hok.fork _), noteChild,
        if_neg hc]
      simp [spawnSt, spawnPid, spawnCur, St.forked, hc, hp, V1.track, get_pids]
      split <;> rfl

/-- The descriptors of the parent after an external command was spawned: the
new pipe's read end when `op` is `PIPE`, the incoming link closed, everything
else as before. -/
theorem spawn_fds_get (cmd : List String) (cur : Nat) (op : Sep) (s : St)
    (hcur : cur ≠ STDIN_FILENO → (fdGet s.fds cur).isSome = true) (j : Nat) :
    fdGet (spawnSt cmd cur op s).fds j
      = if op = .PIPE ∧ j = s.pipeR then some (.pipeR s.npipes)
        else if cur ≠ STDIN_FILENO ∧ j = cur then none else fdGet s.fds j := by
  by_cases hp : op = .PIPE
  · subst hp
    by_cases hc : cur ≠ STDIN_FILENO
    · obtain ⟨n1, n2⟩ := open_ne_pipe s cur (hcur hc)
      simp only [spawnSt, if_true, if_pos hc, St.closed, St.forked, fdGet_fdPut, piped_fds_get]
      by_cases h1 : j = s.pipeW
      · subst h1
        simp [pipeW_ne_pipeR, Ne.symm n2, pipeW_free]
      · by_cases h2 : j = cur
        · subst h2
          simp [h1, n1, hc]
        · simp [h1, h2]
    · simp only [spawnSt, if_true, if_neg hc, St.closed, St.forked, fdGet_fdPut, piped_fds_get]
      by_cases h1 : j = s.pipeW
      · subst h1
        simp [pipeW_ne_pipeR, pipeW_free, hc]
      · simp [h1, hc]
  · by_cases hc : cur ≠ STDIN_FILENO
    · simp [spawnSt, hp, hc, St.closed, St.forked, fdGet_fdPut]
    · simp [spawnSt, hp, hc, St.forked]

/-! ## One loop iteration of microshell_v1 -/

theorem v1_track_ok (pid : Nat) (s : St) (h : s.g_pids.length < 2048) :
    V1.track pid s = .ok () (s.pushed pid) := by
  simp [V1.track, get_pids, h, push_pid, St.pushed]

theorem v1_track_full {α : Type} (pid : Nat) (k : Unit → M α) (s : St)
    (h : ¬ s.g_pids.length < 2048) :
    ∃ n evs, (V1.track pid >>= k) s = .halt (.exited 1) (s.adv n evs) ∧
      ∀ e ∈ evs, e.isOutput = true := by
  obtain ⟨n, evs, h1, h2⟩ := v1_fatal_halts (α := Unit) s
  refine ⟨n, evs, ?_, h2⟩
  simp only [V1.track, run_bind, get_pids, if_neg h, h1]

theorem v1_loop_body_nomem (cmd : List String) (op : Sep) (cur : Nat) (s : St)
    (h : s.env.mallocOk s.tick = false) :
    ∃ s1, V1.loop_body cmd op cur s = .halt (.exited 1) s1 := by
  obtain ⟨n, evs, h1, _⟩ := v1_fatal_halts (α := PUnit) s.malloced
  refine ⟨s.malloced.adv n evs, ?_⟩
  simp only [V1.loop_body, run_bind, sys_malloc, h]
  simp only [St.malloced] at h1
  simp [h1, St.malloced]

theorem v1_loop_body_mem (cmd : List String) (op : Sep) (cur : Nat) (s : St)
    (h : s.env.mallocOk s.tick = true) :
    V1.loop_body cmd op cur s = V1.dispatch cmd cur op (stepBase cmd op s) := by
  simp [V1.loop_body, sys_malloc, h, noteDispatch, stepBase, St.malloced, St.noted]

theorem closeIf_open (s : St) (cur : Nat) (hok : PfcOk s.env)
    (hcur : cur ≠ STDIN_FILENO → (fdGet s.fds cur).isSome = true) (hc : cur ≠ STDIN_FILENO) :
    V1.checked_close cur s = .ok () (s.closeIf cur) ∧
      V2.checked_close cur s = .ok () (s.closeIf cur) := by
  unfold St.closeIf
  rw [if_pos hc]
  exact ⟨v1_checked_close_ok s cur (hcur hc) (hok.close _),
    v2_checked_close_ok s cur (hcur hc) (hok.close _)⟩

theorem v1_dispatch_cd (cmd : List String) (cur : Nat) (op : Sep) (s : St)
    (hcd : isCdCmd cmd) (hok : PfcOk s.env)
    (hcur : cur ≠ STDIN_FILENO → (fdGet s.fds cur).isSome = true) :
    V1.dispatch cmd cur op s
      = (V1.execute_cd cmd >>= fun _ => pure STDIN_FILENO) (s.closeIf cur) := by
  unfold isCdCmd at hcd
  unfold V1.dispatch
  simp only [if_pos hcd]
  by_cases hc : cur ≠ STDIN_FILENO
  · simp only [run_bind, if_pos hc, (closeIf_open s cur hok hcur hc).1, run_pure]
  · simp only [run_bind, if_neg hc, run_pure, St.closeIf, if_false]
    have : cur = STDIN_FILENO := by simpa using hc
    subst this
    rfl

/-- One segment in microshell_v1 when `malloc`, `pipe`, `fork` and `close`
succeed and the tracking array is not full. -/
theorem v1_step_total (cmd : List String) (op : Sep) (cur : Nat) (s : St)
    (hok : PfcOk s.env) (hm : s.env.mallocOk s.tick = true)
    (hcur : cur ≠ STDIN_FILENO → (fdGet s.fds cur).isSome = true)
    (hcap : isCdCmd cmd ∨ s.g_pids.length < 2048) :
    ∃ s1, V1.loop_body cmd op cur s = .ok (stepCur cmd op s) s1 ∧ V1Post cmd op cur s s1 := by
  rw [v1_loop_body_mem cmd op cur s hm]
  by_cases hcd : isCdCmd cmd
  · rw [v1_dispatch_cd cmd cur op (stepBase cmd op s) hcd hok hcur]
    obtain ⟨v, n, evs, h1, h2⟩ := v1_execute_cd_adv cmd ((stepBase cmd op s).closeIf cur)
    refine ⟨((stepBase cmd op s).closeIf cur).adv n evs, ?_, ?_⟩
    · simp only [run_bind, h1, run_pure, stepCur, if_pos hcd]
    · unfold V1Post
      rw [if_pos hcd]
      exact ⟨n, evs, rfl, h2⟩
  · have hlen : s.g_pids.length < 2048 := hcap.resolve_left hcd
    rw [v1_dispatch_spawn cmd cur op (stepBase cmd op s) hcd hok hcur]
    have hg : (spawnSt cmd cur op (stepBase cmd op s)).g_pids.length < 2048 := by
      have : (spawnSt cmd cur op (stepBase cmd op s)).g_pids = s.g_pids := by
        unfold spawnSt
        split <;> split <;> rfl
      rw [this]; exact hlen
    refine ⟨(spawnSt cmd cur op (stepBase cmd op s)).pushed (spawnPid op (stepBase cmd op s)),
      ?_, ?_⟩
    · simp only [run_bind, v1_track_ok _ _ hg, run_pure, stepCur, if_neg hcd]
    · unfold V1Post
      rw [if_neg hcd]

/-- One segment in microshell_v1 with `pipe`, `fork` and `close` succeeding:
if `loop_body` returns at all, `malloc` succeeded, the tracking array was not
full, and the state is the one described by `V1Post`. -/
theorem v1_step_partial (cmd : List String) (op : Sep) (cur : Nat) (s : St) (c1 : Nat) (s1 : St)
    (hok : PfcOk s.env)
    (hcur : cur ≠ STDIN_FILENO → (fdGet s.fds cur).isSome = true)
    (h : V1.loop_body cmd op cur s = .ok c1 s1) :
    s.env.mallocOk s.tick = true ∧ (isCdCmd cmd ∨ s.g_pids.length < 2048) ∧
      c1 = stepCur cmd op s ∧ V1Post cmd op cur s s1 := by
  cases hm : s.env.mallocOk s.tick with
  | false =>
    obtain ⟨s2, h2⟩ := v1_loop_body_nomem cmd op cur s hm
    rw [h2] at h; cases h
  | true =>
    by_cases hcap : isCdCmd cmd ∨ s.g_pids.length < 2048
    · obtain ⟨s2, h2, h3⟩ := v1_step_total cmd op cur s hok hm hcur hcap
      rw [h2] at h
      cases h
      exact ⟨rfl, hcap, rfl, h3⟩
    · exfalso
      have hcd : ¬ isCdCmd cmd := fun x => hcap (Or.inl x)
      have hlen : ¬ s.g_pids.length < 2048 := fun x => hcap (Or.inr x)
      rw [v1_loop_body_mem cmd op cur s hm,
        v1_dispatch_spawn cmd cur op (stepBase cmd op s) hcd hok hcur] at h
      have hg : ¬ (spawnSt cmd cur op (stepBase cmd op s)).g_pids.length < 2048 := by
        have : (spawnSt cmd cur op (stepBase cmd op s)).g_pids = s.g_pids := by
          unfold spawnSt
          split <;> split <;> rfl
        rw [this]; exact hlen
      obtain ⟨n, evs, h2, _⟩ := v1_track_full (spawnPid op (stepBase cmd op s))
        (fun _ => (pure (spawnCur op (stepBase cmd op s)) : M Nat)) _ hg
      rw [h2] at h
      cases h

/-! ## One loop iteration of microshell_v2 -/

theorem spawnSt_g_pids (cmd : List String) (cur : Nat) (op : Sep) (s : St) :
    (spawnSt cmd cur op s).g_pids = s.g_pids := by
  unfold spawnSt
  split <;> split <;> rfl

theorem v2_loop_body_nomem (cmd : List String) (op : Sep) (cur : Nat) (s : St)
    (h : s.env.mallocOk s.tick = false) :
    ∃ s1, V2.loop_body cmd op cur s = .halt (.exited 1) s1 := by
  obtain ⟨n, evs, h1, _⟩ := v2_fatal_halts (α := PUnit) s.malloced
  refine ⟨s.malloced.adv n evs, ?_⟩
  simp only [V2.loop_body, run_bind, sys_malloc, h]
  simp only [St.malloced] at h1
  simp [h1, St.malloced]

theorem v2_execute_command_cd (cmd : List String) (cur : Nat) (op : Sep) (s : St)
    (hcd : isCdCmd cmd) (hok : PfcOk s.env)
    (hcur : cur ≠ STDIN_FILENO → (fdGet s.fds cur).isSome = true) :
    V2.execute_command cmd cur op s
      = (V2.execute_cd cmd >>= fun _ => pure (0, STDIN_FILENO)) (s.closeIf cur) := by
  unfold isCdCmd at hcd
  unfold V2.execute_command
  simp only [if_pos hcd]
  by_cases hc : cur ≠ STDIN_FILENO
  · simp only [run_bind, if_pos hc, (closeIf_open s cur hok hcur hc).2, run_pure]
  · simp only [run_bind, if_neg hc, run_pure, St.closeIf, if_false]

theorem spawnPid_pos (op : Sep) (s : St) : spawnPid op s > 0 := by
  unfold spawnPid St.forkPid
  omega

theorem waited_nil (s : St) : s.waited [] = s := by
  cases s; simp [St.waited]

theorem v2_loop_body_mem (cmd : List String) (op : Sep) (cur : Nat) (s : St)
    (h : s.env.mallocOk s.tick = true) :
    V2.loop_body cmd op cur s
      = (V2.execute_command cmd cur op >>= V2.loop_tail cmd op) (stepBase cmd op s) := by
  simp only [V2.loop_body, run_bind, sys_malloc, h, not_true_eq_false, if_false, run_pure,
    noteDispatch, stepBase, St.malloced, St.noted, V2.loop_tail]

/-- An external command in a loop iteration of microshell_v2 when `malloc`,
`pipe`, `fork` and `close` succeed. -/
theorem v2_step_ext (cmd : List String) (op : Sep) (cur : Nat) (s : St)
    (hok : PfcOk s.env) (hm : s.env.mallocOk s.tick = true)
    (hcur : cur ≠ STDIN_FILENO → (fdGet s.fds cur).isSome = true)
    (hcd : ¬ isCdCmd cmd) :
    ∃ s1, (reset_pids >>= fun _ => V2.loop_body cmd op cur) s
        = .ok (stepCur cmd op s.forget) s1 ∧ V2Post cmd op cur s s1 := by
  have hcd2 : ¬ cmd.getD 0 "" = "cd" := hcd
  have e := v2_execute_command_spawn cmd cur op (stepBase cmd op s.forget) hcd hok hcur
  have hg : (spawnSt cmd cur op (stepBase cmd op s.forget)).g_pids = [] := by
    rw [spawnSt_g_pids]; rfl
  have hpos := spawnPid_pos op (stepBase cmd op s.forget)
  have hstart : (reset_pids >>= fun _ => V2.loop_body cmd op cur) s
      = V2.loop_tail cmd op (spawnPid op (stepBase cmd op s.forget),
          spawnCur op (stepBase cmd op s.forget))
          (spawnSt cmd cur op (stepBase cmd op s.forget)) := by
    show V2.loop_body cmd op cur s.forget = _
    rw [v2_loop_body_mem cmd op cur s.forget hm, run_bind, e]
  rw [hstart]
  by_cases hp : op = .PIPE
  · refine ⟨(spawnSt cmd cur op (stepBase cmd op s.forget)).pushed
      (spawnPid op (stepBase cmd op s.forget)), ?_, ?_⟩
    · have hop : ¬ (op = .SEMI ∨ op = .END ∨ cmd.getD 0 "" = "cd") := by
        intro h
        rcases h with h | h | h
        · rw [hp] at h; cases h
        · rw [hp] at h; cases h
        · exact hcd2 h
      simp only [V2.loop_tail, run_bind, if_pos hpos, get_pids, hg, List.length_nil,
        Nat.zero_lt_succ, if_true, push_pid, if_neg hop, run_pure, stepCur, if_neg hcd]
      simp [St.pushed, hg]
    · unfold V2Post
      rw [if_neg hcd, if_pos hp]
  · refine ⟨(spawnSt cmd cur op (stepBase cmd op s.forget)).waited
      [spawnPid op (stepBase cmd op s.forget)], ?_, ?_⟩
    · have hop : op = .SEMI ∨ op = .END ∨ cmd.getD 0 "" = "cd" := by
        cases op <;> simp at hp ⊢
      have hc0 : ¬ spawnCur op (stepBase cmd op s.forget) ≠ STDIN_FILENO := by
        simp [spawnCur, hp]
      simp only [V2.loop_tail, run_bind, if_pos hpos, get_pids, hg, List.length_nil,
        Nat.zero_lt_succ, if_true, push_pid, if_pos hop, run_pure, stepCur, if_neg hcd,
        wait_all_eq, reset_pids, if_neg hc0, List.nil_append]
      simp [St.waited, hg, spawnCur, hp]
    · unfold V2Post
      rw [if_neg hcd, if_neg hp]

theorem closeIf_g_pids (s : St) (cur : Nat) : (s.closeIf cur).g_pids = s.g_pids := by
  unfold St.closeIf
  split <;> rfl

theorem v2_loop_tail_cd (cmd : List String) (op : Sep) (s : St) (hcd : isCdCmd cmd)
    (hg : s.g_pids = []) :
    V2.loop_tail cmd op (0, STDIN_FILENO) s = .ok STDIN_FILENO s := by
  have hop : op = .SEMI ∨ op = .END ∨ cmd.getD 0 "" = "cd" := Or.inr (Or.inr hcd)
  simp only [V2.loop_tail, run_bind, gt_iff_lt, Nat.lt_irrefl, if_false, run_pure, if_pos hop,
    get_pids, hg, wait_all_eq, reset_pids, ne_eq, not_true_eq_false]
  cases s
  simp_all [St.waited]

/-- The builtin in a loop iteration of microshell_v2 when `malloc` and
`close` succeed: the link is closed, then `execute_cd` runs. -/
theorem v2_step_cd_run (cmd : List String) (op : Sep) (cur : Nat) (s : St)
    (hok : PfcOk s.env) (hm : s.env.mallocOk s.tick = true)
    (hcur : cur ≠ STDIN_FILENO → (fdGet s.fds cur).isSome = true)
    (hcd : isCdCmd cmd) :
    (reset_pids >>= fun _ => V2.loop_body cmd op cur) s
      = (V2.execute_cd cmd >>= fun _ => pure STDIN_FILENO)
          ((stepBase cmd op s.forget).closeIf cur) := by
  show V2.loop_body cmd op cur s.forget = _
  rw [v2_loop_body_mem cmd op cur s.forget hm, run_bind,
    v2_execute_command_cd cmd cur op (stepBase cmd op s.forget) hcd hok hcur]
  simp only [run_bind]
  have hadv := v2_execute_cd_advances cmd ((stepBase cmd op s.forget).closeIf cur)
  cases hr : V2.execute_cd cmd ((stepBase cmd op s.forget).closeIf cur) with
  | halt h s2 => rfl
  | ok v s2 =>
    obtain ⟨n, evs, h1, _⟩ := advances_ok hadv hr
    have hg : s2.g_pids = [] := by
      rw [h1]
      show ((stepBase cmd op s.forget).closeIf cur).g_pids = []
      rw [closeIf_g_pids]
      rfl
    simp only [run_pure]
    exact v2_loop_tail_cd cmd op s2 hcd hg

/-- One loop iteration of microshell_v2 when every `malloc`, `pipe`, `fork`,
`close` and `write` call succeeds. -/
theorem v2_step_total (cmd : List String) (op : Sep) (cur : Nat) (s : St)
    (hok : PfcOk s.env) (hm : s.env.mallocOk s.tick = true)
    (hcur : cur ≠ STDIN_FILENO → (fdGet s.fds cur).isSome = true)
    (hw : WritesOk s.env) :
    ∃ s1, (reset_pids >>= fun _ => V2.loop_body cmd op cur) s
        = .ok (stepCur cmd op s.forget) s1 ∧ V2Post cmd op cur s s1 := by
  by_cases hcd : isCdCmd cmd
  · rw [v2_step_cd_run cmd op cur s hok hm hcur hcd]
    have hw2 : WritesOk ((stepBase cmd op s.forget).closeIf cur).env := by
      unfold St.closeIf
      split <;> exact hw
    obtain ⟨v, n, evs, h1, h2⟩ := v1_execute_cd_adv cmd ((stepBase cmd op s.forget).closeIf cur)
    refine ⟨((stepBase cmd op s.forget).closeIf cur).adv n evs, ?_, ?_⟩
    · simp only [run_bind, v2_execute_cd_eq_v1 _ _ hw2, h1, run_pure, stepCur, if_pos hcd]
    · unfold V2Post
      rw [if_pos hcd]
      exact ⟨n, evs, rfl, h2⟩
  · exact v2_step_ext cmd op cur s hok hm hcur hcd

/-- One loop iteration of microshell_v2 with `pipe`, `fork` and `close`
succeeding: if it returns at all, `malloc` succeeded and the state is the one
described by `V2Post`. -/
theorem v2_step_partial (cmd : List String) (op : Sep) (cur : Nat) (s : St) (c1 : Nat) (s1 : St)
    (hok : PfcOk s.env)
    (hcur : cur ≠ STDIN_FILENO → (fdGet s.fds cur).isSome = true)
    (h : (reset_pids >>= fun _ => V2.loop_body cmd op cur) s = .ok c1 s1) :
    s.env.mallocOk s.tick = true ∧ c1 = stepCur cmd op s.forget ∧ V2Post cmd op cur s s1 := by
  cases hm : s.env.mallocOk s.tick with
  | false =>
    obtain ⟨s2, h2⟩ := v2_loop_body_nomem cmd op cur s.forget hm
    have : (reset_pids >>= fun _ => V2.loop_body cmd op cur) s
        = V2.loop_body cmd op cur s.forget := rfl
    rw [this, h2] at h; cases h
  | true =>
    by_cases hcd : isCdCmd cmd
    · rw [v2_step_cd_run cmd op cur s hok hm hcur hcd] at h
      have hadv := v2_execute_cd_advances cmd ((stepBase cmd op s.forget).closeIf cur)
      simp only [run_bind] at h
      cases hr : V2.execute_cd cmd ((stepBase cmd op s.forget).closeIf cur) with
      | halt h2 s2 => rw [hr] at h; cases h
      | ok v s2 =>
        rw [hr] at h
        obtain ⟨n, evs, h1, h2⟩ := advances_ok hadv hr
        cases h
        refine ⟨rfl, by simp [stepCur, hcd], ?_⟩
        unfold V2Post
        rw [if_pos hcd]
        exact ⟨n, evs, h1, h2⟩
    · obtain ⟨s2, h2, h3⟩ := v2_step_ext cmd op cur s hok hm hcur hcd
      rw [h2] at h
      cases h
      exact ⟨rfl, rfl, h3⟩

/-! ## Facts about the state after one segment -/

theorem closeIf_env (s : St) (cur : Nat) : (s.closeIf cur).env = s.env := by
  unfold St.closeIf; split <;> rfl

theorem closeIf_dispatched (s : St) (cur : Nat) : (s.closeIf cur).dispatched = s.dispatched := by
  unfold St.closeIf; split <;> rfl

theorem closeIf_fds_get (s : St) (cur j : Nat) :
    fdGet (s.closeIf cur).fds j
      = if cur ≠ STDIN_FILENO ∧ j = cur then none else fdGet s.fds j := by
  unfold St.closeIf
  by_cases hc : cur ≠ STDIN_FILENO
  · simp only [if_pos hc, St.closed, fdGet_fdPut]
    by_cases hj : j = cur <;> simp [hj, hc]
  · simp [hc]

theorem spawnSt_env (cmd : List String) (cur : Nat) (op : Sep) (s : St) :
    (spawnSt cmd cur op s).env = s.env := by
  unfold spawnSt; split <;> split <;> rfl

theorem spawnSt_dispatched (cmd : List String) (cur : Nat) (op : Sep) (s : St) :
    (spawnSt cmd cur op s).dispatched = s.dispatched := by
  unfold spawnSt; split <;> split <;> rfl

theorem v1_post_facts (cmd : List String) (op : Sep) (cur : Nat) (s s1 : St)
    (hcur : LinkOk cur s) (h : V1Post cmd op cur s s1) :
    s1.env = s.env ∧ s1.dispatched = s.dispatched ++ [(cmd, op)] ∧
      (∀ j, fdGet s1.fds j = fdsAfter cmd op cur s j) ∧
      s1.g_pids.length = s.g_pids.length + (if isCdCmd cmd then 0 else 1) := by
  unfold V1Post at h
  by_cases hcd : isCdCmd cmd
  · rw [if_pos hcd] at h
    obtain ⟨n, evs, h1, _⟩ := h
    subst h1
    refine ⟨?_, ?_, ?_, ?_⟩
    · show ((stepBase cmd op s).closeIf cur).env = s.env
      rw [closeIf_env]; rfl
    · show ((stepBase cmd op s).closeIf cur).dispatched = _
      rw [closeIf_dispatched]; rfl
    · intro j
      show fdGet ((stepBase cmd op s).closeIf cur).fds j = _
      rw [closeIf_fds_get]
      simp [fdsAfter, hcd, stepBase, St.malloced, St.noted]
    · show ((stepBase cmd op s).closeIf cur).g_pids.length = _
      rw [closeIf_g_pids]; simp [hcd, stepBase, St.malloced, St.noted]
  · rw [if_neg hcd] at h
    subst h
    refine ⟨?_, ?_, ?_, ?_⟩
    · show (spawnSt cmd cur op (stepBase cmd op s)).env = s.env
      rw [spawnSt_env]; rfl
    · show (spawnSt cmd cur op (stepBase cmd op s)).dispatched = _
      rw [spawnSt_dispatched]; rfl
    · intro j
      show fdGet (spawnSt cmd cur op (stepBase cmd op s)).fds j = _
      rw [spawn_fds_get cmd cur op (stepBase cmd op s) hcur]
      simp [fdsAfter, hcd, stepBase, St.malloced, St.noted, St.pipeR]
    · show ((spawnSt cmd cur op (stepBase cmd op s)).g_pids ++ [_]).length = _
      rw [spawnSt_g_pids]; simp [hcd, stepBase, St.malloced, St.noted]

theorem stepCur_linkOk (cmd : List String) (op : Sep) (cur : Nat) (s s1 : St)
    (hfds : ∀ j, fdGet s1.fds j = fdsAfter cmd op cur s j) : LinkOk (stepCur cmd op s) s1 := by
  intro hne
  rw [hfds]
  unfold stepCur at hne ⊢
  by_cases hcd : isCdCmd cmd
  · rw [if_pos hcd] at hne; exact absurd rfl hne
  · rw [if_neg hcd] at hne ⊢
    unfold spawnCur at hne ⊢
    by_cases hp : op = .PIPE
    · subst hp
      have : (stepBase cmd .PIPE s).pipeR = s.pipeR := rfl
      rw [if_pos rfl, this]
      simp [fdsAfter, hcd]
    · rw [if_neg hp] at hne; exact absurd rfl hne

theorem v2_post_facts (cmd : List String) (op : Sep) (cur : Nat) (s s1 : St)
    (hcur : LinkOk cur s) (h : V2Post cmd op cur s s1) :
    s1.env = s.env ∧ s1.dispatched = s.dispatched ++ [(cmd, op)] ∧
      (∀ j, fdGet s1.fds j = fdsAfter cmd op cur s j) := by
  unfold V2Post at h
  by_cases hcd : isCdCmd cmd
  · rw [if_pos hcd] at h
    obtain ⟨n, evs, h1, _⟩ := h
    subst h1
    refine ⟨?_, ?_, ?_⟩
    · show ((stepBase cmd op s.forget).closeIf cur).env = s.env
      rw [closeIf_env]; rfl
    · show ((stepBase cmd op s.forget).closeIf cur).dispatched = _
      rw [closeIf_dispatched]; rfl
    · intro j
      show fdGet ((stepBase cmd op s.forget).closeIf cur).fds j = _
      rw [closeIf_fds_get]
      simp [fdsAfter, hcd, stepBase, St.malloced, St.noted, St.forget]
  · rw [if_neg hcd] at h
    have hcur2 : cur ≠ STDIN_FILENO → (fdGet (stepBase cmd op s.forget).fds cur).isSome = true :=
      hcur
    have key : ∀ j, fdGet (spawnSt cmd cur op (stepBase cmd op s.forget)).fds j
        = fdsAfter cmd op cur s j := by
      intro j
      rw [spawn_fds_get cmd cur op (stepBase cmd op s.forget) hcur2]
      simp [fdsAfter, hcd, stepBase, St.malloced, St.noted, St.pipeR, St.forget]
    by_cases hp : op = .PIPE
    · rw [if_pos hp] at h
      subst h
      refine ⟨?_, ?_, key⟩
      · show (spawnSt cmd cur op (stepBase cmd op s.forget)).env = s.env
        rw [spawnSt_env]; rfl
      · show (spawnSt cmd cur op (stepBase cmd op s.forget)).dispatched = _
        rw [spawnSt_dispatched]; rfl
    · rw [if_neg hp] at h
      subst h
      refine ⟨?_, ?_, key⟩
      · show (spawnSt cmd cur op (stepBase cmd op s.forget)).env = s.env
        rw [spawnSt_env]; rfl
      · show (spawnSt cmd cur op (stepBase cmd op s.forget)).dispatched = _
        rw [spawnSt_dispatched]; rfl

/-! ## No descriptor leak in the parent -/

theorem fdsInv_linkOk {fds0 : FdTable} {cur : Nat} {s : St} (h : FdsInv fds0 cur s) :
    LinkOk cur s := by
  intro hne
  obtain ⟨⟨k, hk⟩, _⟩ := h.1 hne
  rw [hk]; rfl

/-- One segment keeps the descriptor invariant, when standard input is open. -/
theorem fdsInv_step (fds0 : FdTable) (h0 : (fdGet fds0 0).isSome = true)
    (cmd : List String) (op : Sep) (cur : Nat) (s s1 : St)
    (hinv : FdsInv fds0 cur s) (hfds : ∀ j, fdGet s1.fds j = fdsAfter cmd op cur s j) :
    FdsInv fds0 (stepCur cmd op s) s1 := by
  have hlink := fdsInv_linkOk hinv
  have hr0 : s.pipeR ≠ 0 := by
    intro e
    have h1 := pipeR_free s
    rw [e] at h1
    by_cases hc : cur = STDIN_FILENO
    · rw [hinv.2 0 (Or.inl hc)] at h1
      rw [h1] at h0; cases h0
    · by_cases hc0 : cur = 0
      · exact hc hc0
      · rw [hinv.2 0 (Or.inr (Ne.symm hc0))] at h1
        rw [h1] at h0; cases h0
  have hrc : cur ≠ STDIN_FILENO → cur ≠ s.pipeR := fun hne => (open_ne_pipe s cur (hlink hne)).1
  have hfree : fdGet fds0 s.pipeR = none := by
    by_cases hc : cur = STDIN_FILENO
    · rw [← hinv.2 _ (Or.inl hc)]; exact pipeR_free s
    · rw [← hinv.2 _ (Or.inr (Ne.symm (hrc hc)))]; exact pipeR_free s
  have hold : ∀ j, ¬ (cur ≠ STDIN_FILENO ∧ j = cur) → fdGet s.fds j = fdGet fds0 j := by
    intro j hj
    by_cases hc : cur = STDIN_FILENO
    · exact hinv.2 j (Or.inl hc)
    · exact hinv.2 j (Or.inr (fun e => hj ⟨hc, e⟩))
  have hcl : ∀ j, cur ≠ STDIN_FILENO ∧ j = cur → fdGet fds0 j = none := by
    rintro j ⟨hc, rfl⟩
    exact (hinv.1 hc).2
  by_cases hsp : ¬ isCdCmd cmd ∧ op = .PIPE
  · have hcur1 : stepCur cmd op s = s.pipeR := by
      simp [stepCur, hsp.1, spawnCur, hsp.2]
      rfl
    rw [hcur1]
    constructor
    · intro _
      refine ⟨⟨s.npipes, ?_⟩, hfree⟩
      rw [hfds]; simp [fdsAfter, hsp.1, hsp.2]
    · intro j hj
      have hjr : j ≠ s.pipeR := hj.resolve_left hr0
      rw [hfds]
      simp only [fdsAfter, hjr, and_false, if_false]
      split
      · rename_i hx; exact (hcl j hx).symm
      · rename_i hx; exact hold j hx
  · have hcur1 : stepCur cmd op s = STDIN_FILENO := by
      unfold stepCur spawnCur
      by_cases hcd : isCdCmd cmd
      · simp [hcd]
      · have : op ≠ .PIPE := fun e => hsp ⟨hcd, e⟩
        simp [hcd, this]
    rw [hcur1]
    constructor
    · intro hne; exact absurd rfl hne
    · intro j _
      rw [hfds]
      have : ¬ (¬ isCdCmd cmd ∧ op = .PIPE ∧ j = s.pipeR) := fun x => hsp ⟨x.1, x.2.1⟩
      simp only [fdsAfter, this, if_false]
      split
      · rename_i hx; exact (hcl j hx).symm
      · rename_i hx; exact hold j hx

theorem fdsInv_close (fds0 : FdTable) (c : Nat) (s s1 : St) (hinv : FdsInv fds0 c s)
    (hfds : ∀ j, fdGet s1.fds j = if c ≠ STDIN_FILENO ∧ j = c then none else fdGet s.fds j) :
    FdsInv fds0 STDIN_FILENO s1 := by
  constructor
  · intro hne; exact absurd rfl hne
  · intro j _
    rw [hfds]
    split
    · rename_i hx
      obtain ⟨hc, rfl⟩ := hx
      exact ((hinv.1 hc).2).symm
    · rename_i hx
      by_cases hc : c = STDIN_FILENO
      · exact hinv.2 j (Or.inl hc)
      · exact hinv.2 j (Or.inr (fun e => hx ⟨hc, e⟩))

theorem v1_end_group_ok (c : Nat) (s : St) (hok : PfcOk s.env) (hl : LinkOk c s) :
    V1.end_group c s = .ok () ((s.waited s.g_pids).closeIf c) := by
  simp only [V1.end_group, run_bind, get_pids, wait_all_eq]
  by_cases hc : c ≠ STDIN_FILENO
  · rw [if_pos hc]
    exact (closeIf_open (s.waited s.g_pids) c hok hl hc).1
  · rw [if_neg hc]
    simp [St.closeIf, hc]

theorem v2_run_segments_cons (cmd : List String) (op : Sep) (rest : List Segment) (cur : Nat)
    (s : St) :
    V2.run_segments ((cmd, op) :: rest) cur s
      = ((reset_pids >>= fun _ => V2.loop_body cmd op cur) >>= fun c2 =>
          V2.run_segments rest c2) s := by
  simp only [V2.run_segments, M_bind_assoc]

/-- The descriptor invariant along the segments handled by microshell_v2. -/
theorem v2_fdsInv_fold (fds0 : FdTable) (h0 : (fdGet fds0 0).isSome = true) :
    ∀ (segs : List Segment) (cur : Nat) (s : St) (c1 : Nat) (s1 : St), PfcOk s.env →
      FdsInv fds0 cur s → V2.run_segments segs cur s = .ok c1 s1 →
      FdsInv fds0 c1 s1 ∧ PfcOk s1.env := by
  intro segs
  induction segs with
  | nil =>
    intro cur s c1 s1 hok hinv h
    cases h
    exact ⟨hinv, hok⟩
  | cons sg rest ih =>
    obtain ⟨cmd, op⟩ := sg
    intro cur s c1 s1 hok hinv h
    rw [v2_run_segments_cons, run_bind] at h
    cases hr : (reset_pids >>= fun _ => V2.loop_body cmd op cur) s with
    | halt h2 s2 => rw [hr] at h; cases h
    | ok c2 s2 =>
      rw [hr] at h
      obtain ⟨_, hc2, hpost⟩ := v2_step_partial cmd op cur s c2 s2 hok (fdsInv_linkOk hinv) hr
      obtain ⟨henv, _, hfds⟩ := v2_post_facts cmd op cur s s2 (fdsInv_linkOk hinv) hpost
      have hinv2 : FdsInv fds0 c2 s2 := by
        rw [hc2]
        exact fdsInv_step fds0 h0 cmd op cur s s2 hinv hfds
      exact ih c2 s2 c1 s1 (henv ▸ hok) hinv2 h

/-- The descriptor invariant along the segments handled by microshell_v1. -/
theorem v1_fdsInv_fold (fds0 : FdTable) (h0 : (fdGet fds0 0).isSome = true) :
    ∀ (segs : List Segment) (cur : Nat) (s : St) (c1 : Nat) (s1 : St), PfcOk s.env →
      FdsInv fds0 cur s → V1.run_segments segs cur s = .ok c1 s1 →
      FdsInv fds0 c1 s1 ∧ PfcOk s1.env := by
  intro segs
  induction segs with
  | nil =>
    intro cur s c1 s1 hok hinv h
    cases h
    exact ⟨hinv, hok⟩
  | cons sg rest ih =>
    obtain ⟨cmd, op⟩ := sg
    intro cur s c1 s1 hok hinv h
    simp only [V1.run_segments, run_bind] at h
    cases hr : V1.loop_body cmd op cur s with
    | halt h2 s2 => rw [hr] at h; cases h
    | ok c2 s2 =>
      rw [hr] at h
      obtain ⟨_, _, hc2, hpost⟩ := v1_step_partial cmd op cur s c2 s2 hok (fdsInv_linkOk hinv) hr
      obtain ⟨henv, _, hfds, _⟩ := v1_post_facts cmd op cur s s2 (fdsInv_linkOk hinv) hpost
      have hinv2 : FdsInv fds0 c2 s2 := by
        rw [hc2]
        exact fdsInv_step fds0 h0 cmd op cur s s2 hinv hfds
      have hok2 : PfcOk s2.env := henv ▸ hok
      by_cases hp : op = .PIPE
      · simp only [if_pos hp] at h
        exact ih c2 s2 c1 s1 hok2 hinv2 h
      · simp only [if_neg hp, run_bind,
          v1_end_group_ok c2 s2 hok2 (fdsInv_linkOk hinv2), reset_pids] at h
        refine ih STDIN_FILENO _ c1 s1 ?_ ?_ h
        · show PfcOk ((s2.waited s2.g_pids).closeIf c2).env
          rw [closeIf_env]; exact hok2
        · refine fdsInv_close fds0 c2 s2 _ hinv2 (fun j => ?_)
          show fdGet ((s2.waited s2.g_pids).closeIf c2).fds j = _
          rw [closeIf_fds_get]
          rfl

theorem ok_of_forget {α : Type} {r1 r2 : Run α} {v : α} {s1 : St}
    (h : r1.forget = r2.forget) (h1 : r1 = .ok v s1) :
    ∃ s2, r2 = .ok v s2 ∧ s2.forget = s1.forget := by
  subst h1
  cases r2 with
  | ok b s2 =>
    simp only [Run.forget, Run.ok.injEq] at h
    exact ⟨s2, by rw [h.1], h.2.symm⟩
  | halt h2 s2 => simp [Run.forget] at h

theorem v2_wait_loop_frame :
    ∀ (fuel : Nat) (s : St), ∃ s1 evs, V2.wait_loop fuel s = .ok () s1 ∧ s1.fds = s.fds ∧
      s1.env = s.env ∧ s1.children = s.children ∧ s1.dispatched = s.dispatched ∧
      s1.trace = s.trace ++ evs ∧ ∀ e ∈ evs, e.isWait = true := by
  intro fuel
  induction fuel with
  | zero => intro s; exact ⟨s, [], rfl, rfl, rfl, rfl, rfl, by simp, by simp⟩
  | succ fuel ih =>
    intro s
    cases hl : s.live with
    | nil =>
      refine ⟨{ s with trace := s.trace ++ [.wait none] }, [.wait none], ?_, rfl, rfl, rfl, rfl,
        rfl, by simp [Event.isWait]⟩
      simp [V2.wait_loop, V2.sys_wait, hl]
    | cons p l =>
      obtain ⟨s1, evs, h1, h2, h3, h4, h5, h6, h7⟩ :=
        ih { s with trace := s.trace ++ [.wait (some p)], live := l }
      refine ⟨s1, .wait (some p) :: evs, ?_, h2, h3, h4, h5, by simp [h6], ?_⟩
      · simp [V2.wait_loop, V2.sys_wait, hl, h1]
      · intro e he
        rcases List.mem_cons.1 he with h | h
        · rw [h]; rfl
        · exact h7 e h

theorem v2_main_end_ok (c : Nat) (s : St) (hok : PfcOk s.env) (hl : LinkOk c s) :
    ∃ s1 evs, V2.main_end c s = .ok 0 s1 ∧ s1.fds = (s.closeIf c).fds ∧
      s1.children = s.children ∧ s1.dispatched = s.dispatched ∧
      s1.trace = (s.closeIf c).trace ++ evs ∧ ∀ e ∈ evs, e.isWait = true := by
  obtain ⟨s1, evs, h1, h2, _, h4, h5, h6, h7⟩ :=
    v2_wait_loop_frame ((s.closeIf c).live.length + 1) (s.closeIf c)
  have hch : (s.closeIf c).children = s.children := by unfold St.closeIf; split <;> rfl
  have hdi : (s.closeIf c).dispatched = s.dispatched := closeIf_dispatched s c
  refine ⟨s1, evs, ?_, h2, h4.trans hch, h5.trans hdi, h6, h7⟩
  by_cases hc : c ≠ STDIN_FILENO
  · simp only [V2.main_end, if_pos hc, run_bind, (closeIf_open s c hok hl hc).2, V2.live_count,
      h1, run_pure]
  · have e : s.closeIf c = s := by simp [St.closeIf, hc]
    rw [e] at h1
    simp only [V2.main_end, if_neg hc, run_bind, run_pure, V2.live_count, h1]

theorem fdsInv_start (fds0 : FdTable) (env : Env) :
    FdsInv fds0 STDIN_FILENO (St.start env fds0) :=
  ⟨fun h => absurd rfl h, fun _ _ => rfl⟩

/-- C4: when every `pipe`, `fork` and `close` call succeeds and standard input
is open at the start (so that `pipe` never returns descriptor 0), in both
versions: after each dispatched segment the parent holds the descriptors it
started with plus, when the link is not standard input, the link, which is the
read end of a pipe (no write end stays open); and when `main` returns its open
descriptors are those it started with. -/
theorem no_descriptor_leak (env : Env) (fds0 : FdTable) (args : List String)
    (hok : PfcOk env) (h0 : (fdGet fds0 0).isSome = true) :
    (∀ k c1 s1, V1.run_segments ((refSplit args).take k) STDIN_FILENO (St.start env fds0)
        = .ok c1 s1 → FdsInv fds0 c1 s1) ∧
    (∀ k c1 s1, V2.run_segments ((refSplit args).take k) STDIN_FILENO (St.start env fds0)
        = .ok c1 s1 → FdsInv fds0 c1 s1) ∧
    ((V1.main args (St.start env fds0)).returned = true →
      ∀ j, fdGet (V1.main args (St.start env fds0)).st.fds j = fdGet fds0 j) ∧
    ((V2.main args (St.start env fds0)).returned = true →
      ∀ j, fdGet (V2.main args (St.start env fds0)).st.fds j = fdGet fds0 j) := by
  have hs : PfcOk (St.start env fds0).env := hok
  have hret : ∀ r : Run Nat, r.returned = true → ∃ v s1, r = .ok v s1 := by
    intro r hr
    cases r with
    | ok v s1 => exact ⟨v, s1, rfl⟩
    | halt h1 s1 => cases hr
  refine ⟨?_, ?_, ?_, ?_⟩
  · intro k c1 s1 h
    exact (v1_fdsInv_fold fds0 h0 _ _ _ c1 s1 hs (fdsInv_start fds0 env) h).1
  · intro k c1 s1 h
    exact (v2_fdsInv_fold fds0 h0 _ _ _ c1 s1 hs (fdsInv_start fds0 env) h).1
  · intro hr0 j
    obtain ⟨v, s1, h⟩ := hret _ hr0
    rw [h]
    show fdGet s1.fds j = _
    obtain ⟨s2, h2, h3⟩ := ok_of_forget (v1_main_eq args (St.start env fds0)) h
    have hf : s1.fds = s2.fds := (congrArg St.fds h3).symm
    rw [hf]
    unfold V1.main_spec at h2
    by_cases ha : args.length = 0
    · rw [if_pos ha] at h2
      cases h2
      rfl
    · rw [if_neg ha] at h2
      simp only [run_bind, reset_pids, V1.run_all] at h2
      cases hr : V1.run_segments (refSplit args) STDIN_FILENO (St.start env fds0).forget with
      | halt h4 s4 =>
        have : V1.run_segments (refSplit args) STDIN_FILENO
            { (St.start env fds0) with g_pids := [] } = .halt h4 s4 := hr
        rw [this] at h2; cases h2
      | ok c4 s4 =>
        have hr2 : V1.run_segments (refSplit args) STDIN_FILENO
            { (St.start env fds0) with g_pids := [] } = .ok c4 s4 := hr
        obtain ⟨hinv, hok4⟩ := v1_fdsInv_fold fds0 h0 _ _ _ c4 s4 hs (fdsInv_start fds0 env) hr
        rw [hr2] at h2
        simp only [v1_end_group_ok c4 s4 hok4 (fdsInv_linkOk hinv), run_pure] at h2
        cases h2
        have hfin := fdsInv_close fds0 c4 s4 ((s4.waited s4.g_pids).closeIf c4) hinv
          (fun j => by rw [closeIf_fds_get]; rfl)
        exact hfin.2 j (Or.inl rfl)
  · intro hr0 j
    obtain ⟨v, s1, h⟩ := hret _ hr0
    rw [h]
    show fdGet s1.fds j = _
    obtain ⟨s2, h2, h3⟩ := ok_of_forget (v2_main_eq args (St.start env fds0)) h
    have hf : s1.fds = s2.fds := (congrArg St.fds h3).symm
    rw [hf]
    unfold V2.main_spec at h2
    by_cases ha : args.length = 0
    · rw [if_pos ha] at h2
      cases h2
      rfl
    · rw [if_neg ha] at h2
      simp only [run_bind] at h2
      cases hr : V2.run_segments (refSplit args) STDIN_FILENO (St.start env fds0) with
      | halt h4 s4 => rw [hr] at h2; cases h2
      | ok c4 s4 =>
        obtain ⟨hinv, hok4⟩ := v2_fdsInv_fold fds0 h0 _ _ _ c4 s4 hs (fdsInv_start fds0 env) hr
        rw [hr] at h2
        obtain ⟨s5, evs, h5, h6, _⟩ := v2_main_end_ok c4 s4 hok4 (fdsInv_linkOk hinv)
        have h2b : V2.main_end c4 s4 = Run.ok v s2 := h2
        rw [h5] at h2b
        cases h2b
        rw [h6]
        have hfin := fdsInv_close fds0 c4 s4 (s4.closeIf c4) hinv
          (fun j => by rw [closeIf_fds_get])
        exact hfin.2 j (Or.inl rfl)

theorem okEnv_pfc : PfcOk okEnv := ⟨fun _ => rfl, fun _ => rfl, fun _ => rfl⟩

theorem no_descriptor_leak_witness :
    PfcOk okEnv ∧ (fdGet stdFds 0).isSome = true ∧
      fdGet (V2.main ["a", "|", "b"] (St.start okEnv stdFds)).st.fds 3 = fdGet stdFds 3 :=
  ⟨okEnv_pfc, rfl,
    (no_descriptor_leak okEnv stdFds ["a", "|", "b"] okEnv_pfc rfl).2.2.2 (by decide!) 3⟩

/-! ## Complete runs when the calls succeed -/

/-- An external command in microshell_v1 that finds the tracking array full:
the child is spawned, then the process aborts. -/
theorem v1_step_full (cmd : List String) (op : Sep) (cur : Nat) (s : St)
    (hok : PfcOk s.env) (hm : s.env.mallocOk s.tick = true) (hcur : LinkOk cur s)
    (hcd : ¬ isCdCmd cmd) (hlen : ¬ s.g_pids.length < 2048) :
    ∃ n evs, V1.loop_body cmd op cur s
        = .halt (.exited 1) ((spawnSt cmd cur op (stepBase cmd op s)).adv n evs) ∧
      ∀ e ∈ evs, e.isOutput = true := by
  rw [v1_loop_body_mem cmd op cur s hm,
    v1_dispatch_spawn cmd cur op (stepBase cmd op s) hcd hok hcur]
  have hg : ¬ (spawnSt cmd cur op (stepBase cmd op s)).g_pids.length < 2048 := by
    rw [spawnSt_g_pids]; exact hlen
  exact v1_track_full (spawnPid op (stepBase cmd op s))
    (fun _ => (pure (spawnCur op (stepBase cmd op s)) : M Nat)) _ hg

theorem waited_closeIf_facts (s : St) (c : Nat) :
    ((s.waited s.g_pids).closeIf c).env = s.env ∧
    ((s.waited s.g_pids).closeIf c).dispatched = s.dispatched ∧
    ((s.waited s.g_pids).closeIf c).children = s.children := by
  unfold St.closeIf
  split <;> exact ⟨rfl, rfl, rfl⟩

/-- The segments in microshell_v1 when `malloc`, `pipe`, `fork` and `close`
succeed: all of them are dispatched when the tracking array never fills up,
and the process exits with status 1 when it does. -/
theorem v1_run_segments_outcome :
    ∀ (segs : List Segment) (cur : Nat) (s : St), PfcOk s.env → MallocOk s.env →
      LinkOk cur s →
      if capOk s.g_pids.length segs = true then
        ∃ c1 s1, V1.run_segments segs cur s = .ok c1 s1 ∧ s1.env = s.env ∧ LinkOk c1 s1 ∧
          s1.dispatched = s.dispatched ++ segs
      else ∃ s1, V1.run_segments segs cur s = .halt (.exited 1) s1 := by
  intro segs
  induction segs with
  | nil =>
    intro cur s _ _ hl
    simp only [capOk, if_true]
    exact ⟨cur, s, rfl, rfl, hl, by simp⟩
  | cons sg rest ih =>
    obtain ⟨cmd, op⟩ := sg
    intro cur s hok hm hl
    by_cases hstep : isCdCmd cmd ∨ s.g_pids.length < 2048
    · obtain ⟨s2, h2, hpost⟩ := v1_step_total cmd op cur s hok (hm _) hl hstep
      obtain ⟨henv, hdisp, hfds, hlen⟩ := v1_post_facts cmd op cur s s2 hl hpost
      have hl2 : LinkOk (stepCur cmd op s) s2 := stepCur_linkOk cmd op cur s s2 hfds
      have hok2 : PfcOk s2.env := henv ▸ hok
      have hm2 : MallocOk s2.env := henv ▸ hm
      by_cases hp : op = .PIPE
      · have hrun : V1.run_segments ((cmd, op) :: rest) cur s
            = V1.run_segments rest (stepCur cmd op s) s2 := by
          simp only [V1.run_segments, run_bind, h2, if_pos hp]
        have hc : capOk s.g_pids.length ((cmd, op) :: rest) = capOk s2.g_pids.length rest := by
          rw [hlen]
          by_cases hcd : isCdCmd cmd
          · simp [capOk, hcd, hp]
          · have := hstep.resolve_left hcd
            simp [capOk, hcd, hp, this]
        rw [hrun, hc]
        have := ih (stepCur cmd op s) s2 hok2 hm2 hl2
        split
        · rename_i hcap
          rw [if_pos hcap] at this
          obtain ⟨c1, s1, g1, g2, g3, g4⟩ := this
          exact ⟨c1, s1, g1, g2.trans henv, g3, by rw [g4, hdisp]; simp⟩
        · rename_i hcap
          rw [if_neg hcap] at this
          exact this
      · have hrun : V1.run_segments ((cmd, op) :: rest) cur s
            = V1.run_segments rest STDIN_FILENO
                ((s2.waited s2.g_pids).closeIf (stepCur cmd op s)).forget := by
          simp only [V1.run_segments, run_bind, h2, if_neg hp,
            v1_end_group_ok (stepCur cmd op s) s2 hok2 hl2, reset_pids]
          rfl
        have hc : capOk s.g_pids.length ((cmd, op) :: rest)
            = capOk ((s2.waited s2.g_pids).closeIf (stepCur cmd op s)).forget.g_pids.length
                rest := by
          show _ = capOk 0 rest
          by_cases hcd : isCdCmd cmd
          · simp [capOk, hcd, hp]
          · have := hstep.resolve_left hcd
            simp [capOk, hcd, hp, this]
        obtain ⟨f1, f2, _⟩ := waited_closeIf_facts s2 (stepCur cmd op s)
        rw [hrun, hc]
        have := ih STDIN_FILENO ((s2.waited s2.g_pids).closeIf (stepCur cmd op s)).forget
          (by show PfcOk ((s2.waited s2.g_pids).closeIf (stepCur cmd op s)).env
              rw [f1]; exact hok2)
          (by show MallocOk ((s2.waited s2.g_pids).closeIf (stepCur cmd op s)).env
              rw [f1]; exact hm2)
          (fun h => absurd rfl h)
        split
        · rename_i hcap
          rw [if_pos hcap] at this
          obtain ⟨c1, s1, g1, g2, g3, g4⟩ := this
          refine ⟨c1, s1, g1, ?_, g3, ?_⟩
          · rw [g2]
            show ((s2.waited s2.g_pids).closeIf (stepCur cmd op s)).env = s.env
            rw [f1, henv]
          · rw [g4]
            show ((s2.waited s2.g_pids).closeIf (stepCur cmd op s)).dispatched ++ rest = _
            rw [f2, hdisp]; simp
        · rename_i hcap
          rw [if_neg hcap] at this
          exact this
    · have hcd : ¬ isCdCmd cmd := fun x => hstep (Or.inl x)
      have hlen : ¬ s.g_pids.length < 2048 := fun x => hstep (Or.inr x)
      have hc : capOk s.g_pids.length ((cmd, op) :: rest) = false := by
        simp [capOk, hcd, hlen]
      rw [hc]
      simp only [Bool.false_eq_true, if_false]
      obtain ⟨n, evs, h1, _⟩ := v1_step_full cmd op cur s hok (hm _) hl hcd hlen
      exact ⟨(spawnSt cmd cur op (stepBase cmd op s)).adv n evs,
        by simp only [V1.run_segments, run_bind, h1]⟩

theorem forkCount_cons (cmd : List String) (op : Sep) (g : List Segment) :
    forkCount ((cmd, op) :: g) = (if isCdCmd cmd then 0 else 1) + forkCount g := rfl

theorem capOk_iff :
    ∀ (segs : List Segment) (c : Nat), c ≤ 2048 →
      (capOk c segs = true ↔
        match groupsOf segs with
        | [] => True
        | g :: gs => c + forkCount g ≤ 2048 ∧ ∀ g1 ∈ gs, forkCount g1 ≤ 2048) := by
  intro segs
  induction segs with
  | nil => intro c _; exact ⟨fun _ => trivial, fun _ => rfl⟩
  | cons sg rest ih =>
    obtain ⟨cmd, op⟩ := sg
    intro c hc
    have hnil : forkCount ([] : List Segment) = 0 := rfl
    by_cases hp : op = .PIPE
    · by_cases hcd : isCdCmd cmd
      · have h1 := ih c hc
        have e1 : capOk c ((cmd, op) :: rest) = capOk c rest := by
          simp only [capOk, if_pos hcd, if_pos hp]
        rw [e1, h1]
        simp only [groupsOf, if_pos hp]
        cases groupsOf rest with
        | nil =>
          show True ↔ c + forkCount [(cmd, op)] ≤ 2048 ∧ ∀ g1 ∈ [], forkCount g1 ≤ 2048
          rw [forkCount_cons, if_pos hcd, hnil]
          exact ⟨fun _ => ⟨by omega, fun _ h => by cases h⟩, fun _ => trivial⟩
        | cons g gs =>
          show (c + forkCount g ≤ 2048 ∧ ∀ g1 ∈ gs, forkCount g1 ≤ 2048) ↔
            c + forkCount ((cmd, op) :: g) ≤ 2048 ∧ ∀ g1 ∈ gs, forkCount g1 ≤ 2048
          rw [forkCount_cons, if_pos hcd, Nat.zero_add]
      · have e1 : capOk c ((cmd, op) :: rest)
            = (decide (c < 2048) && capOk (c + 1) rest) := by
          simp only [capOk, if_neg hcd, if_pos hp]
        rw [e1, Bool.and_eq_true, decide_eq_true_eq]
        simp only [groupsOf, if_pos hp]
        by_cases hlt : c < 2048
        · have h1 := ih (c + 1) (by omega)
          rw [h1]
          cases groupsOf rest with
          | nil =>
            show (c < 2048 ∧ True) ↔
              c + forkCount [(cmd, op)] ≤ 2048 ∧ ∀ g1 ∈ [], forkCount g1 ≤ 2048
            rw [forkCount_cons, if_neg hcd, hnil]
            exact ⟨fun _ => ⟨by omega, fun _ h => by cases h⟩, fun _ => ⟨hlt, trivial⟩⟩
          | cons g gs =>
            show (c < 2048 ∧ c + 1 + forkCount g ≤ 2048 ∧ ∀ g1 ∈ gs, forkCount g1 ≤ 2048) ↔
              c + forkCount ((cmd, op) :: g) ≤ 2048 ∧ ∀ g1 ∈ gs, forkCount g1 ≤ 2048
            rw [forkCount_cons, if_neg hcd]
            constructor
            · rintro ⟨_, h2, h3⟩; exact ⟨by omega, h3⟩
            · rintro ⟨h2, h3⟩; exact ⟨hlt, by omega, h3⟩
        · constructor
          · rintro ⟨h, _⟩; exact absurd h hlt
          · intro h
            exfalso
            cases hg : groupsOf rest with
            | nil =>
              rw [hg] at h
              have h2 : c + forkCount [(cmd, op)] ≤ 2048 := h.1
              rw [forkCount_cons, if_neg hcd] at h2
              omega
            | cons g gs =>
              rw [hg] at h
              have h2 : c + forkCount ((cmd, op) :: g) ≤ 2048 := h.1
              rw [forkCount_cons, if_neg hcd] at h2
              omega
    · have h1 := ih 0 (by omega)
      have h2 : (capOk 0 rest = true) ↔ ∀ g1 ∈ groupsOf rest, forkCount g1 ≤ 2048 := by
        rw [h1]
        cases groupsOf rest with
        | nil => exact ⟨fun _ _ h => (by cases h), fun _ => trivial⟩
        | cons g gs =>
          show (0 + forkCount g ≤ 2048 ∧ ∀ g1 ∈ gs, forkCount g1 ≤ 2048) ↔ _
          rw [Nat.zero_add]
          constructor
          · rintro ⟨a1, a2⟩ g1 hg1
            rcases List.mem_cons.1 hg1 with e | e
            · rw [e]; exact a1
            · exact a2 g1 e
          · intro a
            exact ⟨a g (List.mem_cons_self _ _), fun g1 hg1 => a g1 (List.mem_cons_of_mem _ hg1)⟩
      simp only [groupsOf, if_neg hp]
      show _ ↔ c + forkCount [(cmd, op)] ≤ 2048 ∧ ∀ g1 ∈ groupsOf rest, forkCount g1 ≤ 2048
      rw [forkCount_cons, hnil, ← h2]
      by_cases hcd : isCdCmd cmd
      · have e1 : capOk c ((cmd, op) :: rest) = capOk 0 rest := by
          simp only [capOk, if_pos hcd, if_neg hp]
        rw [e1, if_pos hcd]
        exact ⟨fun a => ⟨by omega, a⟩, fun a => a.2⟩
      · have e1 : capOk c ((cmd, op) :: rest) = (decide (c < 2048) && capOk 0 rest) := by
          simp only [capOk, if_neg hcd, if_neg hp]
        rw [e1, if_neg hcd, Bool.and_eq_true, decide_eq_true_eq]
        exact ⟨fun a => ⟨by omega, a.2⟩, fun a => ⟨by omega, a.2⟩⟩

theorem capOk_of_groups (segs : List Segment) (h : GroupsWithin 2048 segs) :
    capOk 0 segs = true := by
  rw [capOk_iff segs 0 (by omega)]
  unfold GroupsWithin at h
  cases hg : groupsOf segs with
  | nil => trivial
  | cons g gs =>
    rw [hg] at h
    exact ⟨by have := h g (List.mem_cons_self _ _); omega,
      fun g1 hg1 => h g1 (List.mem_cons_of_mem _ hg1)⟩

/-- The segments in microshell_v2 when `malloc`, `pipe`, `fork`, `close` and
`write` succeed: all of them are dispatched. -/
theorem v2_run_segments_total :
    ∀ (segs : List Segment) (cur : Nat) (s : St), PfcOk s.env → MallocOk s.env →
      WritesOk s.env → LinkOk cur s →
      ∃ c1 s1, V2.run_segments segs cur s = .ok c1 s1 ∧ s1.env = s.env ∧ LinkOk c1 s1 ∧
        s1.dispatched = s.dispatched ++ segs := by
  intro segs
  induction segs with
  | nil =>
    intro cur s _ _ _ hl
    exact ⟨cur, s, rfl, rfl, hl, by simp⟩
  | cons sg rest ih =>
    obtain ⟨cmd, op⟩ := sg
    intro cur s hok hm hw hl
    obtain ⟨s2, h2, hpost⟩ := v2_step_total cmd op cur s hok (hm _) hl hw
    obtain ⟨henv, hdisp, hfds⟩ := v2_post_facts cmd op cur s s2 hl hpost
    have hl2 : LinkOk (stepCur cmd op s.forget) s2 := stepCur_linkOk cmd op cur s s2 hfds
    obtain ⟨c1, s1, g1, g2, g3, g4⟩ :=
      ih (stepCur cmd op s.forget) s2 (henv ▸ hok) (henv ▸ hm) (henv ▸ hw) hl2
    refine ⟨c1, s1, ?_, g2.trans henv, g3, by rw [g4, hdisp]; simp⟩
    rw [v2_run_segments_cons, run_bind, h2]
    exact g1

theorem v1_outer_eq (args : List String) (s : St) :
    (V1.outer_loop args.length args s).forget
      = ((reset_pids >>= fun _ => V1.run_all (refSplit args) STDIN_FILENO) s).forget := by
  by_cases hne : args = []
  · subst hne
    rw [v1_outer_loop_nil]
    exact (v1_end_after_reset s).symm
  · obtain ⟨k, hk⟩ : ∃ k, args.length = k + 1 :=
      ⟨args.length - 1, by have := List.length_pos.2 hne; omega⟩
    rw [hk, v1_outer_loop_cons k args hne]
    apply forget_bind_congr
    intro _ s1
    exact v1_inner_eq args.length args (le_refl _) args.length k STDIN_FILENO s1 (le_refl _)
      (by omega)

/-- All the segments in microshell_v1, then the end of the last group, when
`malloc`, `pipe`, `fork` and `close` succeed. -/
theorem v1_run_all_outcome (segs : List Segment) (cur : Nat) (s : St) (hok : PfcOk s.env)
    (hm : MallocOk s.env) (hl : LinkOk cur s) :
    if capOk s.g_pids.length segs = true then
      ∃ s1, V1.run_all segs cur s = .ok [] s1 ∧ s1.dispatched = s.dispatched ++ segs
    else ∃ s1, V1.run_all segs cur s = .halt (.exited 1) s1 := by
  have h := v1_run_segments_outcome segs cur s hok hm hl
  split
  · rename_i hc
    rw [if_pos hc] at h
    obtain ⟨c1, s1, g1, g2, g3, g4⟩ := h
    refine ⟨(s1.waited s1.g_pids).closeIf c1, ?_, ?_⟩
    · simp only [V1.run_all, run_bind, g1, v1_end_group_ok c1 s1 (g2 ▸ hok) g3, run_pure]
    · rw [(waited_closeIf_facts s1 c1).2.1, g4]
  · rename_i hc
    rw [if_neg hc] at h
    obtain ⟨s1, g1⟩ := h
    exact ⟨s1, by simp only [V1.run_all, run_bind, g1]⟩

theorem ok_of_forget_rev {α : Type} {r1 r2 : Run α} {v : α} {s2 : St}
    (h : r1.forget = r2.forget) (h2 : r2 = .ok v s2) :
    ∃ s1, r1 = .ok v s1 ∧ s1.forget = s2.forget :=
  ok_of_forget h.symm h2

theorem halt_of_forget_rev {α : Type} {r1 r2 : Run α} {hh : Halt} {s2 : St}
    (h : r1.forget = r2.forget) (h2 : r2 = .halt hh s2) :
    ∃ s1, r1 = .halt hh s1 := by
  subst h2
  cases r1 with
  | ok b s1 => simp [Run.forget] at h
  | halt h1 s1 =>
    simp only [Run.forget, Run.halt.injEq] at h
    exact ⟨s1, by rw [h.1]⟩

/-- C7 (as amended): when every `malloc`, `pipe`, `fork` and `close` call
succeeds, the loop of microshell_v1 (if no pipeline group has more than 2048
external commands) and the loop of microshell_v2 (if every `write` succeeds
too) end with no token left, having dispatched exactly the segments of the
reference split, each with its separator, in order. -/
theorem segmenter_correct (env : Env) (fds : FdTable) (args : List String)
    (hok : PfcOk env) (hm : MallocOk env) :
    (GroupsWithin 2048 (refSplit args) →
      ∃ s1, V1.outer_loop args.length args (St.start env fds) = .ok [] s1 ∧
        s1.dispatched = refSplit args) ∧
    (WritesOk env →
      ∃ c s1, V2.main_loop args.length args STDIN_FILENO (St.start env fds) = .ok ([], c) s1 ∧
        s1.dispatched = refSplit args) := by
  constructor
  · intro hg
    have hcap : capOk (St.start env fds).forget.g_pids.length (refSplit args) = true :=
      capOk_of_groups _ hg
    have h := v1_run_all_outcome (refSplit args) STDIN_FILENO (St.start env fds).forget hok hm
      (fun h => absurd rfl h)
    rw [if_pos hcap] at h
    obtain ⟨s1, g1, g2⟩ := h
    have g1b : (reset_pids >>= fun _ => V1.run_all (refSplit args) STDIN_FILENO)
        (St.start env fds) = .ok [] s1 := g1
    obtain ⟨s0, e0, e1⟩ := ok_of_forget_rev (v1_outer_eq args (St.start env fds)) g1b
    refine ⟨s0, e0, ?_⟩
    have : s0.dispatched = s1.dispatched :=
      (congrArg St.dispatched e1 : s0.forget.dispatched = s1.forget.dispatched)
    rw [this, g2]
    rfl
  · intro hw
    obtain ⟨c1, s1, g1, _, _, g4⟩ := v2_run_segments_total (refSplit args) STDIN_FILENO
      (St.start env fds) hok hm hw (fun h => absurd rfl h)
    have g1b : (V2.run_segments (refSplit args) STDIN_FILENO >>= fun c =>
        pure (([] : List String), c)) (St.start env fds) = .ok ([], c1) s1 := by
      simp only [run_bind, g1, run_pure]
    obtain ⟨s0, e0, e1⟩ := ok_of_forget_rev
      (v2_main_loop_eq args.length args STDIN_FILENO (St.start env fds) (le_refl _)) g1b
    refine ⟨c1, s0, e0, ?_⟩
    have : s0.dispatched = s1.dispatched :=
      (congrArg St.dispatched e1 : s0.forget.dispatched = s1.forget.dispatched)
    rw [this, g4]
    rfl

theorem okEnv_malloc : MallocOk okEnv := fun _ => rfl

theorem okEnv_writes : WritesOk okEnv := fun _ => rfl

theorem segmenter_correct_witness :
    PfcOk okEnv ∧ MallocOk okEnv ∧ WritesOk okEnv ∧
      ∃ c s1, V2.main_loop 3 ["a", "|", "b"] STDIN_FILENO (St.start okEnv stdFds)
          = .ok ([], c) s1 ∧
        s1.dispatched = refSplit ["a", "|", "b"] :=
  ⟨okEnv_pfc, okEnv_malloc, okEnv_writes,
    (segmenter_correct okEnv stdFds ["a", "|", "b"] okEnv_pfc okEnv_malloc).2 okEnv_writes⟩

/-- The exit code of microshell_v1 when `malloc`, `pipe`, `fork` and `close`
succeed: 0 when the tracking array never fills up, 1 when it does. -/
theorem v1_main_code (env : Env) (fds : FdTable) (args : List String)
    (hok : PfcOk env) (hm : MallocOk env) :
    (V1.main args (St.start env fds)).code
      = some (if capOk 0 (refSplit args) = true then 0 else 1) := by
  rw [forget_code (v1_main_eq args (St.start env fds))]
  unfold V1.main_spec
  by_cases h0 : args.length = 0
  · have : args = [] := List.length_eq_zero.1 h0
    subst this
    rfl
  · rw [if_neg h0]
    have h := v1_run_all_outcome (refSplit args) STDIN_FILENO (St.start env fds).forget hok hm
      (fun h => absurd rfl h)
    have hg : (St.start env fds).forget.g_pids.length = 0 := rfl
    rw [hg] at h
    by_cases hc : capOk 0 (refSplit args) = true
    · rw [if_pos hc] at h ⊢
      obtain ⟨s1, g1, _⟩ := h
      have g2 : V1.run_all (refSplit args) STDIN_FILENO
          { (St.start env fds) with g_pids := [] } = .ok [] s1 := g1
      simp only [run_bind, reset_pids, g2, run_pure]
      rfl
    · rw [if_neg hc] at h ⊢
      obtain ⟨s1, g1⟩ := h
      have g2 : V1.run_all (refSplit args) STDIN_FILENO
          { (St.start env fds) with g_pids := [] } = .halt (.exited 1) s1 := g1
      simp only [run_bind, reset_pids, g2]
      rfl

/-- The exit code of microshell_v2 is 0 when `malloc`, `pipe`, `fork`, `close`
and `write` succeed, whatever the number of commands. -/
theorem v2_main_code (env : Env) (fds : FdTable) (args : List String)
    (hok : PfcOk env) (hm : MallocOk env) (hw : WritesOk env) :
    V2.main args (St.start env fds) = .ok 0 (V2.main args (St.start env fds)).st ∧
      (V2.main args (St.start env fds)).st.dispatched = refSplit args := by
  have hmain := v2_main_eq args (St.start env fds)
  have key : ∃ s1, V2.main_spec args (St.start env fds) = .ok 0 s1 ∧
      s1.dispatched = refSplit args := by
    unfold V2.main_spec
    by_cases h0 : args.length = 0
    · have : args = [] := List.length_eq_zero.1 h0
      subst this
      exact ⟨_, rfl, rfl⟩
    · rw [if_neg h0]
      obtain ⟨c1, s1, g1, g2, g3, g4⟩ := v2_run_segments_total (refSplit args) STDIN_FILENO
        (St.start env fds) hok hm hw (fun h => absurd rfl h)
      obtain ⟨s2, evs, e1, _, _, e4, _⟩ := v2_main_end_ok c1 s1 (g2 ▸ hok) g3
      refine ⟨s2, ?_, ?_⟩
      · simp only [run_bind, g1, e1]
      · rw [e4, g4]; rfl
  obtain ⟨s1, k1, k2⟩ := key
  obtain ⟨s0, e0, e1⟩ := ok_of_forget_rev hmain k1
  rw [e0]
  refine ⟨rfl, ?_⟩
  show s0.dispatched = _
  have : s0.dispatched = s1.dispatched :=
      (congrArg St.dispatched e1 : s0.forget.dispatched = s1.forget.dispatched)
  rw [this, k2]

/-- C7 (as stated) fails when `main` is aborted: with a failing `malloc` the
single command `a` is never dispatched and `main` of microshell_v1 does not
return; and with every call succeeding, microshell_v1 exits with status 1 on
a pipeline of 2049 commands followed by `; b`, before reaching `b`. -/
theorem segmenter_abort_counterexample :
    (V1.main ["a"] (St.start noMallocEnv stdFds)).returned = false ∧
    (V1.main ["a"] (St.start noMallocEnv stdFds)).st.dispatched = [] ∧
    refSplit ["a"] = [(["a"], Sep.END)] ∧
    (V1.main (pipeline 2048 ++ [";", "b"]) (St.start okEnv stdFds)).code = some 1 := by
  refine ⟨by decide!, by decide!, by decide!, ?_⟩
  rw [v1_main_code okEnv stdFds _ okEnv_pfc okEnv_malloc]
  have h : capOk 0 (refSplit (pipeline 2048 ++ [";", "b"])) = false := by decide!
  rw [h]
  rfl

/-- C9 at the failing input: a single pipeline of 4097 external commands, one
more than `g_pids` holds; with every call succeeding `main` of microshell_v2
returns 0 instead of aborting. -/
theorem v2_capacity_never_reached :
    (groupsOf (refSplit (pipeline 4096))).map forkCount = [4097] ∧
    V2.main (pipeline 4096) (St.start okEnv stdFds)
      = .ok 0 (V2.main (pipeline 4096) (St.start okEnv stdFds)).st :=
  ⟨by decide!, (v2_main_code okEnv stdFds (pipeline 4096) okEnv_pfc okEnv_malloc okEnv_writes).1⟩

/-- C1 at the failing input `a | b ; c`: the parent of microshell_v2 forks `a`
(pid 3) and `b` (pid 6), calls `waitpid` on 6 only, and forks `c` (pid 9)
while 3 has not been waited for; 3 is reaped by the final `wait` loop.
microshell_v1 waits for 3 and 6 before forking `c`. -/
theorem v2_group_barrier_broken :
    (V2.main ["a", "|", "b", ";", "c"] (St.start okEnv stdFds)).st.trace
      = [.pipe 3 4, .fork 3, .close 4 true, .fork 6, .close 3 true, .waitpid 6, .fork 9,
         .waitpid 9, .wait (some 3), .wait none] ∧
    (V2.main ["a", "|", "b", ";", "c"] (St.start okEnv stdFds)).st.children.map
        (fun c => (c.pid, c.argv)) = [(3, ["a"]), (6, ["b"]), (9, ["c"])] ∧
    (V1.main ["a", "|", "b", ";", "c"] (St.start okEnv stdFds)).st.trace
      = [.pipe 3 4, .fork 3, .close 4 true, .fork 6, .close 3 true, .waitpid 3, .waitpid 6,
         .fork 9, .waitpid 9] := by
  refine ⟨by decide!, by decide!, by decide!⟩

/-! ## Forks and waits of microshell_v1 -/

theorem spawnSt_trace (cmd : List String) (cur : Nat) (op : Sep) (s : St) :
    (spawnSt cmd cur op s).trace = s.trace ++ spawnEvents cur op s := by
  unfold spawnSt spawnEvents spawnPid
  by_cases hp : op = .PIPE <;> by_cases hc : cur ≠ STDIN_FILENO <;>
    simp [hp, hc, St.closed, St.forked, St.piped]

theorem fwTrace_append (a b : List Event) : fwTrace (a ++ b) = fwTrace a ++ fwTrace b := by
  simp [fwTrace, List.filterMap_append]

theorem fwTrace_spawnEvents (cur : Nat) (op : Sep) (s : St) :
    fwTrace (spawnEvents cur op s) = [(true, spawnPid op s)] := by
  unfold spawnEvents
  by_cases hp : op = .PIPE <;> by_cases hc : cur ≠ STDIN_FILENO <;>
    simp [hp, hc, fwTrace, Event.fw]

theorem fw_of_isCd (e : Event) (h : Event.isCd e = true) : e.fw = none := by
  cases e <;> first | rfl | (simp [Event.isCd, Event.isOutput] at h)

theorem fwTrace_isCd (evs : List Event) (h : ∀ e ∈ evs, Event.isCd e = true) :
    fwTrace evs = [] := by
  induction evs with
  | nil => rfl
  | cons e evs ih =>
    have he := fw_of_isCd e (h e (List.mem_cons_self _ _))
    have ht := ih (fun x hx => h x (List.mem_cons_of_mem _ hx))
    unfold fwTrace at ht ⊢
    rw [List.filterMap_cons, he]
    exact ht

theorem closeIf_trace_fw (s : St) (cur : Nat) :
    fwTrace (s.closeIf cur).trace = fwTrace s.trace := by
  unfold St.closeIf
  split
  · simp [St.closed, fwTrace, Event.fw, List.filterMap_append]
  · rfl

/-- Forks and tracked children after one segment of microshell_v1. -/
theorem v1_post_fw (cmd : List String) (op : Sep) (cur : Nat) (s s1 : St)
    (h : V1Post cmd op cur s s1) :
    ∃ pids : List Nat, pids.length = (if isCdCmd cmd then 0 else 1) ∧
      s1.g_pids = s.g_pids ++ pids ∧ fwTrace s1.trace = fwTrace s.trace ++ forksOf pids := by
  unfold V1Post at h
  by_cases hcd : isCdCmd cmd
  · rw [if_pos hcd] at h
    obtain ⟨n, evs, h1, h2⟩ := h
    subst h1
    refine ⟨[], by simp [hcd], ?_, ?_⟩
    · show ((stepBase cmd op s).closeIf cur).g_pids = _
      rw [closeIf_g_pids]; simp [stepBase, St.malloced, St.noted]
    · show fwTrace (((stepBase cmd op s).closeIf cur).trace ++ evs) = _
      rw [fwTrace_append, closeIf_trace_fw, fwTrace_isCd evs h2]
      simp [forksOf, stepBase, St.malloced, St.noted]
  · rw [if_neg hcd] at h
    subst h
    refine ⟨[spawnPid op (stepBase cmd op s)], by simp [hcd], ?_, ?_⟩
    · show (spawnSt cmd cur op (stepBase cmd op s)).g_pids ++ _ = _
      rw [spawnSt_g_pids]; rfl
    · show fwTrace (spawnSt cmd cur op (stepBase cmd op s)).trace = _
      rw [spawnSt_trace, fwTrace_append, fwTrace_spawnEvents]
      rfl

theorem stepCur_nonpipe (cmd : List String) (op : Sep) (s : St) (hp : op ≠ .PIPE) :
    stepCur cmd op s = STDIN_FILENO := by
  unfold stepCur spawnCur
  by_cases hcd : isCdCmd cmd
  · rw [if_pos hcd]
  · rw [if_neg hcd, if_neg hp]

/-- One segment of microshell_v1 and what remains to be run after it, when
`malloc`, `pipe`, `fork` and `close` succeed and the tracking array does not
fill up: after a segment followed by a pipe the group goes on; otherwise the
children tracked are waited for and the tracking starts again. -/
theorem v1_cons_step (cmd : List String) (op : Sep) (rest : List Segment) (cur : Nat) (s : St)
    (hok : PfcOk s.env) (hm : MallocOk s.env) (hl : LinkOk cur s)
    (hcap : capOk s.g_pids.length ((cmd, op) :: rest) = true) :
    ∃ s2 s3 cur3, V1Post cmd op cur s s2 ∧
      V1.loop_body cmd op cur s = .ok (stepCur cmd op s) s2 ∧
      V1.run_segments ((cmd, op) :: rest) cur s = V1.run_segments rest cur3 s3 ∧
      (if op = .PIPE then s3 = s2 ∧ cur3 = stepCur cmd op s
        else s3 = (s2.waited s2.g_pids).forget ∧ cur3 = STDIN_FILENO) ∧
      s3.env = s.env ∧ LinkOk cur3 s3 ∧ capOk s3.g_pids.length rest = true := by
  have hstep : isCdCmd cmd ∨ s.g_pids.length < 2048 := by
    by_cases hcd : isCdCmd cmd
    · exact Or.inl hcd
    · right
      simp only [capOk, if_neg hcd, Bool.and_eq_true, decide_eq_true_eq] at hcap
      exact hcap.1
  obtain ⟨s2, h2, hpost⟩ := v1_step_total cmd op cur s hok (hm _) hl hstep
  obtain ⟨henv, hdisp, hfds, hlen⟩ := v1_post_facts cmd op cur s s2 hl hpost
  have hl2 : LinkOk (stepCur cmd op s) s2 := stepCur_linkOk cmd op cur s s2 hfds
  have hok2 : PfcOk s2.env := henv ▸ hok
  by_cases hp : op = .PIPE
  · refine ⟨s2, s2, stepCur cmd op s, hpost, h2, ?_, ?_, henv, hl2, ?_⟩
    · simp only [V1.run_segments, run_bind, h2, if_pos hp]
    · rw [if_pos hp]; exact ⟨rfl, rfl⟩
    · rw [hlen]
      by_cases hcd : isCdCmd cmd
      · simpa [capOk, hcd, hp] using hcap
      · simp only [capOk, if_neg hcd, if_pos hp, Bool.and_eq_true] at hcap
        simpa [hcd] using hcap.2
  · have hz := stepCur_nonpipe cmd op s hp
    refine ⟨s2, (s2.waited s2.g_pids).forget, STDIN_FILENO, hpost, h2, ?_, ?_, henv,
      fun h => absurd rfl h, ?_⟩
    · simp only [V1.run_segments, run_bind, h2, if_neg hp,
        v1_end_group_ok (stepCur cmd op s) s2 hok2 hl2, reset_pids]
      rw [hz]
      rfl
    · rw [if_neg hp]; exact ⟨rfl, rfl⟩
    · show capOk 0 rest = true
      by_cases hcd : isCdCmd cmd
      · simpa [capOk, hcd, hp] using hcap
      · simp only [capOk, if_neg hcd, if_neg hp, Bool.and_eq_true] at hcap
        exact hcap.2

theorem comingFw_nil_eq (pss : List (List Nat)) :
    comingFw [] pss = (pss.map groupBlock).flatten := by
  cases pss with
  | nil => rfl
  | cons ps rest => simp [comingFw, groupBlock, List.append_assoc]

/-- Forks and waits along the segments of microshell_v1: the forks of each
group are followed by the waits for all its children, in fork order. -/
theorem v1_fw_fold :
    ∀ (segs : List Segment) (cur : Nat) (s : St), PfcOk s.env → MallocOk s.env →
      LinkOk cur s → capOk s.g_pids.length segs = true →
      ∃ c1 s1 pss, V1.run_segments segs cur s = .ok c1 s1 ∧ s1.env = s.env ∧ LinkOk c1 s1 ∧
        pss.map List.length = (groupsOf segs).map forkCount ∧
        fwTrace s1.trace ++ waitsOf s1.g_pids = fwTrace s.trace ++ comingFw s.g_pids pss := by
  intro segs
  induction segs with
  | nil =>
    intro cur s _ _ hl _
    exact ⟨cur, s, [], rfl, rfl, hl, rfl, rfl⟩
  | cons sg rest ih =>
    obtain ⟨cmd, op⟩ := sg
    intro cur s hok hm hl hcap
    obtain ⟨s2, s3, cur3, hpost, _, hrun, hs3, henv3, hl3, hcap3⟩ :=
      v1_cons_step cmd op rest cur s hok hm hl hcap
    obtain ⟨pids, hplen, hg2, hfw2⟩ := v1_post_fw cmd op cur s s2 hpost
    obtain ⟨c1, s1, pss1, g1, g2, g3, g4, g5⟩ :=
      ih cur3 s3 (henv3 ▸ hok) (henv3 ▸ hm) hl3 hcap3
    have hfc : forkCount [(cmd, op)] = pids.length := by
      rw [hplen]; simp [forkCount]
    by_cases hp : op = .PIPE
    · rw [if_pos hp] at hs3
      obtain ⟨e3, _⟩ := hs3
      subst e3
      cases hpss : pss1 with
      | nil =>
        subst hpss
        have hgr : groupsOf rest = [] := by
          cases hgr : groupsOf rest with
          | nil => rfl
          | cons g gs => rw [hgr] at g4; simp at g4
        refine ⟨c1, s1, [pids], hrun.trans g1, g2.trans henv3, g3, ?_, ?_⟩
        · simp only [groupsOf, if_pos hp, hgr, List.map_cons, List.map_nil, hfc]
        · rw [g5, hfw2, hg2]
          simp [comingFw, List.append_assoc]
      | cons ps r =>
        subst hpss
        obtain ⟨g, gs, hgr⟩ : ∃ g gs, groupsOf rest = g :: gs := by
          cases hgr : groupsOf rest with
          | nil => rw [hgr] at g4; simp at g4
          | cons g gs => exact ⟨g, gs, rfl⟩
        rw [hgr] at g4
        simp only [List.map_cons, List.cons.injEq] at g4
        refine ⟨c1, s1, (pids ++ ps) :: r, hrun.trans g1, g2.trans henv3, g3, ?_, ?_⟩
        · simp only [groupsOf, if_pos hp, hgr, List.map_cons, List.length_append, g4.1, g4.2,
            forkCount_cons, List.cons.injEq, and_true]
          rw [hplen]
        · rw [g5, hfw2, hg2]
          simp [comingFw, forksOf, waitsOf, List.append_assoc]
    · rw [if_neg hp] at hs3
      obtain ⟨e3, _⟩ := hs3
      subst e3
      refine ⟨c1, s1, pids :: pss1, hrun.trans g1, g2.trans henv3, g3, ?_, ?_⟩
      · simp only [groupsOf, if_neg hp, List.map_cons, g4, hfc]
      · rw [g5]
        show fwTrace (s2.trace ++ s2.g_pids.map Event.waitpid) ++ comingFw [] pss1 = _
        rw [fwTrace_append, hfw2, hg2, comingFw_nil_eq]
        have hw : ∀ l : List Nat, fwTrace (l.map Event.waitpid) = waitsOf l := by
          intro l
          induction l with
          | nil => rfl
          | cons x l ihl =>
            simp only [fwTrace, waitsOf, List.map_cons, List.filterMap_cons, Event.fw] at ihl ⊢
            rw [ihl]
        rw [hw]
        simp [comingFw, List.append_assoc]

theorem fwTrace_waitpids (l : List Nat) : fwTrace (l.map Event.waitpid) = waitsOf l := by
  induction l with
  | nil => rfl
  | cons x l ihl =>
    simp only [fwTrace, waitsOf, List.map_cons, List.filterMap_cons, Event.fw] at ihl ⊢
    rw [ihl]

/-- C2: in microshell_v1, when every `malloc`, `pipe`, `fork` and `close` call
succeeds and no pipeline group has more than 2048 external commands, `main`
returns 0 and its `fork` and `waitpid` calls are, group after group, the forks
of the group's external commands followed by exactly one `waitpid` per child
of the group, in fork order: every child is waited for once, after the last
fork of its group and before the first fork of any later group. -/
theorem v1_group_reaping (env : Env) (fds : FdTable) (args : List String)
    (hok : PfcOk env) (hm : MallocOk env) (hg : GroupsWithin 2048 (refSplit args)) :
    (V1.main args (St.start env fds)).code = some 0 ∧
    ∃ pss : List (List Nat),
      pss.map List.length = (groupsOf (refSplit args)).map forkCount ∧
      fwTrace (V1.main args (St.start env fds)).st.trace = (pss.map groupBlock).flatten := by
  have hcap := capOk_of_groups _ hg
  constructor
  · rw [v1_main_code env fds args hok hm, if_pos hcap]
  · rw [forget_trace (v1_main_eq args (St.start env fds))]
    unfold V1.main_spec
    by_cases h0 : args.length = 0
    · have : args = [] := List.length_eq_zero.1 h0
      subst this
      exact ⟨[], rfl, rfl⟩
    · rw [if_neg h0]
      obtain ⟨c1, s1, pss, g1, g2, g3, g4, g5⟩ := v1_fw_fold (refSplit args) STDIN_FILENO
        (St.start env fds).forget hok hm (fun h => absurd rfl h) hcap
      have g1b : V1.run_segments (refSplit args) STDIN_FILENO
          { (St.start env fds) with g_pids := [] } = .ok c1 s1 := g1
      refine ⟨pss, g4, ?_⟩
      simp only [run_bind, reset_pids, V1.run_all, g1b,
        v1_end_group_ok c1 s1 (g2 ▸ hok) g3, run_pure, Run.st]
      rw [closeIf_trace_fw]
      show fwTrace (s1.trace ++ s1.g_pids.map Event.waitpid) = _
      rw [fwTrace_append, fwTrace_waitpids, g5]
      show fwTrace [] ++ comingFw [] pss = _
      rw [comingFw_nil_eq]
      rfl

theorem v1_group_reaping_witness :
    PfcOk okEnv ∧ MallocOk okEnv ∧ GroupsWithin 2048 (refSplit ["a", "|", "b", ";", "c"]) ∧
    ∃ pss : List (List Nat),
      pss.map List.length = (groupsOf (refSplit ["a", "|", "b", ";", "c"])).map forkCount ∧
      fwTrace (V1.main ["a", "|", "b", ";", "c"] (St.start okEnv stdFds)).st.trace
        = (pss.map groupBlock).flatten :=
  ⟨okEnv_pfc, okEnv_malloc, by decide!,
    (v1_group_reaping okEnv stdFds ["a", "|", "b", ";", "c"] okEnv_pfc okEnv_malloc
      (by decide!)).2⟩

/-! ## The two versions side by side -/

theorem local_pure {α : Type} (a : α) : Local (pure a : M α) :=
  fun s s1 _ _ => ⟨a, 0, [], by simp, by simp⟩

theorem local_bind {α β : Type} {m : M α} {k : α → M β} (hm : Local m)
    (hk : ∀ a, Local (k a)) : Local (m >>= k) := by
  intro s s1 he ht
  obtain ⟨v, n, evs, h1, h2⟩ := hm s s1 he ht
  obtain ⟨v2, n2, evs2, g1, g2⟩ := hk v (s.adv n evs) (s1.adv n evs) he
    (by show s.tick + n = s1.tick + n; rw [ht])
  refine ⟨v2, n + n2, evs ++ evs2, ?_, ?_⟩
  · simp only [run_bind, h1, g1, adv_adv]
  · simp only [run_bind, h2, g2, adv_adv]

theorem local_write (fd : Nat) (buf : List Char) : Local (sys_write fd buf) := by
  intro s s1 he ht
  cases hres : s.env.writeRes s.tick with
  | none =>
    have hres1 : s1.env.writeRes s1.tick = none := by rw [← he, ← ht]; exact hres
    refine ⟨none, 1, [.writeFail fd], ?_, ?_⟩
    · simp only [sys_write, hres]; rfl
    · simp only [sys_write, hres1]; rfl
  | some k =>
    have hres1 : s1.env.writeRes s1.tick = some k := by rw [← he, ← ht]; exact hres
    refine ⟨some (min (k + 1) buf.length), 1, [.write fd (buf.take (min (k + 1) buf.length))],
      ?_, ?_⟩
    · simp only [sys_write, hres]; rfl
    · simp only [sys_write, hres1]; rfl

theorem local_chdir (path : String) : Local (sys_chdir path) := by
  intro s s1 he ht
  have h1 : s1.env.chdirOk s1.tick = s.env.chdirOk s.tick := by rw [← he, ← ht]
  refine ⟨s.env.chdirOk s.tick, 1, [.chdir path (s.env.chdirOk s.tick)], rfl, ?_⟩
  simp only [sys_chdir, h1]
  rfl

theorem v1_local_putstr_loop (fd : Nat) :
    ∀ (fuel : Nat) (rest : List Char), Local (V1.ft_putstr_loop fd fuel rest) := by
  intro fuel
  induction fuel with
  | zero => intro rest; exact local_pure _
  | succ fuel ih =>
    intro rest
    unfold V1.ft_putstr_loop
    split
    · exact local_pure _
    · refine local_bind (local_write fd rest) (fun r => ?_)
      cases r with
      | none => exact local_pure _
      | some k => exact ih _

theorem v1_local_putstr (str : List Char) (fd : Nat) : Local (V1.ft_putstr_fd str fd) := by
  unfold V1.ft_putstr_fd
  split
  · exact v1_local_putstr_loop fd _ _
  · exact local_pure _

theorem v1_local_execute_cd (args : List String) : Local (V1.execute_cd args) := by
  unfold V1.execute_cd
  show Local (if _ then _ else _)
  split
  · exact local_bind (v1_local_putstr _ _) (fun _ => local_pure _)
  · refine local_bind (local_chdir _) (fun ok => ?_)
    show Local (if _ then _ else _)
    split
    · exact local_pure _
    · refine local_bind ?_ (fun _ => local_pure _)
      unfold V1.cd_chdir_error
      exact local_bind (v1_local_putstr _ _) (fun _ =>
        local_bind (v1_local_putstr _ _) (fun _ => v1_local_putstr _ _))

theorem noWaits_append (a b : List Event) : noWaits (a ++ b) = noWaits a ++ noWaits b := by
  simp [noWaits]

theorem sim_adv {a b : St} (h : Sim a b) (n : Nat) (evs : List Event) :
    Sim (a.adv n evs) (b.adv n evs) :=
  ⟨h.env, by show a.tick + n = b.tick + n; rw [h.tick], h.fds, h.npipes, h.children,
    h.dispatched, by
      show noWaits (a.trace ++ evs) = noWaits (b.trace ++ evs)
      rw [noWaits_append, noWaits_append, h.trace]⟩

theorem sim_closeIf {a b : St} (h : Sim a b) (cur : Nat) :
    Sim (a.closeIf cur) (b.closeIf cur) := by
  unfold St.closeIf
  split
  · exact ⟨h.env, by show a.tick + 1 = b.tick + 1; rw [h.tick],
      by show fdPut a.fds cur none = fdPut b.fds cur none; rw [h.fds], h.npipes, h.children,
      h.dispatched, by
        show noWaits (a.trace ++ _) = noWaits (b.trace ++ _)
        rw [noWaits_append, noWaits_append, h.trace]⟩
  · exact h

theorem sim_stepBase {a b : St} (h : Sim a b) (cmd : List String) (op : Sep) :
    Sim (stepBase cmd op a) (stepBase cmd op b.forget) :=
  ⟨h.env, by show a.tick + 1 = b.tick + 1; rw [h.tick], h.fds, h.npipes, h.children,
    by show a.dispatched ++ _ = b.dispatched ++ _; rw [h.dispatched], h.trace⟩

theorem sim_spawn {a b : St} (h : Sim a b) (cmd : List String) (cur : Nat) (op : Sep) :
    Sim (spawnSt cmd cur op a) (spawnSt cmd cur op b) ∧ spawnPid op a = spawnPid op b ∧
      spawnCur op a = spawnCur op b := by
  obtain ⟨h1, h2, h3, h4, h5, h6, h7⟩ := h
  have hr : a.pipeR = b.pipeR := by unfold St.pipeR; rw [h3]
  have hw : a.pipeW = b.pipeW := by unfold St.pipeW; rw [h3, h4]
  have hpid : spawnPid op a = spawnPid op b := by
    unfold spawnPid St.forkPid
    split
    · show (a.env.forkRes (a.tick + 1)).getD 0 + 1 = (b.env.forkRes (b.tick + 1)).getD 0 + 1
      rw [h1, h2]
    · rw [h1, h2]
  have hev : spawnEvents cur op a = spawnEvents cur op b := by
    unfold spawnEvents
    rw [hr, hw, hpid]
  refine ⟨⟨?_, ?_, ?_, ?_, ?_, ?_, ?_⟩, hpid, by unfold spawnCur; rw [hr]⟩
  · rw [spawnSt_env, spawnSt_env, h1]
  · unfold spawnSt
    by_cases hp : op = .PIPE <;> by_cases hc : cur ≠ STDIN_FILENO <;>
      simp [hp, hc, St.closed, St.forked, St.piped, h2]
  · unfold spawnSt
    by_cases hp : op = .PIPE <;> by_cases hc : cur ≠ STDIN_FILENO <;>
      simp [hp, hc, St.closed, St.forked, St.piped, h3, h4, hr, hw]
  · unfold spawnSt
    by_cases hp : op = .PIPE <;> by_cases hc : cur ≠ STDIN_FILENO <;>
      simp [hp, hc, St.closed, St.forked, St.piped, h4]
  · unfold spawnSt
    by_cases hp : op = .PIPE <;> by_cases hc : cur ≠ STDIN_FILENO <;>
      simp [hp, hc, St.closed, St.forked, St.piped, h3, h4, h5, hr, hw, St.forkPid, h1, h2]
  · rw [spawnSt_dispatched, spawnSt_dispatched, h6]
  · rw [spawnSt_trace, spawnSt_trace, noWaits_append, noWaits_append, h7, hev]

theorem sim_pushed {a b : St} (h : Sim a b) (p q : Nat) : Sim (a.pushed p) (b.pushed q) :=
  ⟨h.env, h.tick, h.fds, h.npipes, h.children, h.dispatched, h.trace⟩

theorem sim_pushed_left {a b : St} (h : Sim a b) (p : Nat) : Sim (a.pushed p) b :=
  ⟨h.env, h.tick, h.fds, h.npipes, h.children, h.dispatched, h.trace⟩

theorem noWaits_waitpids (l : List Nat) : noWaits (l.map Event.waitpid) = [] := by
  induction l with
  | nil => rfl
  | cons x l ih =>
    simp only [noWaits, List.map_cons, List.filter_cons, Event.isWait] at ih ⊢
    simp [ih]

theorem sim_waited_right {a b : St} (h : Sim a b) (l : List Nat) : Sim a (b.waited l) :=
  ⟨h.env, h.tick, h.fds, h.npipes, h.children, h.dispatched, by
    show noWaits a.trace = noWaits (b.trace ++ l.map Event.waitpid)
    rw [noWaits_append, noWaits_waitpids, List.append_nil, h.trace]⟩

theorem sim_waited_left {a b : St} (h : Sim a b) (l : List Nat) : Sim (a.waited l).forget b :=
  ⟨h.env, h.tick, h.fds, h.npipes, h.children, h.dispatched, by
    show noWaits (a.trace ++ l.map Event.waitpid) = noWaits b.trace
    rw [noWaits_append, noWaits_waitpids, List.append_nil, h.trace]⟩

/-- One segment handled by the two versions from states that differ at most in
their reaping: both hand the same link on and the states still differ at most
in their reaping. -/
theorem sim_step (cmd : List String) (op : Sep) (cur : Nat) (s1 s2 : St) (h : Sim s1 s2)
    (hok : PfcOk s1.env) (hm : MallocOk s1.env) (hw : WritesOk s1.env) (hl : LinkOk cur s1)
    (hcap : isCdCmd cmd ∨ s1.g_pids.length < 2048) :
    ∃ p1 p2, V1.loop_body cmd op cur s1 = .ok (stepCur cmd op s1) p1 ∧
      (reset_pids >>= fun _ => V2.loop_body cmd op cur) s2 = .ok (stepCur cmd op s1) p2 ∧
      Sim p1 p2 := by
  have hok2 : PfcOk s2.env := h.env ▸ hok
  have hm2 : s2.env.mallocOk s2.tick = true := by rw [← h.env]; exact hm _
  have hl2 : LinkOk cur s2 := by
    intro hne
    rw [← h.fds]
    exact hl hne
  have hb := sim_stepBase h cmd op
  by_cases hcd : isCdCmd cmd
  · have e1 : V1.loop_body cmd op cur s1
        = (V1.execute_cd cmd >>= fun _ => pure STDIN_FILENO) ((stepBase cmd op s1).closeIf cur) := by
      rw [v1_loop_body_mem cmd op cur s1 (hm _),
        v1_dispatch_cd cmd cur op (stepBase cmd op s1) hcd hok hl]
    have e2 := v2_step_cd_run cmd op cur s2 hok2 hm2 hl2 hcd
    have hx := sim_closeIf hb cur
    have hw2 : WritesOk ((stepBase cmd op s2.forget).closeIf cur).env := by
      rw [← hx.env, closeIf_env]
      exact hw
    obtain ⟨v, n, evs, g1, g2⟩ := v1_local_execute_cd cmd _ _ hx.env hx.tick
    refine ⟨((stepBase cmd op s1).closeIf cur).adv n evs,
      ((stepBase cmd op s2.forget).closeIf cur).adv n evs, ?_, ?_, sim_adv hx n evs⟩
    · rw [e1]
      simp only [run_bind, g1, run_pure, stepCur, if_pos hcd]
    · rw [e2]
      simp only [run_bind, v2_execute_cd_eq_v1 _ _ hw2, g2, run_pure, stepCur, if_pos hcd]
  · obtain ⟨p1, f1, f2⟩ := v1_step_total cmd op cur s1 hok (hm _) hl hcap
    obtain ⟨p2, g1, g2⟩ := v2_step_ext cmd op cur s2 hok2 hm2 hl2 hcd
    obtain ⟨k1, k2, k3⟩ := sim_spawn hb cmd cur op
    have hcur : stepCur cmd op s2.forget = stepCur cmd op s1 := by
      unfold stepCur
      rw [if_neg hcd, if_neg hcd, k3]
    refine ⟨p1, p2, f1, by rw [g1, hcur], ?_⟩
    unfold V1Post at f2
    unfold V2Post at g2
    rw [if_neg hcd] at f2 g2
    by_cases hp : op = .PIPE
    · rw [if_pos hp] at g2
      rw [f2, g2]
      exact sim_pushed k1 _ _
    · rw [if_neg hp] at g2
      rw [f2, g2]
      exact sim_waited_right (sim_pushed_left k1 _) _

/-- The segments handled by the two versions from states that differ at most
in their reaping. -/
theorem sim_fold :
    ∀ (segs : List Segment) (cur : Nat) (s1 s2 : St), Sim s1 s2 → PfcOk s1.env →
      MallocOk s1.env → WritesOk s1.env → LinkOk cur s1 →
      capOk s1.g_pids.length segs = true →
      ∃ c a1 a2, V1.run_segments segs cur s1 = .ok c a1 ∧
        V2.run_segments segs cur s2 = .ok c a2 ∧ Sim a1 a2 ∧ LinkOk c a1 ∧ a1.env = s1.env := by
  intro segs
  induction segs with
  | nil =>
    intro cur s1 s2 h _ _ _ hl _
    exact ⟨cur, s1, s2, rfl, rfl, h, hl, rfl⟩
  | cons sg rest ih =>
    obtain ⟨cmd, op⟩ := sg
    intro cur s1 s2 h hok hm hw hl hcap
    obtain ⟨q, s3, cur3, _, hq, hrun, hs3, henv3, hl3, hcap3⟩ :=
      v1_cons_step cmd op rest cur s1 hok hm hl hcap
    have hstep : isCdCmd cmd ∨ s1.g_pids.length < 2048 := by
      by_cases hcd : isCdCmd cmd
      · exact Or.inl hcd
      · right
        simp only [capOk, if_neg hcd, Bool.and_eq_true, decide_eq_true_eq] at hcap
        exact hcap.1
    obtain ⟨p1, p2, e1, e2, hsim⟩ := sim_step cmd op cur s1 s2 h hok hm hw hl hstep
    have hqp : q = p1 := by
      rw [hq] at e1
      cases e1
      rfl
    subst hqp
    have hrun2 : V2.run_segments ((cmd, op) :: rest) cur s2
        = V2.run_segments rest (stepCur cmd op s1) p2 := by
      rw [v2_run_segments_cons, run_bind, e2]
    have hsim3 : Sim s3 p2 ∧ cur3 = stepCur cmd op s1 := by
      by_cases hp : op = .PIPE
      · rw [if_pos hp] at hs3
        rw [hs3.1, hs3.2]
        exact ⟨hsim, rfl⟩
      · rw [if_neg hp] at hs3
        rw [hs3.1, hs3.2, stepCur_nonpipe cmd op s1 hp]
        exact ⟨sim_waited_left hsim _, rfl⟩
    obtain ⟨c, a1, a2, g1, g2, g3, g4, g5⟩ :=
      ih cur3 s3 p2 hsim3.1 (henv3 ▸ hok) (henv3 ▸ hm) (henv3 ▸ hw) hl3 hcap3
    refine ⟨c, a1, a2, hrun.trans g1, ?_, g3, g4, g5.trans henv3⟩
    rw [hrun2, ← hsim3.2]
    exact g2

theorem sim_start (env : Env) (fds : FdTable) : Sim (St.start env fds).forget (St.start env fds) :=
  ⟨rfl, rfl, rfl, rfl, rfl, rfl, rfl⟩

theorem noWaits_isWait (evs : List Event) (h : ∀ e ∈ evs, e.isWait = true) :
    noWaits evs = [] := by
  unfold noWaits
  rw [List.filter_eq_nil_iff]
  intro e he
  simp [h e he]

/-- C10: when every `malloc`, `pipe`, `fork`, `close` and `write` call succeeds
(each call having the same outcome in the two runs) and no pipeline group has
more than 2048 external commands, `main` of microshell_v1 and `main` of
microshell_v2 both return 0, dispatch the same segments, fork the same
children (same argument vector, same inherited descriptors, same input link
and pipe), and their traces are equal once the `waitpid` and `wait` calls are
removed. -/
theorem v1_v2_agree (env : Env) (fds : FdTable) (args : List String)
    (hok : PfcOk env) (hm : MallocOk env) (hw : WritesOk env)
    (hg : GroupsWithin 2048 (refSplit args)) :
    (V1.main args (St.start env fds)).code = some 0 ∧
    (V2.main args (St.start env fds)).code = some 0 ∧
    noWaits (V1.main args (St.start env fds)).st.trace
      = noWaits (V2.main args (St.start env fds)).st.trace ∧
    (V1.main args (St.start env fds)).st.children
      = (V2.main args (St.start env fds)).st.children ∧
    (V1.main args (St.start env fds)).st.dispatched
      = (V2.main args (St.start env fds)).st.dispatched := by
  have hcap := capOk_of_groups _ hg
  have hc1 : (V1.main args (St.start env fds)).code = some 0 := by
    rw [v1_main_code env fds args hok hm, if_pos hcap]
  have hc2 : (V2.main args (St.start env fds)).code = some 0 := by
    rw [(v2_main_code env fds args hok hm hw).1]
    rfl
  refine ⟨hc1, hc2, ?_⟩
  have h1 := v1_main_eq args (St.start env fds)
  have h2 := v2_main_eq args (St.start env fds)
  rw [forget_trace h1, forget_trace h2, forget_children h1, forget_children h2,
    forget_dispatched h1, forget_dispatched h2]
  unfold V1.main_spec V2.main_spec
  by_cases h0 : args.length = 0
  · simp only [if_pos h0]
    exact ⟨trivial, trivial, trivial⟩
  · simp only [if_neg h0]
    obtain ⟨c, a1, a2, g1, g2, g3, g4, g5⟩ := sim_fold (refSplit args) STDIN_FILENO
      (St.start env fds).forget (St.start env fds) (sim_start env fds) hok hm hw
      (fun h => absurd rfl h) hcap
    have g1b : V1.run_segments (refSplit args) STDIN_FILENO
        { (St.start env fds) with g_pids := [] } = .ok c a1 := g1
    have hok1 : PfcOk a1.env := g5 ▸ hok
    have hok2 : PfcOk a2.env := by rw [← g3.env]; exact hok1
    have hl2 : LinkOk c a2 := by
      intro hne
      rw [← g3.fds]
      exact g4 hne
    obtain ⟨s5, evs, e1, _, e3, e4, e5, e6⟩ := v2_main_end_ok c a2 hok2 hl2
    have hx := sim_closeIf g3 c
    have r1 : (reset_pids >>= fun _ => V1.run_all (refSplit args) STDIN_FILENO >>= fun _ =>
        (pure 0 : M Nat)) (St.start env fds) = .ok 0 ((a1.waited a1.g_pids).closeIf c) := by
      simp only [run_bind, reset_pids, V1.run_all, g1b, v1_end_group_ok c a1 hok1 g4, run_pure]
    have r2 : (V2.run_segments (refSplit args) STDIN_FILENO >>= fun cur => V2.main_end cur)
        (St.start env fds) = .ok 0 s5 := by
      simp only [run_bind, g2, e1]
    have r1b : (do
        reset_pids
        let _ ← V1.run_all (refSplit args) STDIN_FILENO
        pure 0 : M Nat) (St.start env fds) = .ok 0 ((a1.waited a1.g_pids).closeIf c) := r1
    have r2b : (do
        let cur ← V2.run_segments (refSplit args) STDIN_FILENO
        V2.main_end cur : M Nat) (St.start env fds) = .ok 0 s5 := r2
    rw [r1b, r2b]
    have hw1 := sim_closeIf (sim_waited_left g3 a1.g_pids) c
    refine ⟨?_, ?_, ?_⟩
    · show noWaits ((a1.waited a1.g_pids).closeIf c).trace = noWaits s5.trace
      rw [e5, noWaits_append, noWaits_isWait evs e6, List.append_nil]
      have := hw1.trace
      have e : (a1.waited a1.g_pids).forget.closeIf c
          = ((a1.waited a1.g_pids).closeIf c).forget := by
        unfold St.closeIf; split <;> rfl
      rw [e] at this
      exact this
    · show ((a1.waited a1.g_pids).closeIf c).children = s5.children
      rw [e3, (waited_closeIf_facts a1 c).2.2, g3.children]
    · show ((a1.waited a1.g_pids).closeIf c).dispatched = s5.dispatched
      rw [e4, (waited_closeIf_facts a1 c).2.1, g3.dispatched]

theorem v1_v2_agree_witness :
    PfcOk okEnv ∧ MallocOk okEnv ∧ WritesOk okEnv ∧
      GroupsWithin 2048 (refSplit ["a", "|", "cd", "|", ";", "b"]) ∧
      noWaits (V1.main ["a", "|", "cd", "|", ";", "b"] (St.start okEnv stdFds)).st.trace
        = noWaits (V2.main ["a", "|", "cd", "|", ";", "b"] (St.start okEnv stdFds)).st.trace :=
  ⟨okEnv_pfc, okEnv_malloc, okEnv_writes, by decide!,
    (v1_v2_agree okEnv stdFds ["a", "|", "cd", "|", ";", "b"] okEnv_pfc okEnv_malloc okEnv_writes
      (by decide!)).2.2.1⟩

/-! ## A failed `execve` stays in the child -/

theorem execFree_pure {α : Type} (a : α) : ExecFree (pure a : M α) := fun _ _ => rfl

theorem execFree_bind {α β : Type} {m : M α} {k : α → M β} (hm : ExecFree m)
    (hk : ∀ a, ExecFree (k a)) : ExecFree (m >>= k) := by
  intro s ex
  simp only [run_bind, hm s ex]
  cases m s with
  | ok a s1 => exact hk a s1 ex
  | halt h s1 => rfl

theorem execFree_ite {α : Type} {c : Prop} [Decidable c] {m1 m2 : M α} (h1 : ExecFree m1)
    (h2 : ExecFree m2) : ExecFree (if c then m1 else m2) := by
  split
  · exact h1
  · exact h2

theorem execFree_exit {α : Type} (c : Nat) : ExecFree (sys_exit c : M α) := fun _ _ => rfl

theorem execFree_malloc : ExecFree sys_malloc := fun _ _ => rfl

theorem execFree_write (fd : Nat) (buf : List Char) : ExecFree (sys_write fd buf) := by
  intro s ex
  simp only [sys_write, St.withExec, Env.withExec]
  cases s.env.writeRes s.tick <;> rfl

theorem execFree_chdir (path : String) : ExecFree (sys_chdir path) := fun _ _ => rfl

theorem execFree_close (fd : Nat) : ExecFree (sys_close fd) := fun _ _ => rfl

theorem execFree_pipe : ExecFree sys_pipe := by
  intro s ex
  simp only [sys_pipe, St.withExec, Env.withExec]
  split <;> rfl

theorem execFree_fork : ExecFree sys_fork := by
  intro s ex
  simp only [sys_fork, St.withExec, Env.withExec]
  cases s.env.forkRes s.tick <;> rfl

theorem execFree_waitpid (pid : Nat) : ExecFree (sys_waitpid pid) := fun _ _ => rfl

theorem execFree_wait_all : ∀ pids, ExecFree (wait_all pids) := by
  intro pids
  induction pids with
  | nil => exact execFree_pure _
  | cons p ps ih => exact execFree_bind (execFree_waitpid p) (fun _ => ih)

theorem v1_execFree_putstr_loop (fd : Nat) : ∀ fuel rest, ExecFree (V1.ft_putstr_loop fd fuel rest) := by
  intro fuel
  induction fuel with
  | zero => intro rest; exact execFree_pure _
  | succ fuel ih =>
    intro rest
    unfold V1.ft_putstr_loop
    apply execFree_ite
    · exact execFree_pure _
    · refine execFree_bind (execFree_write _ _) ?_
      intro r
      cases r with
      | none => exact execFree_pure _
      | some n => exact ih _

theorem v1_execFree_putstr (str : List Char) (fd : Nat) : ExecFree (V1.ft_putstr_fd str fd) :=
  execFree_ite (v1_execFree_putstr_loop fd _ _) (execFree_pure _)

theorem v1_execFree_fatal {α : Type} : ExecFree (V1.fatal_error : M α) :=
  execFree_bind (v1_execFree_putstr _ _) (fun _ => execFree_exit 1)

theorem v1_execFree_checked_close (fd : Nat) : ExecFree (V1.checked_close fd) :=
  execFree_bind (execFree_close fd) (fun _ => execFree_ite (execFree_pure _) v1_execFree_fatal)

theorem v1_execFree_execute_cd (args : List String) : ExecFree (V1.execute_cd args) := by
  unfold V1.execute_cd
  apply execFree_ite
  · exact execFree_bind (v1_execFree_putstr _ _) (fun _ => execFree_pure _)
  · refine execFree_bind (execFree_chdir _) ?_
    intro ok
    apply execFree_ite
    · exact execFree_pure _
    · refine execFree_bind ?_ (fun _ => execFree_pure _)
      exact execFree_bind (v1_execFree_putstr _ _) (fun _ =>
        execFree_bind (v1_execFree_putstr _ _) (fun _ => v1_execFree_putstr _ _))

theorem execFree_track (pid : Nat) : ExecFree (do
    let pids ← get_pids
    if pids.length < 2048 then push_pid pid else V1.fatal_error : M Unit) := by
  refine execFree_bind (fun _ _ => rfl) ?_
  intro pids
  exact execFree_ite (fun _ _ => rfl) v1_execFree_fatal

theorem v1_execFree_dispatch (cmd : List String) (cur : Nat) (op : Sep) :
    ExecFree (V1.dispatch cmd cur op) := by
  unfold V1.dispatch
  apply execFree_ite
  · refine execFree_bind ?_ (fun _ =>
      execFree_bind (v1_execFree_execute_cd _) (fun _ => execFree_pure _))
    apply execFree_ite
    · exact execFree_bind (v1_execFree_checked_close _) (fun _ => execFree_pure _)
    · exact execFree_pure _
  · refine execFree_bind ?_ ?_
    · apply execFree_ite
      · refine execFree_bind execFree_pipe ?_
        intro r
        cases r with
        | none => exact v1_execFree_fatal
        | some p => exact execFree_pure _
      · exact execFree_pure _
    · intro pf
      refine execFree_bind execFree_fork ?_
      intro pid
      cases pid with
      | none =>
        cases pf with
        | none => exact v1_execFree_fatal
        | some p =>
          exact execFree_bind (v1_execFree_checked_close _) (fun _ =>
            execFree_bind (v1_execFree_checked_close _) (fun _ => v1_execFree_fatal))
      | some pid =>
        refine execFree_bind (fun _ _ => rfl) ?_
        intro _
        have hrest : ExecFree (do
            let c ← (if op = .PIPE then
                match pf with
                | some (r, w) => do
                  V1.checked_close w
                  pure r
                | none => V1.fatal_error
              else pure STDIN_FILENO : M Nat)
            let pids ← get_pids
            if pids.length < 2048 then
              push_pid pid
            else
              V1.fatal_error
            pure c : M Nat) := by
          refine execFree_bind ?_ ?_
          · apply execFree_ite
            · cases pf with
              | none => exact v1_execFree_fatal
              | some p =>
                exact execFree_bind (v1_execFree_checked_close _) (fun _ => execFree_pure _)
            · exact execFree_pure _
          · intro c
            refine execFree_bind (fun _ _ => rfl) ?_
            intro pids
            show ExecFree (if pids.length < 2048 then _ else _)
            exact execFree_ite (execFree_bind (fun _ _ => rfl) (fun _ => execFree_pure _))
              (execFree_bind v1_execFree_fatal (fun _ => execFree_pure _))
        show ExecFree (if cur ≠ STDIN_FILENO then _ else _)
        apply execFree_ite
        · exact execFree_bind (v1_execFree_checked_close _) (fun _ => hrest)
        · exact execFree_bind (execFree_pure _) (fun _ => hrest)

theorem v1_execFree_loop_body (cmd : List String) (op : Sep) (cur : Nat) :
    ExecFree (V1.loop_body cmd op cur) := by
  unfold V1.loop_body
  refine execFree_bind execFree_malloc ?_
  intro ok
  have hrest : ExecFree (do
      noteDispatch cmd op
      V1.dispatch cmd cur op : M Nat) :=
    execFree_bind (fun _ _ => rfl) (fun _ => v1_execFree_dispatch cmd cur op)
  show ExecFree (if ¬ ok = true then _ else _)
  apply execFree_ite
  · exact execFree_bind v1_execFree_fatal (fun _ => hrest)
  · exact execFree_bind (execFree_pure _) (fun _ => hrest)

theorem v1_execFree_inner_loop : ∀ fuel toks cur, ExecFree (V1.inner_loop fuel toks cur) := by
  intro fuel
  induction fuel with
  | zero => intro toks cur; exact execFree_pure _
  | succ fuel ih =>
    intro toks cur
    unfold V1.inner_loop
    apply execFree_ite
    · exact execFree_pure _
    · show ExecFree (if _ then _ else _)
      apply execFree_ite
      · split
        · exact ih _ _
        · exact execFree_ite (ih _ _) (ih _ _)
      · refine execFree_bind (v1_execFree_loop_body _ _ _) ?_
        intro cur2
        split
        · exact execFree_pure _
        · apply execFree_ite
          · exact execFree_ite (execFree_pure _) (ih _ _)
          · exact execFree_ite (execFree_pure _) (execFree_pure _)

theorem v1_execFree_end_group (cur : Nat) : ExecFree (V1.end_group cur) := by
  unfold V1.end_group
  refine execFree_bind (fun _ _ => rfl) ?_
  intro pids
  refine execFree_bind (execFree_wait_all pids) ?_
  intro _
  apply execFree_ite
  · exact v1_execFree_checked_close cur
  · exact execFree_pure _

theorem v1_execFree_outer_loop : ∀ fuel toks, ExecFree (V1.outer_loop fuel toks) := by
  intro fuel
  induction fuel with
  | zero => intro toks; exact execFree_pure _
  | succ fuel ih =>
    intro toks
    unfold V1.outer_loop
    apply execFree_ite
    · exact execFree_pure _
    · refine execFree_bind (fun _ _ => rfl) ?_
      intro _
      refine execFree_bind (v1_execFree_inner_loop _ _ _) ?_
      intro p
      exact execFree_bind (v1_execFree_end_group _) (fun _ => ih _)

theorem v1_execFree_main (args : List String) : ExecFree (V1.main args) := by
  unfold V1.main
  apply execFree_ite
  · exact execFree_pure _
  · exact execFree_bind (v1_execFree_outer_loop _ _) (fun _ => execFree_pure _)

theorem v1_child_exec_fails (cmd : List String) (s : St) (hw : WritesOk s.env)
    (he : s.env.execOk s.tick = false) :
    ∃ s1 evs, V1.child_exec cmd s = .halt (.exited 1) s1 ∧
      s1.trace = s.trace ++ Event.execve (cmd.getD 0 "") cmd false :: evs ∧
      OnlyWrites STDERR_FILENO evs ∧
      written STDERR_FILENO evs
        = "error: cannot execute ".toList ++ (cmd.getD 0 "").toList ++ "\n".toList := by
  have h0 : sys_execve (cmd.getD 0 "") cmd s
      = .ok () (s.adv 1 [Event.execve (cmd.getD 0 "") cmd false]) := by
    simp [sys_execve, he, St.adv]
  obtain ⟨s1, e1, h1, g1, t1, w1, o1⟩ := v1_putstr_ok "error: cannot execute ".toList
    STDERR_FILENO (s.adv 1 [Event.execve (cmd.getD 0 "") cmd false]) hw
  obtain ⟨s2, e2, h2, g2, t2, w2, o2⟩ := v1_putstr_ok (cmd.getD 0 "").toList STDERR_FILENO s1
    (g1 ▸ hw)
  obtain ⟨s3, e3, h3, g3, t3, w3, o3⟩ := v1_putstr_ok "\n".toList STDERR_FILENO s2
    (g2 ▸ g1 ▸ hw)
  refine ⟨s3, e1 ++ e2 ++ e3, ?_, ?_, onlyWrites_append (onlyWrites_append o1 o2) o3, ?_⟩
  · simp only [V1.child_exec, V1.execve_error, run_bind, h0, h1, h2, h3]
    rfl
  · rw [t3, t2, t1]
    simp [St.adv]
  · rw [written_append, written_append, w1, w2, w3]

/-- C6 (as stated) fails in two ways.  With every call of the parent
succeeding, microshell_v1 exits with status 1, not 0, on a pipeline of 2049
commands (its tracking array holds 2048).  And when the child's `write` calls
fail, the child of microshell_v1 whose `execve` failed writes nothing to the
error stream. -/
theorem exec_failure_counterexample :
    PfcOk okEnv ∧ MallocOk okEnv ∧ WritesOk okEnv ∧
    (V1.main (pipeline 2048) (St.start okEnv stdFds)).code = some 1 ∧
    written STDERR_FILENO
      (V1.child_branch ["x"] 0 .END none (St.start noExecWriteEnv stdFds)).st.trace = [] := by
  refine ⟨okEnv_pfc, okEnv_malloc, okEnv_writes, ?_, by decide!⟩
  rw [v1_main_code okEnv stdFds _ okEnv_pfc okEnv_malloc]
  have h : capOk 0 (refSplit (pipeline 2048)) = false := by decide!
  rw [h]
  rfl

/-! ## The streams of a forked child -/

theorem sys_dup2_ok (s : St) (old new : Nat) (ho : (fdGet s.fds old).isSome = true)
    (h : s.env.dup2Ok s.tick = true) : sys_dup2 old new s = .ok true (s.dupped old new) := by
  simp [sys_dup2, ho, h, St.dupped]

theorem v1_child_stdin_ok (cur : Nat) (s : St) (hc : ChildOk s.env)
    (ho : cur ≠ STDIN_FILENO → (fdGet s.fds cur).isSome = true) :
    V1.child_stdin cur s
      = .ok () (if cur ≠ STDIN_FILENO then (s.dupped cur STDIN_FILENO).closed cur else s) := by
  unfold V1.child_stdin
  by_cases h : cur ≠ STDIN_FILENO
  · rw [if_pos h, if_pos h]
    have h1 := sys_dup2_ok s cur STDIN_FILENO (ho h) (hc.dup2 _)
    have h2 : (fdGet (s.dupped cur STDIN_FILENO).fds cur).isSome = true := by
      show (fdGet (fdPut s.fds STDIN_FILENO (fdGet s.fds cur)) cur).isSome = true
      rw [fdGet_fdPut, if_neg h]; exact ho h
    have h3 := v1_checked_close_ok (s.dupped cur STDIN_FILENO) cur h2 (hc.close _)
    simp [run_bind, h1, h3]
  · rw [if_neg h, if_neg h]
    rfl

theorem v2_child_stdin_ok (cur : Nat) (s : St) (hc : ChildOk s.env)
    (ho : cur ≠ STDIN_FILENO → (fdGet s.fds cur).isSome = true) :
    V2.child_stdin cur s
      = .ok () (if cur ≠ STDIN_FILENO then (s.dupped cur STDIN_FILENO).closed cur else s) := by
  unfold V2.child_stdin
  by_cases h : cur ≠ STDIN_FILENO
  · rw [if_pos h, if_pos h]
    have h1 := sys_dup2_ok s cur STDIN_FILENO (ho h) (hc.dup2 _)
    have h2 : (fdGet (s.dupped cur STDIN_FILENO).fds cur).isSome = true := by
      show (fdGet (fdPut s.fds STDIN_FILENO (fdGet s.fds cur)) cur).isSome = true
      rw [fdGet_fdPut, if_neg h]; exact ho h
    have h3 := v2_checked_close_ok (s.dupped cur STDIN_FILENO) cur h2 (hc.close _)
    simp [run_bind, h1, h3]
  · rw [if_neg h, if_neg h]
    rfl

theorem v1_child_stdout_ok (r w : Nat) (s : St) (hc : ChildOk s.env)
    (hr : (fdGet s.fds r).isSome = true) (hw : (fdGet s.fds w).isSome = true)
    (hwr : w ≠ r) (hw1 : w ≠ STDOUT_FILENO) :
    V1.child_stdout .PIPE (some (r, w)) s
      = .ok () (((s.closed r).dupped w STDOUT_FILENO).closed w) := by
  unfold V1.child_stdout
  have h1 := v1_checked_close_ok s r hr (hc.close _)
  have h2a : (fdGet (s.closed r).fds w).isSome = true := by
    show (fdGet (fdPut s.fds r none) w).isSome = true
    rw [fdGet_fdPut, if_neg hwr]; exact hw
  have h2 := sys_dup2_ok (s.closed r) w STDOUT_FILENO h2a (hc.dup2 _)
  have h3a : (fdGet ((s.closed r).dupped w STDOUT_FILENO).fds w).isSome = true := by
    show (fdGet (fdPut (s.closed r).fds STDOUT_FILENO (fdGet (s.closed r).fds w)) w).isSome = true
    rw [fdGet_fdPut, if_neg hw1]; exact h2a
  have h3 := v1_checked_close_ok ((s.closed r).dupped w STDOUT_FILENO) w h3a (hc.close _)
  simp [run_bind, h1, h2, h3]

theorem v2_child_stdout_ok (r w : Nat) (s : St) (hc : ChildOk s.env)
    (hr : (fdGet s.fds r).isSome = true) (hw : (fdGet s.fds w).isSome = true)
    (hwr : w ≠ r) (hw1 : w ≠ STDOUT_FILENO) :
    V2.child_stdout .PIPE (some (r, w)) s
      = .ok () (((s.closed r).dupped w STDOUT_FILENO).closed w) := by
  unfold V2.child_stdout
  have h1 := v2_checked_close_ok s r hr (hc.close _)
  have h2a : (fdGet (s.closed r).fds w).isSome = true := by
    show (fdGet (fdPut s.fds r none) w).isSome = true
    rw [fdGet_fdPut, if_neg hwr]; exact hw
  have h2 := sys_dup2_ok (s.closed r) w STDOUT_FILENO h2a (hc.dup2 _)
  have h3a : (fdGet ((s.closed r).dupped w STDOUT_FILENO).fds w).isSome = true := by
    show (fdGet (fdPut (s.closed r).fds STDOUT_FILENO (fdGet (s.closed r).fds w)) w).isSome = true
    rw [fdGet_fdPut, if_neg hw1]; exact h2a
  have h3 := v2_checked_close_ok ((s.closed r).dupped w STDOUT_FILENO) w h3a (hc.close _)
  simp [run_bind, h1, h2, h3]

theorem v1_child_exec_ok (cmd : List String) (s : St) (he : s.env.execOk s.tick = true) :
    V1.child_exec cmd s
      = .halt .execed (s.adv 1 [Event.execve (cmd.getD 0 "") cmd true]) := by
  simp [V1.child_exec, sys_execve, he, St.adv]

theorem v2_child_exec_ok (cmd : List String) (s : St) (he : s.env.execOk s.tick = true) :
    V2.child_exec cmd s
      = .halt .execed (s.adv 1 [Event.execve (cmd.getD 0 "") cmd true]) := by
  simp [V2.child_exec, sys_execve, he, St.adv]

/-- What the descriptor invariant says about the descriptors of a new pipe. -/
theorem pipe_fresh (fds0 : FdTable) (h0 : (fdGet fds0 0).isSome = true) (cur : Nat) (s : St)
    (hinv : FdsInv fds0 cur s) :
    s.pipeR ≠ 0 ∧ s.pipeW ≠ 0 ∧ s.pipeW ≠ 1 ∧ s.pipeW ≠ s.pipeR ∧
      (cur ≠ STDIN_FILENO → cur ≠ s.pipeR ∧ cur ≠ s.pipeW) ∧
      fdGet fds0 s.pipeR = none ∧ fdGet fds0 s.pipeW = none := by
  have hl := fdsInv_linkOk hinv
  have f0 : (fdGet s.fds 0).isSome = true := by
    by_cases hc : cur = STDIN_FILENO
    · rw [hinv.2 0 (Or.inl hc)]; exact h0
    · have : (0 : Nat) ≠ cur := fun e => hc e.symm
      rw [hinv.2 0 (Or.inr this)]; exact h0
  obtain ⟨r0, w0⟩ := open_ne_pipe s 0 f0
  have hwr := pipeW_ne_pipeR s
  have hcur : cur ≠ STDIN_FILENO → cur ≠ s.pipeR ∧ cur ≠ s.pipeW :=
    fun hc => open_ne_pipe s cur (hl hc)
  have hw1 : s.pipeW ≠ 1 := by
    intro e
    cases h1 : fdGet s.fds 1 with
    | none =>
      have := lowestFree_le s.fds 1 h1
      have hr : s.pipeR ≤ 1 := this
      have : s.pipeR ≠ 0 := fun e => r0 e.symm
      omega
    | some v =>
      have := (open_ne_pipe s 1 (by rw [h1]; rfl)).2
      exact this e.symm
  have hfr : fdGet fds0 s.pipeR = none := by
    by_cases hc : cur = STDIN_FILENO
    · rw [← hinv.2 _ (Or.inl hc)]; exact pipeR_free s
    · rw [← hinv.2 _ (Or.inr (fun e => (hcur hc).1 e.symm))]; exact pipeR_free s
  have hfw : fdGet fds0 s.pipeW = none := by
    by_cases hc : cur = STDIN_FILENO
    · rw [← hinv.2 _ (Or.inl hc)]; exact pipeW_free s
    · rw [← hinv.2 _ (Or.inr (fun e => (hcur hc).2 e.symm))]; exact pipeW_free s
  exact ⟨fun e => r0 e.symm, fun e => w0 e.symm, hw1, hwr, hcur, hfr, hfw⟩

theorem childIn_env (cenv : Env) (cur : Nat) (op : Sep) (s : St) :
    (childIn cenv cur op s).env = cenv := by
  unfold childIn
  split <;> rfl

theorem childIn_fds_get (cenv : Env) (cur : Nat) (op : Sep) (s : St) (j : Nat) :
    fdGet (childIn cenv cur op s).fds j
      = if cur ≠ STDIN_FILENO ∧ j = cur then none
        else if cur ≠ STDIN_FILENO ∧ j = STDIN_FILENO then
          fdGet (if op = .PIPE then s.piped else s).fds cur
        else fdGet (if op = .PIPE then s.piped else s).fds j := by
  unfold childIn
  by_cases hc : cur ≠ STDIN_FILENO
  · rw [if_pos hc]
    show fdGet (fdPut (fdPut _ STDIN_FILENO (fdGet _ cur)) cur none) j = _
    rw [fdGet_fdPut, fdGet_fdPut]
    simp only [hc, ne_eq, not_false_eq_true, true_and]
    rfl
  · rw [if_neg hc]
    simp only [hc, false_and, if_false]
    rfl

theorem forkTable_get (op : Sep) (s : St) (j : Nat) :
    fdGet (if op = .PIPE then s.piped else s).fds j
      = if op = .PIPE ∧ j = s.pipeW then some (.pipeW s.npipes)
        else if op = .PIPE ∧ j = s.pipeR then some (.pipeR s.npipes) else fdGet s.fds j := by
  by_cases hp : op = .PIPE
  · simp only [if_pos hp, hp, true_and]
    exact piped_fds_get s j
  · simp only [if_neg hp, hp, false_and, if_false]

theorem childIn_facts (fds0 : FdTable) (h0 : (fdGet fds0 0).isSome = true) (cur : Nat)
    (op : Sep) (s : St) (link : Option Nat) (hinv : FdsInv fds0 cur s)
    (hlink : LinkIs cur link s) (cenv : Env) :
    fdGet (childIn cenv cur op s).fds STDIN_FILENO = streamOf fds0 STDIN_FILENO Res.pipeR link ∧
    (∀ j, j ≠ STDIN_FILENO → (op = .PIPE → j ≠ s.pipeR ∧ j ≠ s.pipeW) →
      fdGet (childIn cenv cur op s).fds j = fdGet fds0 j) ∧
    (op = .PIPE → fdGet (childIn cenv cur op s).fds s.pipeR = some (.pipeR s.npipes) ∧
      fdGet (childIn cenv cur op s).fds s.pipeW = some (.pipeW s.npipes)) := by
  obtain ⟨r0, w0, w1, hwr, hcur, hfr, hfw⟩ := pipe_fresh fds0 h0 cur s hinv
  refine ⟨?_, ?_, ?_⟩
  · rw [childIn_fds_get]
    cases link with
    | none =>
      have hc : cur = STDIN_FILENO := hlink
      have n1 : ¬ (cur ≠ STDIN_FILENO ∧ STDIN_FILENO = cur) := fun h => h.1 hc
      have n2 : ¬ (cur ≠ STDIN_FILENO ∧ STDIN_FILENO = STDIN_FILENO) := fun h => h.1 hc
      rw [if_neg n1, if_neg n2, forkTable_get,
        if_neg (fun h => w0 h.2.symm), if_neg (fun h => r0 h.2.symm)]
      exact hinv.2 _ (Or.inl hc)
    | some k =>
      obtain ⟨hc, hk⟩ : cur ≠ STDIN_FILENO ∧ fdGet s.fds cur = some (.pipeR k) := hlink
      have n1 : ¬ (cur ≠ STDIN_FILENO ∧ STDIN_FILENO = cur) := fun h => hc h.2.symm
      rw [if_neg n1, if_pos ⟨hc, rfl⟩, forkTable_get,
        if_neg (fun h => (hcur hc).2 h.2), if_neg (fun h => (hcur hc).1 h.2)]
      exact hk
  · intro j hj0 hjp
    rw [childIn_fds_get]
    by_cases hjc : cur ≠ STDIN_FILENO ∧ j = cur
    · rw [if_pos hjc, hjc.2]
      exact (hinv.1 hjc.1).2.symm
    · rw [if_neg hjc, if_neg (fun h => hj0 h.2), forkTable_get,
        if_neg (fun h => (hjp h.1).2 h.2), if_neg (fun h => (hjp h.1).1 h.2)]
      apply hinv.2
      by_cases hc : cur = STDIN_FILENO
      · exact Or.inl hc
      · exact Or.inr (fun e => hjc ⟨hc, e⟩)
  · intro hp
    constructor
    · rw [childIn_fds_get, if_neg (fun h => (hcur h.1).1 h.2.symm), if_neg (fun h => r0 h.2),
        forkTable_get, if_neg (fun h => hwr h.2.symm), if_pos ⟨hp, rfl⟩]
    · rw [childIn_fds_get, if_neg (fun h => (hcur h.1).2 h.2.symm), if_neg (fun h => w0 h.2),
        forkTable_get, if_pos ⟨hp, rfl⟩]

theorem childWired_facts (fds0 : FdTable) (h0 : (fdGet fds0 0).isSome = true) (cur : Nat)
    (op : Sep) (s : St) (link : Option Nat) (hinv : FdsInv fds0 cur s)
    (hlink : LinkIs cur link s) (cenv : Env) :
    fdGet (childWired cenv cur op s).fds STDIN_FILENO
      = streamOf fds0 STDIN_FILENO Res.pipeR link ∧
    fdGet (childWired cenv cur op s).fds STDOUT_FILENO
      = streamOf fds0 STDOUT_FILENO Res.pipeW (if op = .PIPE then some s.npipes else none) ∧
    ∀ j, j ≠ STDIN_FILENO → j ≠ STDOUT_FILENO →
      fdGet (childWired cenv cur op s).fds j = fdGet fds0 j := by
  obtain ⟨r0, w0, w1, hwr, hcur, hfr, hfw⟩ := pipe_fresh fds0 h0 cur s hinv
  obtain ⟨i0, ij, ip⟩ := childIn_facts fds0 h0 cur op s link hinv hlink cenv
  by_cases hp : op = .PIPE
  · have key : ∀ j, fdGet (childWired cenv cur op s).fds j
        = if j = s.pipeW then none else if j = STDOUT_FILENO then some (.pipeW s.npipes)
          else if j = s.pipeR then none else fdGet (childIn cenv cur op s).fds j := by
      intro j
      unfold childWired
      rw [if_pos hp]
      show fdGet (fdPut (fdPut (fdPut (childIn cenv cur op s).fds s.pipeR none) STDOUT_FILENO
        (fdGet (fdPut (childIn cenv cur op s).fds s.pipeR none) s.pipeW)) s.pipeW none) j = _
      rw [fdGet_fdPut, fdGet_fdPut, fdGet_fdPut, fdGet_fdPut, if_neg hwr, (ip hp).2]
    refine ⟨?_, ?_, ?_⟩
    · rw [key, if_neg (fun e => w0 e.symm), if_neg (by decide), if_neg (fun e => r0 e.symm)]
      exact i0
    · rw [key, if_neg (fun e => w1 e.symm), if_pos rfl, if_pos hp]
      rfl
    · intro j hj0 hj1
      rw [key]
      by_cases hjw : j = s.pipeW
      · rw [if_pos hjw, hjw, hfw]
      · rw [if_neg hjw, if_neg hj1]
        by_cases hjr : j = s.pipeR
        · rw [if_pos hjr, hjr, hfr]
        · rw [if_neg hjr]
          exact ij j hj0 (fun _ => ⟨hjr, hjw⟩)
  · have key : childWired cenv cur op s = childIn cenv cur op s := by
      unfold childWired
      rw [if_neg hp]
    rw [key, if_neg hp]
    refine ⟨i0, ?_, ?_⟩
    · exact ij _ (by decide) (fun h => absurd h hp)
    · intro j hj0 _
      exact ij j hj0 (fun h => absurd h hp)

theorem childIn_open (fds0 : FdTable) (h0 : (fdGet fds0 0).isSome = true) (cur : Nat)
    (s : St) (hinv : FdsInv fds0 cur s) (op : Sep) (hc : cur ≠ STDIN_FILENO) :
    (fdGet (if op = .PIPE then s.piped else s).fds cur).isSome = true := by
  obtain ⟨_, _, _, _, hcur, _, _⟩ := pipe_fresh fds0 h0 cur s hinv
  rw [forkTable_get, if_neg (fun h => (hcur hc).2 h.2), if_neg (fun h => (hcur hc).1 h.2)]
  exact fdsInv_linkOk hinv hc

/-- The child of an external command in microshell_v1 reaches `execve` in the
state `childWired` when its `dup2`, `close` and `execve` calls succeed. -/
theorem v1_child_run_eq (fds0 : FdTable) (h0 : (fdGet fds0 0).isSome = true)
    (cmd : List String) (cur : Nat) (op : Sep) (s : St) (link : Option Nat)
    (hinv : FdsInv fds0 cur s) (hlink : LinkIs cur link s) (cenv : Env) (hc : ChildOk cenv) :
    V1.child_run cenv (childOf cmd cur op s)
      = .halt .execed ((childWired cenv cur op s).adv 1
          [Event.execve (cmd.getD 0 "") cmd true]) := by
  obtain ⟨_, _, w1, hwr, _, _, _⟩ := pipe_fresh fds0 h0 cur s hinv
  obtain ⟨_, _, ip⟩ := childIn_facts fds0 h0 cur op s link hinv hlink cenv
  have hin : V1.child_stdin cur (St.start cenv (if op = .PIPE then s.piped else s).fds)
      = .ok () (childIn cenv cur op s) := by
    rw [v1_child_stdin_ok cur (St.start cenv (if op = .PIPE then s.piped else s).fds) hc
      (childIn_open fds0 h0 cur s hinv op)]
    rfl
  have hce : ChildOk (childIn cenv cur op s).env := by rw [childIn_env]; exact hc
  have hout : V1.child_stdout op (if op = .PIPE then some (s.pipeR, s.pipeW) else none)
      (childIn cenv cur op s) = .ok () (childWired cenv cur op s) := by
    by_cases hp : op = .PIPE
    · subst hp
      rw [if_pos rfl]
      rw [v1_child_stdout_ok s.pipeR s.pipeW _ hce (by rw [(ip rfl).1]; rfl)
        (by rw [(ip rfl).2]; rfl) hwr w1]
      rfl
    · unfold V1.child_stdout childWired
      rw [if_neg hp, if_neg hp]
      rfl
  have hwe : (childWired cenv cur op s).env = cenv := by
    unfold childWired
    split
    · exact childIn_env cenv cur op s
    · exact childIn_env cenv cur op s
  show V1.child_branch cmd cur op (if op = .PIPE then some (s.pipeR, s.pipeW) else none)
    (St.start cenv (if op = .PIPE then s.piped else s).fds) = _
  unfold V1.child_branch
  simp only [run_bind, hin, hout]
  exact v1_child_exec_ok cmd _ (by rw [hwe]; exact hc.exec _)

/-- The child of an external command in microshell_v2 reaches `execve` in the
state `childWired` when its `dup2`, `close` and `execve` calls succeed. -/
theorem v2_child_run_eq (fds0 : FdTable) (h0 : (fdGet fds0 0).isSome = true)
    (cmd : List String) (cur : Nat) (op : Sep) (s : St) (link : Option Nat)
    (hinv : FdsInv fds0 cur s) (hlink : LinkIs cur link s) (cenv : Env) (hc : ChildOk cenv) :
    V2.child_run cenv (childOf cmd cur op s)
      = .halt .execed ((childWired cenv cur op s).adv 1
          [Event.execve (cmd.getD 0 "") cmd true]) := by
  obtain ⟨_, _, w1, hwr, _, _, _⟩ := pipe_fresh fds0 h0 cur s hinv
  obtain ⟨_, _, ip⟩ := childIn_facts fds0 h0 cur op s link hinv hlink cenv
  have hin : V2.child_stdin cur (St.start cenv (if op = .PIPE then s.piped else s).fds)
      = .ok () (childIn cenv cur op s) := by
    rw [v2_child_stdin_ok cur (St.start cenv (if op = .PIPE then s.piped else s).fds) hc
      (childIn_open fds0 h0 cur s hinv op)]
    rfl
  have hce : ChildOk (childIn cenv cur op s).env := by rw [childIn_env]; exact hc
  have hout : V2.child_stdout op (if op = .PIPE then some (s.pipeR, s.pipeW) else none)
      (childIn cenv cur op s) = .ok () (childWired cenv cur op s) := by
    by_cases hp : op = .PIPE
    · subst hp
      rw [if_pos rfl]
      rw [v2_child_stdout_ok s.pipeR s.pipeW _ hce (by rw [(ip rfl).1]; rfl)
        (by rw [(ip rfl).2]; rfl) hwr w1]
      rfl
    · unfold V2.child_stdout childWired
      rw [if_neg hp, if_neg hp]
      rfl
  have hwe : (childWired cenv cur op s).env = cenv := by
    unfold childWired
    split
    · exact childIn_env cenv cur op s
    · exact childIn_env cenv cur op s
  show V2.child_branch cmd cur op (if op = .PIPE then some (s.pipeR, s.pipeW) else none)
    (St.start cenv (if op = .PIPE then s.piped else s).fds) = _
  unfold V2.child_branch
  simp only [run_bind, hin, hout]
  exact v2_child_exec_ok cmd _ (by rw [hwe]; exact hc.exec _)

/-- A child forked under the descriptor invariant has the streams the
specification gives it, in either version. -/
theorem child_wiredAs (fds0 : FdTable) (h0 : (fdGet fds0 0).isSome = true)
    (cmd : List String) (cur : Nat) (op : Sep) (s : St) (link : Option Nat)
    (hinv : FdsInv fds0 cur s) (hlink : LinkIs cur link s) (cenv : Env) (hc : ChildOk cenv) :
    WiredAs fds0 ⟨cmd, link, if op = .PIPE then some s.npipes else none⟩ (childOf cmd cur op s)
        (V1.child_run cenv (childOf cmd cur op s)) ∧
      WiredAs fds0 ⟨cmd, link, if op = .PIPE then some s.npipes else none⟩ (childOf cmd cur op s)
        (V2.child_run cenv (childOf cmd cur op s)) := by
  obtain ⟨f0, f1, fj⟩ := childWired_facts fds0 h0 cur op s link hinv hlink cenv
  have hlast : ((childWired cenv cur op s).adv 1
      [Event.execve (cmd.getD 0 "") cmd true]).trace.getLast?
        = some (Event.execve (cmd.getD 0 "") cmd true) := by
    simp [St.adv]
  exact ⟨⟨rfl, _, v1_child_run_eq fds0 h0 cmd cur op s link hinv hlink cenv hc, hlast, f0, f1, fj⟩,
    ⟨rfl, _, v2_child_run_eq fds0 h0 cmd cur op s link hinv hlink cenv hc, hlast, f0, f1, fj⟩⟩

theorem closeIf_children (s : St) (cur : Nat) : (s.closeIf cur).children = s.children := by
  unfold St.closeIf; split <;> rfl

theorem closeIf_npipes (s : St) (cur : Nat) : (s.closeIf cur).npipes = s.npipes := by
  unfold St.closeIf; split <;> rfl

theorem spawnSt_children (cmd : List String) (cur : Nat) (op : Sep) (s : St) :
    (spawnSt cmd cur op s).children = s.children ++ [childOf cmd cur op s] := by
  unfold spawnSt childOf spawnPid
  split <;> split <;> rfl

theorem spawnSt_npipes (cmd : List String) (cur : Nat) (op : Sep) (s : St) :
    (spawnSt cmd cur op s).npipes = if op = .PIPE then s.npipes + 1 else s.npipes := by
  unfold spawnSt
  split <;> split <;> rfl

theorem v1_post_wire (cmd : List String) (op : Sep) (cur : Nat) (s s1 : St)
    (h : V1Post cmd op cur s s1) :
    s1.npipes = nextPipes cmd op s ∧ s1.children = s.children ++ stepChildren cmd cur op s := by
  unfold V1Post at h
  unfold nextPipes stepChildren
  by_cases hcd : isCdCmd cmd
  · rw [if_pos hcd] at h
    obtain ⟨n, evs, h1, _⟩ := h
    subst h1
    rw [if_neg (fun h => h.1 hcd), if_pos hcd, List.append_nil]
    constructor
    · show ((stepBase cmd op s).closeIf cur).npipes = _
      rw [closeIf_npipes]; rfl
    · show ((stepBase cmd op s).closeIf cur).children = _
      rw [closeIf_children]; rfl
  · rw [if_neg hcd] at h
    subst h
    rw [if_neg hcd]
    constructor
    · show (spawnSt cmd cur op (stepBase cmd op s)).npipes = _
      rw [spawnSt_npipes]
      by_cases hp : op = .PIPE
      · rw [if_pos hp, if_pos ⟨hcd, hp⟩]; rfl
      · rw [if_neg hp, if_neg (fun h => hp h.2)]; rfl
    · show (spawnSt cmd cur op (stepBase cmd op s)).children = _
      rw [spawnSt_children]; rfl

theorem childOf_forget (cmd : List String) (cur : Nat) (op : Sep) (s : St) :
    childOf cmd cur op (stepBase cmd op s.forget) = childOf cmd cur op (stepBase cmd op s) := by
  unfold childOf spawnPid
  split <;> rfl

theorem v2_post_wire (cmd : List String) (op : Sep) (cur : Nat) (s s1 : St)
    (h : V2Post cmd op cur s s1) :
    s1.npipes = nextPipes cmd op s ∧ s1.children = s.children ++ stepChildren cmd cur op s := by
  unfold V2Post at h
  unfold nextPipes stepChildren
  by_cases hcd : isCdCmd cmd
  · rw [if_pos hcd] at h
    obtain ⟨n, evs, h1, _⟩ := h
    subst h1
    rw [if_neg (fun h => h.1 hcd), if_pos hcd, List.append_nil]
    constructor
    · show ((stepBase cmd op s.forget).closeIf cur).npipes = _
      rw [closeIf_npipes]; rfl
    · show ((stepBase cmd op s.forget).closeIf cur).children = _
      rw [closeIf_children]; rfl
  · rw [if_neg hcd] at h
    rw [if_neg hcd]
    by_cases hp : op = .PIPE
    · rw [if_pos hp] at h
      subst h
      constructor
      · show (spawnSt cmd cur op (stepBase cmd op s.forget)).npipes = _
        rw [spawnSt_npipes, if_pos hp, if_pos ⟨hcd, hp⟩]; rfl
      · show (spawnSt cmd cur op (stepBase cmd op s.forget)).children = _
        rw [spawnSt_children, childOf_forget]; rfl
    · rw [if_neg hp] at h
      subst h
      constructor
      · show (spawnSt cmd cur op (stepBase cmd op s.forget)).npipes = _
        rw [spawnSt_npipes, if_neg hp, if_neg (fun h => hp h.2)]; rfl
      · show (spawnSt cmd cur op (stepBase cmd op s.forget)).children = _
        rw [spawnSt_children, childOf_forget]; rfl

theorem wire_step (fds0 : FdTable) (h0 : (fdGet fds0 0).isSome = true) (cmd : List String)
    (op : Sep) (cur : Nat) (s s1 : St) (hinv : FdsInv fds0 cur s)
    (hfds : ∀ j, fdGet s1.fds j = fdsAfter cmd op cur s j) :
    LinkIs (stepCur cmd op s) (nextLink cmd op s) s1 := by
  obtain ⟨r0, _, _, _, _, _, _⟩ := pipe_fresh fds0 h0 cur s hinv
  unfold nextLink
  by_cases h : ¬ isCdCmd cmd ∧ op = .PIPE
  · rw [if_pos h]
    have hc : stepCur cmd op s = s.pipeR := by
      unfold stepCur spawnCur
      rw [if_neg h.1, if_pos h.2]
      rfl
    rw [hc]
    refine ⟨r0, ?_⟩
    rw [hfds, fdsAfter, if_pos ⟨h.1, h.2, rfl⟩]
  · rw [if_neg h]
    show stepCur cmd op s = STDIN_FILENO
    by_cases hcd : isCdCmd cmd
    · unfold stepCur
      rw [if_pos hcd]
    · exact stepCur_nonpipe cmd op s (fun hp => h ⟨hcd, hp⟩)

theorem wiringSpec_cons (cmd : List String) (op : Sep) (rest : List Segment)
    (link : Option Nat) (s : St) :
    wiringSpec ((cmd, op) :: rest) link s.npipes
      = (if isCdCmd cmd then []
          else [(⟨cmd, link, if op = .PIPE then some s.npipes else none⟩ : Wiring)])
        ++ wiringSpec rest (nextLink cmd op s) (nextPipes cmd op s) := by
  unfold nextLink nextPipes
  rw [wiringSpec]
  by_cases hcd : isCdCmd cmd
  · simp [hcd]
  · by_cases hp : op = .PIPE
    · simp [hcd, hp]
    · simp [hcd, hp]

theorem step_wired (fds0 : FdTable) (h0 : (fdGet fds0 0).isSome = true) (cmd : List String)
    (op : Sep) (cur : Nat) (link : Option Nat) (s : St) (hinv : FdsInv fds0 cur s)
    (hlink : LinkIs cur link s) :
    ChildrenWired V1.child_run fds0 (stepChildren cmd cur op s)
        (if isCdCmd cmd then []
          else [(⟨cmd, link, if op = .PIPE then some s.npipes else none⟩ : Wiring)]) ∧
      ChildrenWired V2.child_run fds0 (stepChildren cmd cur op s)
        (if isCdCmd cmd then []
          else [(⟨cmd, link, if op = .PIPE then some s.npipes else none⟩ : Wiring)]) := by
  unfold stepChildren ChildrenWired
  by_cases hcd : isCdCmd cmd
  · rw [if_pos hcd, if_pos hcd]
    exact ⟨List.Forall₂.nil, List.Forall₂.nil⟩
  · rw [if_neg hcd, if_neg hcd]
    have hinv1 : FdsInv fds0 cur (stepBase cmd op s) := hinv
    have hlink1 : LinkIs cur link (stepBase cmd op s) := by
      cases link with
      | none => exact hlink
      | some k => exact hlink
    constructor
    · refine List.Forall₂.cons ?_ List.Forall₂.nil
      intro cenv hc
      exact (child_wiredAs fds0 h0 cmd cur op (stepBase cmd op s) link hinv1 hlink1 cenv hc).1
    · refine List.Forall₂.cons ?_ List.Forall₂.nil
      intro cenv hc
      exact (child_wiredAs fds0 h0 cmd cur op (stepBase cmd op s) link hinv1 hlink1 cenv hc).2

theorem childrenWired_append {run : Env → Child → Run Unit} {fds0 : FdTable}
    {cs1 cs2 : List Child} {ws1 ws2 : List Wiring} (h1 : ChildrenWired run fds0 cs1 ws1)
    (h2 : ChildrenWired run fds0 cs2 ws2) :
    ChildrenWired run fds0 (cs1 ++ cs2) (ws1 ++ ws2) :=
  List.rel_append h1 h2

theorem stepCur_forget (cmd : List String) (op : Sep) (s : St) :
    stepCur cmd op s.forget = stepCur cmd op s := by
  unfold stepCur spawnCur
  split
  · rfl
  · split <;> rfl

/-- The children forked by microshell_v2 over a list of segments have the
streams of the specification. -/
theorem v2_wiring_fold (fds0 : FdTable) (h0 : (fdGet fds0 0).isSome = true) :
    ∀ (segs : List Segment) (cur : Nat) (link : Option Nat) (s : St), PfcOk s.env →
      MallocOk s.env → WritesOk s.env → FdsInv fds0 cur s → LinkIs cur link s →
      ∃ c1 s1 cs, V2.run_segments segs cur s = .ok c1 s1 ∧ s1.children = s.children ++ cs ∧
        s1.env = s.env ∧ LinkOk c1 s1 ∧
        ChildrenWired V2.child_run fds0 cs (wiringSpec segs link s.npipes) := by
  intro segs
  induction segs with
  | nil =>
    intro cur link s _ _ _ hinv _
    exact ⟨cur, s, [], rfl, by simp, rfl, fdsInv_linkOk hinv, List.Forall₂.nil⟩
  | cons sg rest ih =>
    obtain ⟨cmd, op⟩ := sg
    intro cur link s hok hm hw hinv hlink
    have hl := fdsInv_linkOk hinv
    obtain ⟨s2, h2, hpost⟩ := v2_step_total cmd op cur s hok (hm _) hl hw
    obtain ⟨henv, _, hfds⟩ := v2_post_facts cmd op cur s s2 hl hpost
    obtain ⟨hnp, hch⟩ := v2_post_wire cmd op cur s s2 hpost
    have hinv2 : FdsInv fds0 (stepCur cmd op s) s2 :=
      fdsInv_step fds0 h0 cmd op cur s s2 hinv hfds
    have hlink2 := wire_step fds0 h0 cmd op cur s s2 hinv hfds
    obtain ⟨c1, s1, cs, g1, g2, g3, g4, g5⟩ := ih (stepCur cmd op s) (nextLink cmd op s) s2
      (henv ▸ hok) (henv ▸ hm) (henv ▸ hw) hinv2 hlink2
    refine ⟨c1, s1, stepChildren cmd cur op s ++ cs, ?_, ?_, g3.trans henv, g4, ?_⟩
    · rw [v2_run_segments_cons, run_bind, h2, stepCur_forget]
      exact g1
    · rw [g2, hch, List.append_assoc]
    · rw [wiringSpec_cons]
      rw [hnp] at g5
      exact childrenWired_append (step_wired fds0 h0 cmd op cur link s hinv hlink).2 g5

/-- One segment of microshell_v1 and what remains to be run after it, when
`malloc`, `pipe`, `fork` and `close` succeed and the tracking array has room
for the child of this segment. -/
theorem v1_cons_step_of (cmd : List String) (op : Sep) (rest : List Segment) (cur : Nat)
    (s : St) (hok : PfcOk s.env) (hm : MallocOk s.env) (hl : LinkOk cur s)
    (hstep : isCdCmd cmd ∨ s.g_pids.length < 2048) :
    ∃ s2 s3, V1Post cmd op cur s s2 ∧
      V1.run_segments ((cmd, op) :: rest) cur s
        = V1.run_segments rest (stepCur cmd op s) s3 ∧
      s3.fds = s2.fds ∧ s3.npipes = s2.npipes ∧ s3.children = s2.children ∧
      s3.env = s.env := by
  obtain ⟨s2, h2, hpost⟩ := v1_step_total cmd op cur s hok (hm _) hl hstep
  obtain ⟨henv, hdisp, hfds, hlen⟩ := v1_post_facts cmd op cur s s2 hl hpost
  have hl2 : LinkOk (stepCur cmd op s) s2 := stepCur_linkOk cmd op cur s s2 hfds
  have hok2 : PfcOk s2.env := henv ▸ hok
  by_cases hp : op = .PIPE
  · refine ⟨s2, s2, hpost, ?_, rfl, rfl, rfl, henv⟩
    simp only [V1.run_segments, run_bind, h2, if_pos hp]
  · have hz := stepCur_nonpipe cmd op s hp
    refine ⟨s2, (s2.waited s2.g_pids).forget, hpost, ?_, rfl, rfl, rfl, henv⟩
    simp only [V1.run_segments, run_bind, h2, if_neg hp,
      v1_end_group_ok (stepCur cmd op s) s2 hok2 hl2, reset_pids]
    rw [hz]
    rfl

/-- The children forked by microshell_v1 over a list of segments have the
streams of the specification; when the tracking array fills up the run stops
and the children forked so far are those of a prefix. -/
theorem v1_wiring_fold (fds0 : FdTable) (h0 : (fdGet fds0 0).isSome = true) :
    ∀ (segs : List Segment) (cur : Nat) (link : Option Nat) (s : St), PfcOk s.env →
      MallocOk s.env → FdsInv fds0 cur s → LinkIs cur link s →
      ∃ cs ws, (V1.run_segments segs cur s).st.children = s.children ++ cs ∧
        ChildrenWired V1.child_run fds0 cs ws ∧ ws <+: wiringSpec segs link s.npipes ∧
        ∀ c1 s1, V1.run_segments segs cur s = .ok c1 s1 →
          ws = wiringSpec segs link s.npipes ∧ LinkOk c1 s1 ∧ s1.env = s.env := by
  intro segs
  induction segs with
  | nil =>
    intro cur link s _ _ hinv _
    refine ⟨[], [], by simp [V1.run_segments, Run.st, run_pure], List.Forall₂.nil,
      List.nil_prefix, ?_⟩
    intro c1 s1 h
    cases h
    exact ⟨rfl, fdsInv_linkOk hinv, rfl⟩
  | cons sg rest ih =>
    obtain ⟨cmd, op⟩ := sg
    intro cur link s hok hm hinv hlink
    have hl := fdsInv_linkOk hinv
    have hw1 := (step_wired fds0 h0 cmd op cur link s hinv hlink).1
    by_cases hstep : isCdCmd cmd ∨ s.g_pids.length < 2048
    · obtain ⟨s2, s3, hpost, hrun, hf, hn, hc, henv⟩ :=
        v1_cons_step_of cmd op rest cur s hok hm hl hstep
      obtain ⟨_, _, hfds, _⟩ := v1_post_facts cmd op cur s s2 hl hpost
      obtain ⟨hnp, hch⟩ := v1_post_wire cmd op cur s s2 hpost
      have hfds3 : ∀ j, fdGet s3.fds j = fdsAfter cmd op cur s j := by
        intro j; rw [hf]; exact hfds j
      have hinv3 : FdsInv fds0 (stepCur cmd op s) s3 :=
        fdsInv_step fds0 h0 cmd op cur s s3 hinv hfds3
      have hlink3 := wire_step fds0 h0 cmd op cur s s3 hinv hfds3
      obtain ⟨cs, ws, g1, g2, g3, g4⟩ := ih (stepCur cmd op s) (nextLink cmd op s) s3
        (henv ▸ hok) (henv ▸ hm) hinv3 hlink3
      rw [hn, hnp] at g3 g4
      refine ⟨stepChildren cmd cur op s ++ cs, _ ++ ws, ?_, childrenWired_append hw1 g2, ?_, ?_⟩
      · rw [hrun, g1, hc, hch, List.append_assoc]
      · rw [wiringSpec_cons]
        exact (List.prefix_append_right_inj _).2 g3
      · intro c1 s1 h
        rw [hrun] at h
        obtain ⟨e1, e2, e3⟩ := g4 c1 s1 h
        rw [wiringSpec_cons, e1]
        exact ⟨rfl, e2, e3.trans henv⟩
    · have hcd : ¬ isCdCmd cmd := fun h => hstep (Or.inl h)
      have hlen : ¬ s.g_pids.length < 2048 := fun h => hstep (Or.inr h)
      obtain ⟨n, evs, hh, _⟩ := v1_step_full cmd op cur s hok (hm _) hl hcd hlen
      have hrun : V1.run_segments ((cmd, op) :: rest) cur s
          = .halt (.exited 1) ((spawnSt cmd cur op (stepBase cmd op s)).adv n evs) := by
        simp only [V1.run_segments, run_bind, hh]
      refine ⟨stepChildren cmd cur op s, _, ?_, hw1, ?_, ?_⟩
      · rw [hrun]
        show (spawnSt cmd cur op (stepBase cmd op s)).children = _
        rw [spawnSt_children]
        unfold stepChildren
        rw [if_neg hcd]
        rfl
      · rw [wiringSpec_cons]
        exact List.prefix_append _ _
      · intro c1 s1 h
        rw [hrun] at h
        cases h

theorem linkIs_start (env : Env) (fds0 : FdTable) :
    LinkIs STDIN_FILENO none (St.start env fds0) := rfl

theorem v2_main_children (env : Env) (fds0 : FdTable) (args : List String) (hok : PfcOk env)
    (hm : MallocOk env) (hw : WritesOk env) (h0 : (fdGet fds0 0).isSome = true) :
    ChildrenWired V2.child_run fds0 (V2.main args (St.start env fds0)).st.children
      (wiringSpec (refSplit args) none 0) := by
  rw [forget_children (v2_main_eq args (St.start env fds0))]
  unfold V2.main_spec
  by_cases hz : args.length = 0
  · have : args = [] := List.length_eq_zero.1 hz
    subst this
    exact List.Forall₂.nil
  · rw [if_neg hz]
    obtain ⟨c1, s1, cs, g1, g2, g3, g4, g5⟩ := v2_wiring_fold fds0 h0 (refSplit args)
      STDIN_FILENO none (St.start env fds0) hok hm hw (fdsInv_start fds0 env)
      (linkIs_start env fds0)
    obtain ⟨s2, evs, e1, _, e3, _⟩ := v2_main_end_ok c1 s1 (g3 ▸ hok) g4
    have hr : (do
        let cur ← V2.run_segments (refSplit args) STDIN_FILENO
        V2.main_end cur : M Nat) (St.start env fds0) = .ok 0 s2 := by
      simp only [run_bind, g1, e1]
    rw [hr]
    show ChildrenWired V2.child_run fds0 s2.children _
    rw [e3, g2]
    exact g5

theorem v1_main_children (env : Env) (fds0 : FdTable) (args : List String) (hok : PfcOk env)
    (hm : MallocOk env) (h0 : (fdGet fds0 0).isSome = true) :
    ∃ ws, ws <+: wiringSpec (refSplit args) none 0 ∧
      ChildrenWired V1.child_run fds0 (V1.main args (St.start env fds0)).st.children ws ∧
      (GroupsWithin 2048 (refSplit args) → ws = wiringSpec (refSplit args) none 0) := by
  rw [forget_children (v1_main_eq args (St.start env fds0))]
  unfold V1.main_spec
  by_cases hz : args.length = 0
  · have : args = [] := List.length_eq_zero.1 hz
    subst this
    exact ⟨[], List.nil_prefix, List.Forall₂.nil, fun _ => rfl⟩
  · rw [if_neg hz]
    obtain ⟨cs, ws, g1, g2, g3, g4⟩ := v1_wiring_fold fds0 h0 (refSplit args)
      STDIN_FILENO none (St.start env fds0) hok hm (fdsInv_start fds0 env)
      (linkIs_start env fds0)
    have hch : ((do
        reset_pids
        let _ ← V1.run_all (refSplit args) STDIN_FILENO
        pure 0 : M Nat) (St.start env fds0)).st.children = cs := by
      have hs : (reset_pids >>= fun _ => V1.run_all (refSplit args) STDIN_FILENO >>= fun _ =>
          (pure 0 : M Nat)) (St.start env fds0)
          = (V1.run_all (refSplit args) STDIN_FILENO >>= fun _ => (pure 0 : M Nat))
            (St.start env fds0) := rfl
      show ((reset_pids >>= fun _ => V1.run_all (refSplit args) STDIN_FILENO >>= fun _ =>
          (pure 0 : M Nat)) (St.start env fds0)).st.children = cs
      rw [hs]
      cases hr : V1.run_segments (refSplit args) STDIN_FILENO (St.start env fds0) with
      | ok c1 s1 =>
        obtain ⟨_, e2, e3⟩ := g4 c1 s1 hr
        rw [hr] at g1
        simp only [V1.run_all, run_bind, hr, v1_end_group_ok c1 s1 (e3 ▸ hok) e2, run_pure]
        show ((s1.waited s1.g_pids).closeIf c1).children = cs
        rw [(waited_closeIf_facts s1 c1).2.2]
        simpa [Run.st, St.start] using g1
      | halt h s1 =>
        rw [hr] at g1
        simp only [V1.run_all, run_bind, hr]
        simpa [Run.st, St.start] using g1
    rw [hch]
    refine ⟨ws, g3, g2, ?_⟩
    intro hg
    have hcap := capOk_of_groups _ hg
    have ho := v1_run_segments_outcome (refSplit args) STDIN_FILENO (St.start env fds0) hok hm
      (fun h => absurd rfl h)
    have hlen : (St.start env fds0).g_pids.length = 0 := rfl
    rw [hlen, if_pos hcap] at ho
    obtain ⟨c1, s1, hr, _⟩ := ho
    exact (g4 c1 s1 hr).1

/-- C3: child stream wiring, in both versions.  When every `malloc`, `pipe`,
`fork`, `close` and `write` call of the parent succeeds and standard input is
open at the start (so that `pipe` never returns descriptor 0), the children
forked by `main`, in order, are those of the external commands of the
reference split, and each child whose `dup2`, `close` and `execve` calls
succeed calls `execve` on its command with: descriptor 0 the read end of the
pipe created for the segment just before when that segment was an external
command followed by a pipe operator, and the standard input of the interpreter
otherwise; descriptor 1 the write end of a fresh pipe exactly when the command
is followed by a pipe operator, and the standard output of the interpreter
otherwise; every other descriptor as the interpreter was started with it, so
that no other end of a pipe stays open.  microshell_v1 stops after the 2049th
child of a pipeline group: its children are then those of a prefix of the
commands, wired in the same way. -/
theorem child_stream_wiring (env : Env) (fds0 : FdTable) (args : List String)
    (hok : PfcOk env) (hm : MallocOk env) (hw : WritesOk env)
    (h0 : (fdGet fds0 STDIN_FILENO).isSome = true) :
    ChildrenWired V2.child_run fds0 (V2.main args (St.start env fds0)).st.children
      (wiringSpec (refSplit args) none 0) ∧
    ∃ ws, ws <+: wiringSpec (refSplit args) none 0 ∧
      ChildrenWired V1.child_run fds0 (V1.main args (St.start env fds0)).st.children ws ∧
      (GroupsWithin 2048 (refSplit args) → ws = wiringSpec (refSplit args) none 0) :=
  ⟨v2_main_children env fds0 args hok hm hw h0, v1_main_children env fds0 args hok hm h0⟩

theorem child_stream_wiring_witness :
    PfcOk okEnv ∧ MallocOk okEnv ∧ WritesOk okEnv ∧
    (fdGet stdFds STDIN_FILENO).isSome = true ∧
    wiringSpec (refSplit ["a", "|", "b", "|", "cd", "x", "|", "c", ";", "d"]) none 0
      = [⟨["a"], none, some 0⟩, ⟨["b"], some 0, some 1⟩, ⟨["c"], none, none⟩,
         ⟨["d"], none, none⟩] ∧
    ChildrenWired V2.child_run stdFds
      (V2.main ["a", "|", "b", "|", "cd", "x", "|", "c", ";", "d"]
        (St.start okEnv stdFds)).st.children
      (wiringSpec (refSplit ["a", "|", "b", "|", "cd", "x", "|", "c", ";", "d"]) none 0) :=
  ⟨okEnv_pfc, okEnv_malloc, okEnv_writes, by decide!, by decide!,
    (child_stream_wiring okEnv stdFds ["a", "|", "b", "|", "cd", "x", "|", "c", ";", "d"]
      okEnv_pfc okEnv_malloc okEnv_writes (by decide!)).1⟩

/-! ## `execute_cd` and the child's report whatever the outcome of the writes -/

theorem sys_write_out (fd : Nat) (buf : List Char) (s : St) :
    ∃ r e, sys_write fd buf s = .ok r (s.adv 1 [e]) ∧ e.onFd fd = true ∧
      (r = none → e = Event.writeFail fd) ∧ (s.env.writeRes s.tick = none → r = none) := by
  unfold sys_write
  cases s.env.writeRes s.tick with
  | none => exact ⟨none, .writeFail fd, rfl, by simp [Event.onFd], fun _ => rfl, fun _ => rfl⟩
  | some k =>
    exact ⟨_, .write fd _, rfl, by simp [Event.onFd], fun h => (by cases h), fun h => (by cases h)⟩

theorem v1_putstr_loop_out (fd : Nat) :
    ∀ (fuel : Nat) (rest : List Char) (s : St),
      ∃ n evs, V1.ft_putstr_loop fd fuel rest s = .ok () (s.adv n evs) ∧
        ∀ e ∈ evs, e.onFd fd = true := by
  intro fuel
  induction fuel with
  | zero => intro rest s; exact ⟨0, [], by simp [V1.ft_putstr_loop], by simp⟩
  | succ fuel ih =>
    intro rest s
    by_cases hr : rest = []
    · exact ⟨0, [], by simp [V1.ft_putstr_loop, hr], by simp⟩
    · obtain ⟨r, e, h1, h2, _, _⟩ := sys_write_out fd rest s
      cases r with
      | none =>
        refine ⟨1, [e], by simp [V1.ft_putstr_loop, hr, h1], by simp [h2]⟩
      | some k =>
        obtain ⟨n, evs, h3, h4⟩ := ih (rest.drop k) (s.adv 1 [e])
        refine ⟨1 + n, e :: evs, ?_, ?_⟩
        · simp [V1.ft_putstr_loop, hr, h1, h3]
        · intro x hx
          rcases List.mem_cons.1 hx with h | h
          · rw [h]; exact h2
          · exact h4 x h

theorem v1_putstr_out (str : List Char) (fd : Nat) (s : St) :
    ∃ n evs, V1.ft_putstr_fd str fd s = .ok () (s.adv n evs) ∧
      ∀ e ∈ evs, e.onFd fd = true := by
  unfold V1.ft_putstr_fd
  split
  · exact v1_putstr_loop_out fd _ _ s
  · exact ⟨0, [], by simp, by simp⟩

theorem v1_putstr3_out (a b c : List Char) (fd : Nat) (s : St) :
    ∃ n evs, (do V1.ft_putstr_fd a fd; V1.ft_putstr_fd b fd; V1.ft_putstr_fd c fd : M Unit) s
        = .ok () (s.adv n evs) ∧ ∀ e ∈ evs, e.onFd fd = true := by
  obtain ⟨n1, e1, h1, g1⟩ := v1_putstr_out a fd s
  obtain ⟨n2, e2, h2, g2⟩ := v1_putstr_out b fd (s.adv n1 e1)
  obtain ⟨n3, e3, h3, g3⟩ := v1_putstr_out c fd ((s.adv n1 e1).adv n2 e2)
  refine ⟨n1 + n2 + n3, e1 ++ e2 ++ e3, ?_, ?_⟩
  · simp only [run_bind, h1, h2, h3]
    simp only [adv_adv]
  · intro e he
    simp only [List.mem_append] at he
    rcases he with (h | h) | h
    · exact g1 e h
    · exact g2 e h
    · exact g3 e h

/-- The calls and the result of `execute_cd` in microshell_v1, whatever the
outcome of its writes. -/
theorem v1_execute_cd_calls (args : List String) (s : St) :
    ∃ n evs, V1.execute_cd args s = .ok (cdRet args s) (s.adv n evs) ∧ CdCalls args s evs := by
  unfold cdRet CdCalls
  by_cases hl : args.length ≠ 2
  · obtain ⟨n, evs, h1, h2⟩ := v1_putstr_out "error: cd: bad arguments\n".toList STDERR_FILENO s
    refine ⟨n, evs, ?_, ?_⟩
    · simp only [V1.execute_cd, V1.cd_bad_args_error, if_pos hl, run_bind, h1, run_pure]
      rw [if_neg (fun h => hl h.1)]
    · rw [if_pos hl]; exact h2
  · have hl2 : args.length = 2 := not_not.1 hl
    have hch : sys_chdir (args.getD 1 "") s
        = .ok (s.env.chdirOk s.tick) (s.adv 1 [.chdir (args.getD 1 "") (s.env.chdirOk s.tick)]) :=
      rfl
    simp only [if_neg hl]
    cases hc : s.env.chdirOk s.tick with
    | true =>
      refine ⟨1, [.chdir (args.getD 1 "") true], ?_, ⟨[], rfl, by simp, fun _ => rfl⟩⟩
      simp only [V1.execute_cd, if_neg hl, run_bind, hch, hc, if_true, run_pure]
      simp [hl2]
    | false =>
      obtain ⟨n, evs, h1, g1⟩ := v1_putstr3_out "error: cd: cannot change directory to ".toList
        (args.getD 1 "").toList "\n".toList STDERR_FILENO
        (s.adv 1 [.chdir (args.getD 1 "") false])
      refine ⟨1 + n, .chdir (args.getD 1 "") false :: evs, ?_,
        ⟨evs, rfl, g1, fun h => (by cases h)⟩⟩
      have h1b : V1.cd_chdir_error (args.getD 1 "") (s.adv 1 [.chdir (args.getD 1 "") false])
          = .ok () ((s.adv 1 [.chdir (args.getD 1 "") false]).adv n evs) := h1
      simp only [V1.execute_cd, if_neg hl, run_bind, hch, hc, h1b,
        Bool.false_eq_true, if_false, run_pure, adv_adv]
      simp

theorem errRun_pure {α : Type} (a : α) (s : St) : ErrRun s ((pure a : M α) s) :=
  ⟨0, [], by simp [Run.st], by simp, Or.inl rfl⟩

theorem errRun_bind {α β : Type} {m : M α} {k : α → M β} {s : St}
    (hm : ErrRun s (m s)) (hk : ∀ a s1, m s = .ok a s1 → ErrRun s1 (k a s1)) :
    ErrRun s ((m >>= k) s) := by
  obtain ⟨n, evs, h1, h2, h3⟩ := hm
  simp only [run_bind]
  cases hr : m s with
  | ok a s1 =>
    rw [hr] at h1
    simp only [Run.st] at h1
    obtain ⟨n2, evs2, g1, g2, g3⟩ := hk a s1 hr
    refine ⟨n + n2, evs ++ evs2, ?_, ?_, ?_⟩
    · rw [g1, h1, adv_adv]
    · intro e he
      rcases List.mem_append.1 he with h | h
      · exact h2 e h
      · exact g2 e h
    · rcases g3 with g3 | ⟨g3, g4⟩
      · exact Or.inl g3
      · exact Or.inr ⟨g3, List.mem_append_right _ g4⟩
  | halt h s1 =>
    rw [hr] at h1 h3
    refine ⟨n, evs, h1, h2, Or.inr ?_⟩
    rcases h3 with h3 | ⟨⟨s2, h3⟩, h4⟩
    · cases h3
    · cases h3
      exact ⟨⟨_, rfl⟩, h4⟩

theorem v2_putstr_loop_err (str : List Char) :
    ∀ (fuel : Nat) (rest : List Char) (s : St),
      ErrRun s (V2.ft_putstr_loop str STDERR_FILENO fuel rest s) := by
  intro fuel
  induction fuel with
  | zero => intro rest s; exact errRun_pure _ s
  | succ fuel ih =>
    intro rest s
    unfold V2.ft_putstr_loop
    split
    · exact errRun_pure _ s
    · obtain ⟨r, e, h1, h2, h3, _⟩ := sys_write_out STDERR_FILENO rest s
      simp only [run_bind, h1]
      cases r with
      | none =>
        have he : e = Event.writeFail STDERR_FILENO := h3 rfl
        show ErrRun s ((if _ then _ else _ : M Unit) (s.adv 1 [e]))
        split
        · obtain ⟨r2, e2, g1, g2, _, _⟩ := sys_write_out STDERR_FILENO "error: fatal\n".toList
            (s.adv 1 [e])
          refine ⟨1 + 1, [e, e2], ?_, ?_, Or.inr ⟨⟨(s.adv 1 [e]).adv 1 [e2], ?_⟩, ?_⟩⟩
          · simp only [V2.fatal_error, run_bind, g1, sys_exit, Run.st, adv_adv]
            rfl
          · intro x hx
            simp only [List.mem_cons, List.mem_singleton, List.not_mem_nil, or_false] at hx
            rcases hx with h | h
            · rw [h]; exact h2
            · rw [h]; exact g2
          · simp only [V2.fatal_error, run_bind, g1, sys_exit]
          · rw [he]; exact List.mem_cons_self _ _
        · exact ⟨1, [e], rfl, by simp [h2], Or.inl rfl⟩
      | some k =>
        obtain ⟨n, evs, g1, g2, g3⟩ := ih (rest.drop k) (s.adv 1 [e])
        refine ⟨1 + n, e :: evs, ?_, ?_, ?_⟩
        · show (V2.ft_putstr_loop str STDERR_FILENO fuel (rest.drop k) (s.adv 1 [e])).st = _
          rw [g1, adv_adv]
          rfl
        · intro x hx
          rcases List.mem_cons.1 hx with h | h
          · rw [h]; exact h2
          · exact g2 x h
        · rcases g3 with g3 | ⟨g3, g4⟩
          · exact Or.inl g3
          · exact Or.inr ⟨g3, List.mem_cons_of_mem _ g4⟩

theorem v2_putstr_err (str : List Char) (s : St) :
    ErrRun s (V2.ft_putstr_fd str STDERR_FILENO s) := by
  unfold V2.ft_putstr_fd
  split
  · exact errRun_pure _ s
  · exact v2_putstr_loop_err str _ _ s

theorem errRun_cases {α : Type} {s : St} {r : Run α} (h : ErrRun s r) :
    ∃ n evs, (∀ e ∈ evs, e.onFd STDERR_FILENO = true) ∧
      ((∃ a, r = .ok a (s.adv n evs)) ∨
        (r = .halt (.exited 1) (s.adv n evs) ∧ Event.writeFail STDERR_FILENO ∈ evs)) := by
  obtain ⟨n, evs, h1, h2, h3⟩ := h
  refine ⟨n, evs, h2, ?_⟩
  cases r with
  | ok a s1 =>
    left
    simp only [Run.st] at h1
    exact ⟨a, by rw [h1]⟩
  | halt hh s1 =>
    right
    simp only [Run.st] at h1
    rcases h3 with h3 | ⟨⟨s2, h3⟩, h4⟩
    · cases h3
    · cases h3
      exact ⟨by rw [h1], h4⟩

/-- A failed first `write` of a string other than the fatal message makes
`ft_putstr_fd` of microshell_v2 exit with status 1. -/
theorem v2_putstr_first_fail (str : List Char) (s : St) (hne : str ≠ [])
    (hx : str ≠ "error: fatal\n".toList) (hw : s.env.writeRes s.tick = none) :
    ∃ s1, V2.ft_putstr_fd str STDERR_FILENO s = .halt (.exited 1) s1 := by
  have hlen : str.length ≠ 0 := fun h => hne (List.length_eq_zero.1 h)
  obtain ⟨k, hk⟩ : ∃ k, str.length = k + 1 := ⟨str.length - 1, by omega⟩
  unfold V2.ft_putstr_fd
  rw [if_neg hlen, hk]
  unfold V2.ft_putstr_loop
  rw [if_neg hne]
  obtain ⟨r, e, h1, _, _, h4⟩ := sys_write_out STDERR_FILENO str s
  have hr := h4 hw
  subst hr
  simp only [run_bind, h1]
  split
  · obtain ⟨n, evs, g1, _⟩ := v2_fatal_halts (α := Unit) (s.adv 1 [e])
    exact ⟨_, g1⟩
  · rename_i hc
    exact absurd (fun h : _ ∧ str = "error: fatal\n".toList => hx h.2) hc

/-- The calls and the outcome of `execute_cd` in microshell_v2, whatever the
outcome of its writes: it returns the same value as in microshell_v1, or exits
with status 1 after a failed write. -/
theorem v2_execute_cd_calls (args : List String) (s : St) :
    ∃ n evs, CdCalls args s evs ∧
      (V2.execute_cd args s = .ok (cdRet args s) (s.adv n evs) ∨
        (V2.execute_cd args s = .halt (.exited 1) (s.adv n evs) ∧
          Event.writeFail STDERR_FILENO ∈ evs)) := by
  unfold cdRet CdCalls
  by_cases hl : args.length ≠ 2
  · obtain ⟨n, evs, h2, h3⟩ :=
      errRun_cases (v2_putstr_err "error: cd: bad arguments\n".toList s)
    refine ⟨n, evs, by rw [if_pos hl]; exact h2, ?_⟩
    rcases h3 with ⟨_, h3⟩ | ⟨h3, h4⟩
    · left
      simp only [V2.execute_cd, V2.cd_bad_args_error, if_pos hl, run_bind, h3, run_pure]
      rw [if_neg (fun h => hl h.1)]
    · right
      refine ⟨?_, h4⟩
      simp only [V2.execute_cd, V2.cd_bad_args_error, if_pos hl, run_bind, h3]
  · have hl2 : args.length = 2 := not_not.1 hl
    have hch : sys_chdir (args.getD 1 "") s
        = .ok (s.env.chdirOk s.tick) (s.adv 1 [.chdir (args.getD 1 "") (s.env.chdirOk s.tick)]) :=
      rfl
    simp only [if_neg hl]
    cases hc : s.env.chdirOk s.tick with
    | true =>
      refine ⟨1, [.chdir (args.getD 1 "") true], ⟨[], rfl, by simp, fun _ => rfl⟩, Or.inl ?_⟩
      simp only [V2.execute_cd, if_neg hl, run_bind, hch, hc, if_true, run_pure]
      simp [hl2]
    | false =>
      have herr : ErrRun (s.adv 1 [.chdir (args.getD 1 "") false])
          (V2.cd_chdir_error (args.getD 1 "") (s.adv 1 [.chdir (args.getD 1 "") false])) := by
        unfold V2.cd_chdir_error
        exact errRun_bind (v2_putstr_err _ _) (fun _ s2 _ =>
          errRun_bind (v2_putstr_err _ s2) (fun _ s3 _ => v2_putstr_err _ s3))
      obtain ⟨n, evs, h2, h3⟩ := errRun_cases herr
      refine ⟨1 + n, .chdir (args.getD 1 "") false :: evs,
        ⟨evs, rfl, h2, fun h => (by cases h)⟩, ?_⟩
      rcases h3 with ⟨_, h3⟩ | ⟨h3, h4⟩
      · left
        simp only [V2.execute_cd, if_neg hl, run_bind, hch, hc, h3,
          Bool.false_eq_true, if_false, run_pure, adv_adv]
        simp
      · right
        refine ⟨?_, List.mem_cons_of_mem _ h4⟩
        simp only [V2.execute_cd, if_neg hl, run_bind, hch, hc, h3,
          Bool.false_eq_true, if_false, adv_adv]
        simp

/-- In microshell_v2 `execute_cd` exits with status 1 when the first write of
its diagnostic fails. -/
theorem v2_execute_cd_exits (args : List String) (s : St)
    (h : args.length ≠ 2 ∨ s.env.chdirOk s.tick = false)
    (hw : s.env.writeRes (if args.length ≠ 2 then s.tick else s.tick + 1) = none) :
    ∃ s1, V2.execute_cd args s = .halt (.exited 1) s1 := by
  by_cases hl : args.length ≠ 2
  · rw [if_pos hl] at hw
    obtain ⟨s1, h1⟩ := v2_putstr_first_fail "error: cd: bad arguments\n".toList s
      (by decide) (by decide) hw
    refine ⟨s1, ?_⟩
    simp only [V2.execute_cd, V2.cd_bad_args_error, if_pos hl, run_bind, h1]
  · rw [if_neg hl] at hw
    have hc : s.env.chdirOk s.tick = false := by
      rcases h with h | h
      · exact absurd h hl
      · exact h
    have hch : sys_chdir (args.getD 1 "") s
        = .ok false (s.adv 1 [.chdir (args.getD 1 "") false]) := by
      simp [sys_chdir, hc, St.adv]
    obtain ⟨s1, h1⟩ := v2_putstr_first_fail "error: cd: cannot change directory to ".toList
      (s.adv 1 [.chdir (args.getD 1 "") false]) (by decide) (by decide) hw
    refine ⟨s1, ?_⟩
    simp only [V2.execute_cd, if_neg hl, run_bind, hch, V2.cd_chdir_error, h1,
      Bool.false_eq_true, if_false]

/-- C5 (amended): `execute_cd` on a vector starting with `cd`.  In both
versions, whatever the outcome of the writes: with a token count other than 2
it never calls `chdir` and only writes to the error stream; with 2 tokens it
first calls `chdir` once on the second token, returns 0 with no output when
that succeeds, and only writes to the error stream when it fails.  In
microshell_v1 it always returns, with 1 in the two error cases.  In
microshell_v2 it returns the same value or exits with status 1, which it does
only after a write to the error stream has failed, and which it does when the
first write of the diagnostic fails.  In both versions, when no write fails,
it returns and the bytes written are exactly the bad-arguments line, or the
cannot-change line naming the second token. -/
theorem execute_cd_spec (args : List String) (s : St) (_hcd : args.head? = some "cd") :
    (∃ n evs, V1.execute_cd args s = .ok (cdRet args s) (s.adv n evs) ∧ CdCalls args s evs) ∧
    (∃ n evs, CdCalls args s evs ∧
      (V2.execute_cd args s = .ok (cdRet args s) (s.adv n evs) ∨
        (V2.execute_cd args s = .halt (.exited 1) (s.adv n evs) ∧
          Event.writeFail STDERR_FILENO ∈ evs))) ∧
    (args.length ≠ 2 ∨ s.env.chdirOk s.tick = false →
      s.env.writeRes (if args.length ≠ 2 then s.tick else s.tick + 1) = none →
      ∃ s1, V2.execute_cd args s = .halt (.exited 1) s1) ∧
    (WritesOk s.env →
      CdContract args s (V1.execute_cd args s) ∧ CdContract args s (V2.execute_cd args s)) :=
  ⟨v1_execute_cd_calls args s, v2_execute_cd_calls args s, v2_execute_cd_exits args s,
    fun hw => ⟨v1_execute_cd_contract args s hw, v2_execute_cd_contract args s hw⟩⟩

theorem execute_cd_spec_witness :
    ["cd", "/nonexistent"].head? = some "cd" ∧ WritesOk (St.start noChdirEnv stdFds).env ∧
    (St.start noChdirEnv stdFds).env.chdirOk (St.start noChdirEnv stdFds).tick = false ∧
    CdContract ["cd", "/nonexistent"] (St.start noChdirEnv stdFds)
      (V1.execute_cd ["cd", "/nonexistent"] (St.start noChdirEnv stdFds)) ∧
    CdContract ["cd", "/nonexistent"] (St.start noChdirEnv stdFds)
      (V2.execute_cd ["cd", "/nonexistent"] (St.start noChdirEnv stdFds)) ∧
    (V2.execute_cd ["cd", "/nonexistent"] (St.start noChdirEnv stdFds)).code = some 1 ∧
    written STDERR_FILENO
        (V2.execute_cd ["cd", "/nonexistent"] (St.start noChdirEnv stdFds)).st.trace
      = "error: cd: cannot change directory to /nonexistent\n".toList ∧
    CdContract ["cd"] (St.start okEnv stdFds) (V2.execute_cd ["cd"] (St.start okEnv stdFds)) ∧
    written STDERR_FILENO (V2.execute_cd ["cd"] (St.start okEnv stdFds)).st.trace
      = "error: cd: bad arguments\n".toList ∧
    (∃ s1, V2.execute_cd ["cd", "/nonexistent"] (St.start noChdirWriteEnv stdFds)
      = .halt (.exited 1) s1) :=
  ⟨rfl, fun _ => rfl, rfl,
    ((execute_cd_spec ["cd", "/nonexistent"] (St.start noChdirEnv stdFds) rfl).2.2.2
      (fun _ => rfl)).1,
    ((execute_cd_spec ["cd", "/nonexistent"] (St.start noChdirEnv stdFds) rfl).2.2.2
      (fun _ => rfl)).2,
    by decide!, by decide!,
    ((execute_cd_spec ["cd"] (St.start okEnv stdFds) rfl).2.2.2 (fun _ => rfl)).2,
    by decide!,
    (execute_cd_spec ["cd", "/nonexistent"] (St.start noChdirWriteEnv stdFds) rfl).2.2.1
      (Or.inr rfl) rfl⟩

/-- A child of microshell_v1 whose `execve` failed exits with status 1 after
nothing but writes to the error stream, whatever their outcome. -/
theorem v1_child_exec_halts (cmd : List String) (s : St)
    (he : s.env.execOk s.tick = false) :
    ∃ n evs, V1.child_exec cmd s
        = .halt (.exited 1) ((s.adv 1 [Event.execve (cmd.getD 0 "") cmd false]).adv n evs) ∧
      ∀ e ∈ evs, e.onFd STDERR_FILENO = true := by
  have h0 : sys_execve (cmd.getD 0 "") cmd s
      = .ok () (s.adv 1 [Event.execve (cmd.getD 0 "") cmd false]) := by
    simp [sys_execve, he, St.adv]
  obtain ⟨n1, e1, h1, g1⟩ := v1_putstr_out "error: cannot execute ".toList STDERR_FILENO
    (s.adv 1 [Event.execve (cmd.getD 0 "") cmd false])
  obtain ⟨n2, e2, h2, g2⟩ := v1_putstr_out (cmd.getD 0 "").toList STDERR_FILENO
    ((s.adv 1 [Event.execve (cmd.getD 0 "") cmd false]).adv n1 e1)
  obtain ⟨n3, e3, h3, g3⟩ := v1_putstr_out "\n".toList STDERR_FILENO
    (((s.adv 1 [Event.execve (cmd.getD 0 "") cmd false]).adv n1 e1).adv n2 e2)
  refine ⟨n1 + n2 + n3, e1 ++ e2 ++ e3, ?_, ?_⟩
  · simp only [V1.child_exec, V1.execve_error, run_bind, h0, h1, h2, h3, sys_exit]
    simp only [adv_adv, Nat.add_assoc, List.append_assoc]
  · intro e he
    simp only [List.mem_append] at he
    rcases he with (h | h) | h
    · exact g1 e h
    · exact g2 e h
    · exact g3 e h

/-- C6 (amended): in microshell_v1, a forked child whose redirections are done
and whose `execve` fails makes no further call but writes to the error stream
and exits with status 1, whatever the outcome of these writes; when they
succeed it writes exactly "error: cannot execute ", the segment's first token
and a newline.  The parent does not depend on it: for every token list and
every outcome `ex` of the `execve` calls, `main` runs in the same way (same
result, same trace of calls, same children); its exit code is 0 when `malloc`,
`pipe`, `fork` and `close` succeed and no pipeline group has more than 2048
external commands.  On `does-not-exist ; echo ok` with every `execve` failing
the parent forks and waits for both commands and returns 0. -/
theorem v1_exec_failure_contained (env : Env) (fds : FdTable) (args : List String)
    (ex : Nat → Bool) (cmd : List String) (cur : Nat) (op : Sep) (pf : Option (Nat × Nat))
    (s s2 : St)
    (hredir : (V1.child_stdin cur >>= fun _ => V1.child_stdout op pf) s = .ok () s2)
    (he : s2.env.execOk s2.tick = false) :
    (∃ s3 evs, V1.child_branch cmd cur op pf s = .halt (.exited 1) s3 ∧
      s3.trace = s2.trace ++ Event.execve (cmd.getD 0 "") cmd false :: evs ∧
      (∀ e ∈ evs, e.onFd STDERR_FILENO = true) ∧
      (WritesOk s2.env → OnlyWrites STDERR_FILENO evs ∧
        written STDERR_FILENO evs
          = "error: cannot execute ".toList ++ (cmd.getD 0 "").toList ++ "\n".toList)) ∧
    V1.main args (St.start (env.withExec ex) fds)
      = (V1.main args (St.start env fds)).withExec ex ∧
    (V1.main args (St.start (env.withExec ex) fds)).code
      = (V1.main args (St.start env fds)).code ∧
    (V1.main args (St.start (env.withExec ex) fds)).st.trace
      = (V1.main args (St.start env fds)).st.trace ∧
    (V1.main args (St.start (env.withExec ex) fds)).st.children
      = (V1.main args (St.start env fds)).st.children ∧
    (PfcOk env → MallocOk env → GroupsWithin 2048 (refSplit args) →
      (V1.main args (St.start env fds)).code = some 0) ∧
    (V1.main ["does-not-exist", ";", "echo", "ok"] (St.start noExecEnv stdFds)).st.trace
      = [.fork 2, .waitpid 2, .fork 4, .waitpid 4] ∧
    (V1.main ["does-not-exist", ";", "echo", "ok"] (St.start noExecEnv stdFds)).code = some 0 := by
  have hmain : V1.main args (St.start (env.withExec ex) fds)
      = (V1.main args (St.start env fds)).withExec ex :=
    v1_execFree_main args (St.start env fds) ex
  have hb : V1.child_branch cmd cur op pf s = V1.child_exec cmd s2 := by
    have hb1 : V1.child_branch cmd cur op pf
        = (V1.child_stdin cur >>= fun _ => V1.child_stdout op pf) >>= fun _ =>
          V1.child_exec cmd := by
      unfold V1.child_branch
      rw [M_bind_assoc]
    rw [hb1, run_bind, hredir]
  refine ⟨?_, hmain, ?_, ?_, ?_, ?_, by decide!, by decide!⟩
  · obtain ⟨n, evs, h1, h2⟩ := v1_child_exec_halts cmd s2 he
    refine ⟨_, evs, hb.trans h1, by simp [St.adv], h2, ?_⟩
    intro hw
    obtain ⟨s3, evs1, k1, k2, k3, k4⟩ := v1_child_exec_fails cmd s2 hw he
    rw [h1] at k1
    cases k1
    have hev : evs = evs1 := by
      have : s2.trace ++ Event.execve (cmd.getD 0 "") cmd false :: evs
          = s2.trace ++ Event.execve (cmd.getD 0 "") cmd false :: evs1 := by
        rw [← k2]
        simp [St.adv]
      exact List.cons_inj_right _ |>.1 (List.append_cancel_left this)
    rw [hev]
    exact ⟨k3, k4⟩
  · rw [hmain]
    cases V1.main args (St.start env fds) with
    | ok a s1 => rfl
    | halt h s1 => cases h <;> rfl
  · rw [hmain]
    cases V1.main args (St.start env fds) <;> rfl
  · rw [hmain]
    cases V1.main args (St.start env fds) <;> rfl
  · intro hok hm hg
    rw [v1_main_code env fds args hok hm, if_pos (capOk_of_groups _ hg)]

theorem v1_exec_failure_contained_witness :
    (V1.child_stdin 0 >>= fun _ => V1.child_stdout .SEMI none) (St.start noExecEnv stdFds)
        = .ok () (St.start noExecEnv stdFds) ∧
      (St.start noExecEnv stdFds).env.execOk (St.start noExecEnv stdFds).tick = false ∧
      WritesOk noExecEnv ∧
      (∃ s3 evs, V1.child_branch ["does-not-exist"] 0 .SEMI none (St.start noExecEnv stdFds)
          = .halt (.exited 1) s3 ∧
        s3.trace = Event.execve "does-not-exist" ["does-not-exist"] false :: evs ∧
        written STDERR_FILENO evs = "error: cannot execute does-not-exist\n".toList) ∧
      ∃ s3, V1.child_branch ["does-not-exist"] 0 .SEMI none (St.start noExecWriteEnv stdFds)
          = .halt (.exited 1) s3 :=
  ⟨rfl, rfl, fun _ => rfl,
    match (v1_exec_failure_contained okEnv stdFds ["does-not-exist", ";", "echo", "ok"]
      (fun _ => false) ["does-not-exist"] 0 .SEMI none (St.start noExecEnv stdFds)
      (St.start noExecEnv stdFds) rfl rfl).1 with
    | ⟨s3, evs, h1, h2, _, h4⟩ => ⟨s3, evs, h1, h2, (h4 (fun _ => rfl)).2⟩,
    match (v1_exec_failure_contained okEnv stdFds ["does-not-exist", ";", "echo", "ok"]
      (fun _ => false) ["does-not-exist"] 0 .SEMI none (St.start noExecWriteEnv stdFds)
      (St.start noExecWriteEnv stdFds) rfl rfl).1 with
    | ⟨s3, _, h1, _, _, _⟩ => ⟨s3, h1⟩⟩

end Microshell
